import Mathlib

/-!
despairspy: packed-sample codec, int16 IQ converter and driver control.

A shallow embedding of `unpack_samples` (airspy.c), of the converter of
iqconverter_int16.c (`iqconverter_int16_init`, `iqconverter_int16_reset`,
`fir_interleaved`, `delay_interleaved`, `_remove_dc_sample`, `remove_dc`,
`translate_fs_4`, `iqconverter_int16_process`) and of the control and
streaming functions of airspy.c (completion handler, `airspy_do_rx`,
`airspy_term_rx`, `airspy_close`, sample rate, gains, packing, device
selection), followed by the properties proved about them.

Conventions of the embedding:

* C integers are unbounded `Int`/`Nat` values; every conversion to a fixed
  width that the C code performs is written out (`trunc16`, `trunc32`,
  `to_uint16`, `to_uint32`), with two-s complement wrap-around.
* `>>` on a signed value is the arithmetic shift `>>>` of `Int`; `<<` by `k`
  is multiplication by `2 ^ k` before the conversion to the result type.
* Arrays owned by the converter (`fir_kernel`, `fir_queue`, `delay_line`) and
  the two buffers of `unpack_samples` are total maps from index to value.
* A sample buffer `samples[0 .. len)` handed to the converter is the list of
  its `len` elements; a loop that would step outside the buffer (undefined in
  C) yields `none`.
-/

namespace Despairspy

/-! ## Definitions -/

/-! ### Machine integers -/

/-- Conversion of an integer to `int16_t` (wrap-around). -/
def trunc16 (z : Int) : Int := (z + 32768) % 65536 - 32768

/-- Conversion of an integer to `int32_t` (wrap-around). -/
def trunc32 (z : Int) : Int := (z + 2147483648) % 4294967296 - 2147483648

/-- Conversion of an unsigned value to `uint16_t`. -/
def to_uint16 (v : Nat) : Nat := v % 65536

/-- Conversion of an unsigned value to `uint32_t`. -/
def to_uint32 (v : Nat) : Nat := v % 4294967296

/-- Array store `buf[k] = v`. -/
def store {α : Type} (buf : Nat → α) (k : Nat) (v : α) : Nat → α :=
  fun n => if n = k then v else buf n

/-! ### airspy.c: `unpack_samples` -/

/-- Right-hand side of the assignment to `output[j + t]` in the body of the
loop of `unpack_samples`, for `w0 = input[i]`, `w1 = input[i + 1]`,
`w2 = input[i + 2]` and `t = 0 .. 7`. -/
def unpack_field (w0 w1 w2 : Nat) : Nat → Nat
  | 0 => to_uint16 ((w0 >>> 20) &&& 0xfff)
  | 1 => to_uint16 ((w0 >>> 8) &&& 0xfff)
  | 2 => to_uint16 (to_uint32 ((w0 &&& 0xff) <<< 4) ||| ((w1 >>> 28) &&& 0xf))
  | 3 => to_uint16 ((w1 &&& 0xfff0000) >>> 16)
  | 4 => to_uint16 ((w1 &&& 0xfff0) >>> 4)
  | 5 => to_uint16 (to_uint32 ((w1 &&& 0xf) <<< 8) ||| ((w2 &&& 0xff000000) >>> 24))
  | 6 => to_uint16 ((w2 >>> 12) &&& 0xfff)
  | _ => to_uint16 (w2 &&& 0xfff)

/-- One pass through the body of the loop of `unpack_samples`: the eight
stores to `output[j + 0] .. output[j + 7]`. -/
def unpack_body (input output : Nat → Nat) (i j : Nat) : Nat → Nat :=
  let f := unpack_field (input i) (input (i + 1)) (input (i + 2))
  store (store (store (store (store (store (store (store output
    (j + 0) (f 0)) (j + 1) (f 1)) (j + 2) (f 2)) (j + 3) (f 3))
    (j + 4) (f 4)) (j + 5) (f 5)) (j + 6) (f 6)) (j + 7) (f 7)

/-- The loop `for (i = 0, j = 0; j < length; i += 3, j += 8)` of
`unpack_samples`, entered with the current `i`, `j` and output buffer.  The
first argument bounds the number of iterations; `none` means the bound was
too small. -/
def unpack_loop (input : Nat → Nat) (length : Nat) :
    Nat → Nat → Nat → (Nat → Nat) → Option (Nat → Nat)
  | 0, _, j, output => if j < length then none else some output
  | fuel + 1, i, j, output =>
    if j < length then
      unpack_loop input length fuel (i + 3) (j + 8) (unpack_body input output i j)
    else some output

/-- Model of `unpack_samples(input, output, length)`: the output buffer after
the call.  `length` iterations always suffice, as `j` grows by 8. -/
def unpack_samples (input output : Nat → Nat) (length : Nat) : Option (Nat → Nat) :=
  unpack_loop input length length 0 0 output

/-! ### iqconverter_int16.c -/

/-- `SIZE_FACTOR`. -/
def SIZE_FACTOR : Nat := 16

/-- `SAMPLE_SHIFT = SAMPLE_ENCAPSULATION - SAMPLE_RESOLUTION = 15 - 12`. -/
def SAMPLE_SHIFT : Nat := 15 - 12

/-- Modelled from the spec: the converter state of section 3 (the header that
declares `iqconverter_int16_t` is not among the sources).  Field names and
widths are those used by iqconverter_int16.c: `len`, `fir_index`,
`delay_index` are `int` (never negative in the code), `old_x`, `old_y` are
`int16_t`, `old_e` is `int32_t`, `fir_kernel` and `fir_queue` point to
`int32_t`, `delay_line` points to `int16_t`. -/
structure iqconverter_int16_t where
  len : Nat
  fir_index : Nat
  delay_index : Nat
  old_x : Int
  old_y : Int
  old_e : Int
  fir_kernel : Nat → Int
  fir_queue : Nat → Int
  delay_line : Nat → Int

/-- `memset(a, 0, nbytes)` on an array of `int16_t`, little-endian host: the
elements that lie wholly inside the first `nbytes` bytes become 0, and an
element cut by the boundary loses its low-order byte. -/
def memset_zero_int16 (a : Nat → Int) (nbytes : Nat) : Nat → Int :=
  fun k =>
    if 2 * k + 2 ≤ nbytes then 0
    else if 2 * k < nbytes then a k - a k % 256
    else a k

/-- `memset(a, 0, nbytes)` on an array of `int32_t`, little-endian host. -/
def memset_zero_int32 (a : Nat → Int) (nbytes : Nat) : Nat → Int :=
  fun k =>
    if 4 * k + 4 ≤ nbytes then 0
    else if 4 * k < nbytes then a k - a k % (256 ^ (nbytes - 4 * k))
    else a k

/-- `memcpy(a + dst, a + src, n * sizeof(int32_t))` for regions that do not
overlap. -/
def memcpy_int32 (a : Nat → Int) (dst src n : Nat) : Nat → Int :=
  fun k => if dst ≤ k ∧ k < dst + n then a (src + (k - dst)) else a k

/-- Model of `iqconverter_int16_reset`.  The byte counts are the ones written
in the source: `cnv->len * sizeof(int16_t) / 4` for the delay line and
`cnv->len * sizeof(int16_t) * SIZE_FACTOR` for the FIR queue. -/
def iqconverter_int16_reset (cnv : iqconverter_int16_t) : iqconverter_int16_t :=
  { cnv with
    fir_index := 0
    delay_index := 0
    old_x := 0
    old_y := 0
    old_e := 0
    delay_line := memset_zero_int16 cnv.delay_line (cnv.len * 2 / 4)
    fir_queue := memset_zero_int32 cnv.fir_queue (cnv.len * 2 * SIZE_FACTOR) }

/-- Inner loop of `fir_interleaved`: the value of `acc` after the iterations
`j = 0 .. n - 1` of `acc += cnv->fir_kernel[j] * queue[j]` (32-bit). -/
def fir_acc (fir_kernel queue : Nat → Int) : Nat → Int
  | 0 => 0
  | j + 1 => trunc32 (fir_acc fir_kernel queue j + trunc32 (fir_kernel j * queue j))

/-- One iteration of the outer loop of `fir_interleaved` on the sample
`samples[i]`: the new queue, the new `fir_index` and the value stored back to
`samples[i]`.  The `memcpy` length `cnv->len - 1` assumes `cnv->len >= 1`. -/
def fir_iter (len : Nat) (fir_kernel fir_queue : Nat → Int) (fir_index : Nat)
    (sample : Int) : (Nat → Int) × Nat × Int :=
  let q1 := store fir_queue fir_index sample
  let acc := fir_acc fir_kernel (fun j => q1 (fir_index + j)) len
  let r : (Nat → Int) × Nat :=
    if fir_index = 0 then
      (memcpy_int32 q1 (len * (SIZE_FACTOR - 1) + 1) 0 (len - 1), len * (SIZE_FACTOR - 1))
    else (q1, fir_index - 1)
  (r.1, r.2, trunc16 (acc >>> (15 : Nat)))

/-- The loop `for (i = 0; i < len; i += 2)` of `fir_interleaved` over the
buffer: elements at even offsets are filtered, the others are left alone. -/
def fir_loop (len : Nat) (fir_kernel : Nat → Int) :
    (Nat → Int) → Nat → List Int → (Nat → Int) × Nat × List Int
  | q, idx, [] => (q, idx, [])
  | q, idx, [x] =>
    let r := fir_iter len fir_kernel q idx x
    (r.1, r.2.1, [r.2.2])
  | q, idx, x :: s :: rest =>
    let r := fir_iter len fir_kernel q idx x
    let t := fir_loop len fir_kernel r.1 r.2.1 rest
    (t.1, t.2.1, r.2.2 :: s :: t.2.2)

/-- Model of `fir_interleaved(cnv, samples, len)` with `samples` the buffer of
`len` elements: the converter and the buffer after the call. -/
def fir_interleaved (cnv : iqconverter_int16_t) (samples : List Int) :
    iqconverter_int16_t × List Int :=
  let r := fir_loop cnv.len cnv.fir_kernel cnv.fir_queue cnv.fir_index samples
  ({ cnv with fir_queue := r.1, fir_index := r.2.1 }, r.2.2)

/-- The loop of `delay_interleaved`: each element at an even offset is
swapped with `delay_line[index]`, and `index` advances cyclically. -/
def delay_loop (half_len : Nat) :
    (Nat → Int) → Nat → List Int → (Nat → Int) × Nat × List Int
  | line, index, [] => (line, index, [])
  | line, index, [x] =>
    (store line index x, (if index + 1 ≥ half_len then 0 else index + 1), [line index])
  | line, index, x :: s :: rest =>
    let t := delay_loop half_len (store line index x)
      (if index + 1 ≥ half_len then 0 else index + 1) rest
    (t.1, t.2.1, line index :: s :: t.2.2)

/-- Model of `delay_interleaved(cnv, samples, len)`; `samples` lists the
elements of the buffer from the pointer passed on. -/
def delay_interleaved (cnv : iqconverter_int16_t) (samples : List Int) :
    iqconverter_int16_t × List Int :=
  let r := delay_loop (cnv.len >>> 1) cnv.delay_line cnv.delay_index samples
  ({ cnv with delay_line := r.1, delay_index := r.2.1 }, r.2.2)

/-- Results of `_remove_dc_sample`: the returned `y` and the three values
written through `new_e`, `new_x`, `new_y`. -/
structure dc_sample where
  ret : Int
  new_e : Int
  new_x : Int
  new_y : Int

/-- Model of `_remove_dc_sample(sample, old_e, old_x, old_y, ...)`. -/
def _remove_dc_sample (sample old_e old_x old_y : Int) : dc_sample :=
  let x := trunc16 (trunc32 ((sample - 2048) * 2 ^ SAMPLE_SHIFT))
  let w := trunc16 (x - old_x)
  let u := trunc32 (old_e + trunc32 (old_y * 32100))
  let s := trunc16 (u >>> (15 : Nat))
  let y := trunc16 (w + s)
  { ret := y, new_e := trunc32 (u - trunc32 (s * 2 ^ 15)), new_x := x, new_y := y }

/-- The loop `for (i = 0; i < len; i += 4)` of `remove_dc` over the raw
(unsigned 16-bit) buffer.  A trailing group of fewer than four elements makes
the C loop run past the buffer: `none`. -/
def remove_dc_loop : Int → Int → Int → List Nat → Option (Int × Int × Int × List Int)
  | old_e, old_x, old_y, [] => some (old_e, old_x, old_y, [])
  | old_e, old_x, old_y, r0 :: r1 :: r2 :: r3 :: rest =>
    let a := _remove_dc_sample r0 old_e old_x old_y
    let b := _remove_dc_sample r1 a.new_e a.new_x a.new_y
    let c := _remove_dc_sample r2 b.new_e b.new_x b.new_y
    let d := _remove_dc_sample r3 c.new_e c.new_x c.new_y
    match remove_dc_loop d.new_e d.new_x d.new_y rest with
    | some (e, x, y, out) =>
      some (e, x, y,
        trunc16 (-a.ret) :: trunc16 ((-b.ret) >>> (1 : Nat)) :: c.ret ::
          trunc16 (d.ret >>> (1 : Nat)) :: out)
    | none => none
  | _, _, _, _ => none

/-- Model of `remove_dc(cnv, samples_raw, len)`. -/
def remove_dc (cnv : iqconverter_int16_t) (samples_raw : List Nat) :
    Option (iqconverter_int16_t × List Int) :=
  match remove_dc_loop cnv.old_e cnv.old_x cnv.old_y samples_raw with
  | some (e, x, y, out) => some ({ cnv with old_x := x, old_y := y, old_e := e }, out)
  | none => none

/-- Model of `translate_fs_4(cnv, samples, len)`: `fir_interleaved` on the
buffer, then `delay_interleaved` on `samples + 1` with the same `len`.  With
an odd `len` the second loop reads one element past the buffer: `none`. -/
def translate_fs_4 (cnv : iqconverter_int16_t) (samples : List Int) :
    Option (iqconverter_int16_t × List Int) :=
  if samples.length % 2 = 1 then none
  else
    let r := fir_interleaved cnv samples
    match r.2 with
    | [] => some (r.1, [])
    | i0 :: rest =>
      let d := delay_interleaved r.1 rest
      some (d.1, i0 :: d.2)

/-- Model of `iqconverter_int16_process(cnv, samples, len)`. -/
def iqconverter_int16_process (cnv : iqconverter_int16_t) (samples : List Nat) :
    Option (iqconverter_int16_t × List Int) :=
  match remove_dc cnv samples with
  | some r => translate_fs_4 r.1 r.2
  | none => none


/-! ### Specification-side definitions for the codec -/

/-- Bit field `w[hi:lo]` of a word, as a number. -/
def bits (w hi lo : Nat) : Nat := (w / 2 ^ lo) % 2 ^ (hi + 1 - lo)

/-- The `t`-th 12-bit field, most significant first, of the 96-bit string
`w0 ‖ w1 ‖ w2` (each word 32 bits wide). -/
def field96 (w0 w1 w2 t : Nat) : Nat :=
  ((w0 * 2 ^ 64 + w1 * 2 ^ 32 + w2) / 2 ^ (12 * (7 - t))) % 2 ^ 12

/-- Three packed words used as a concrete input: `123 456 789 abc def 00f edc ba9`. -/
def unpack_example (n : Nat) : Nat :=
  [0x12345678, 0x9abcdef0, 0x0fedcba9].getD n 0

/-- Modelled from the spec: the packing inverse of section 4.1, word `m` of the
packed stream of the samples `s`.  `word0 = [s0:12][s1:12][s2_hi:8]`,
`word1 = [s2_lo:4][s3:12][s4:12][s5_hi:4]`, `word2 = [s5_lo:8][s6:12][s7:12]`,
fields listed from the most significant bit. -/
def pack_word (s : Nat → Nat) (m : Nat) : Nat :=
  let b := 8 * (m / 3)
  match m % 3 with
  | 0 => s b * 2 ^ 20 + s (b + 1) * 2 ^ 8 + s (b + 2) / 2 ^ 4
  | 1 => (s (b + 2) % 2 ^ 4) * 2 ^ 28 + s (b + 3) * 2 ^ 16 + s (b + 4) * 2 ^ 4 + s (b + 5) / 2 ^ 8
  | _ => (s (b + 5) % 2 ^ 8) * 2 ^ 24 + s (b + 6) * 2 ^ 12 + s (b + 7)

/-- Modelled from the spec: the packed stream (3 words per 8 samples) of a
sequence of samples, the inverse the round-trip property refers to. -/
def pack (samples : List Nat) : List Nat :=
  (List.range (3 * (samples.length / 8))).map (pack_word (fun i => samples.getD i 0))

/-! ### Specification-side definitions for the DC blocker -/

/-- Running variables `(old_x, old_y, old_e)` of the DC blocker. -/
structure dc_state where
  x : Int
  y : Int
  e : Int

/-- Modelled from the spec: one update of the reference DC blocker of section
4.2 for the unsigned sample `raw`: `x = (raw - 2048) << 3`, `w = x - old_x`,
`u = old_e + old_y * 32100`, `s = u >> 15`, `y = w + s`,
`new_e = u - (s << 15)`, with `x, w, s, y` 16-bit and `u, e` 32-bit signed. -/
def dc_ref_step (st : dc_state) (raw : Nat) : dc_state :=
  let x := trunc16 (((raw : Int) - 2048) * 8)
  let w := trunc16 (x - st.x)
  let u := trunc32 (st.e + st.y * 32100)
  let s := trunc16 (u >>> (15 : Nat))
  let y := trunc16 (w + s)
  { x := x, y := y, e := trunc32 (u - s * 32768) }

/-- Modelled from the spec: the reference state after the first `i` samples
of the buffer. -/
def dc_ref_run (st : dc_state) (raw : List Nat) : Nat → dc_state
  | 0 => st
  | i + 1 => dc_ref_step (dc_ref_run st raw i) (raw.getD i 0)

/-- Modelled from the spec: the sign and scaling pattern applied modulo 4,
`-y`, `(-y) >> 1`, `y`, `y >> 1`, each result a 16-bit value. -/
def dc_ref_pattern (i : Nat) (y : Int) : Int :=
  match i % 4 with
  | 0 => trunc16 (-y)
  | 1 => trunc16 ((-y) >>> (1 : Nat))
  | 2 => trunc16 y
  | _ => trunc16 (y >>> (1 : Nat))

/-- Modelled from the spec: the `i`-th output of the reference DC blocker. -/
def dc_ref_out (st : dc_state) (raw : List Nat) (i : Nat) : Int :=
  dc_ref_pattern i (dc_ref_run st raw (i + 1)).y

/-- A converter with the given taps whose history is all zero: both indices,
the three DC-blocker variables, the whole FIR queue and the whole delay line. -/
def zeroed_converter (len : Nat) (fir_kernel : Nat → Int) : iqconverter_int16_t :=
  { len := len, fir_index := 0, delay_index := 0, old_x := 0, old_y := 0, old_e := 0,
    fir_kernel := fir_kernel, fir_queue := fun _ => 0, delay_line := fun _ => 0 }

/-- The reference state after `i` samples all equal to `c`. -/
def dc_const_run (c : Nat) (st : dc_state) : Nat → dc_state
  | 0 => st
  | i + 1 => dc_ref_step (dc_const_run c st i) c

/-- Invariant of the blocker while the input stays at `c`: `old_x` is the
scaled sample, the residue is a proper fraction and `old_y` is moderate. -/
def dc_settled (c : Nat) (st : dc_state) : Prop :=
  st.x = ((c : Int) - 2048) * 8 ∧ 0 ≤ st.e ∧ st.e < 32768 ∧ -16384 ≤ st.y ∧ st.y ≤ 16384

/-! ### Specification-side definitions for the FIR and the delay line -/

/-- Modelled from the spec: the naive FIR reference, output `n` for the
I-stream `x` (with `x[m] = 0` for `m < 0`) and `L` taps:
`trunc16 ((sum over j < L of kernel[j] * x[n - j], as a 32-bit sum) >> 15)`. -/
def fir_naive (kernel : Nat → Int) (L : Nat) (x : Nat → Int) (n : Nat) : Int :=
  trunc16 (trunc32 (Finset.sum (Finset.range L)
    (fun j => kernel j * (if j ≤ n then x (n - j) else 0))) >>> (15 : Nat))

/-- The naive reference started with a history: `hist j` is the sample fed
`j + 1` steps before `x 0`. -/
def fir_naive_hist (kernel : Nat → Int) (L : Nat) (hist x : Nat → Int) (n : Nat) : Int :=
  trunc16 (trunc32 (Finset.sum (Finset.range L)
    (fun j => kernel j * (if j ≤ n then x (n - j) else hist (j - n - 1)))) >>> (15 : Nat))

/-- The queue window holds the history: entry `fir_index + j` is the sample
fed `j` steps ago, for `1 <= j < len`. -/
def fir_window (len : Nat) (queue : Nat → Int) (fir_index : Nat) (hist : Nat → Int) : Prop :=
  ∀ j, 1 ≤ j → j < len → queue (fir_index + j) = hist (j - 1)

/-- The I-stream of an interleaved buffer: the elements at even offsets. -/
def i_stream (samples : List Int) (m : Nat) : Int := samples.getD (2 * m) 0

/-- A converter whose history is all stale: every queue and delay-line entry
is 9, the indices point into the middle and the DC-blocker variables are
non-zero.  Used as a concrete "state before reset". -/
def stale_converter (len : Nat) (fir_kernel : Nat → Int) : iqconverter_int16_t :=
  { len := len, fir_index := 5, delay_index := 1, old_x := 3, old_y := -4, old_e := 77,
    fir_kernel := fir_kernel, fir_queue := fun _ => 9, delay_line := fun _ => 9 }

/-- Three stored taps used as a concrete kernel. -/
def impulse_taps (j : Nat) : Int := [100, -2000, 30000].getD j 0

/-- The elements at even offsets of a buffer (the stream a stride-2 loop
sees). -/
def evens : List Int → List Int
  | [] => []
  | [x] => [x]
  | x :: _ :: rest => x :: evens rest

/-- Several successive calls of `delay_interleaved`, one per buffer, on the
same converter: the final converter and the buffers after their calls. -/
def delay_calls (cnv : iqconverter_int16_t) : List (List Int) → iqconverter_int16_t × List (List Int)
  | [] => (cnv, [])
  | v :: vs =>
    let r := delay_interleaved cnv v
    let t := delay_calls r.1 vs
    (t.1, r.2 :: t.2)

/-- The delay line as a stream transformer: the loop of `delay_interleaved`
applied to the bare sequence of samples it visits. -/
def delay_stream (half_len : Nat) :
    (Nat → Int) → Nat → List Int → (Nat → Int) × Nat × List Int
  | line, index, [] => (line, index, [])
  | line, index, x :: qs =>
    let t := delay_stream half_len (store line index x)
      (if index + 1 ≥ half_len then 0 else index + 1) qs
    (t.1, t.2.1, line index :: t.2.2)

/-- The entry of the delay line that will be output `j` steps from now. -/
def delay_pending (half_len : Nat) (line : Nat → Int) (index j : Nat) : Int :=
  if index + j < half_len then line (index + j) else line (index + j - half_len)

/-- The result of `translate_fs_4` on a buffer of even length, as a total
function: `fir_interleaved` on the buffer, then `delay_interleaved` on the
buffer from its second element on. -/
def translate_total (cnv : iqconverter_int16_t) (samples : List Int) :
    iqconverter_int16_t × List Int :=
  let r := fir_interleaved cnv samples
  match r.2 with
  | [] => (r.1, [])
  | i0 :: rest =>
    let d := delay_interleaved r.1 rest
    (d.1, i0 :: d.2)

/-! ### airspy.c: return codes, backend constants and device state -/

/-- Modelled from the spec: the success code and the error kinds of section 7.
The header airspy.h is not among the sources; the numbers are those of the
libairspy header this driver derives from.  The properties below use only
that success is 0 and that the error codes are negative and distinct. -/
def AIRSPY_SUCCESS : Int := 0

/-- Modelled from the spec: error kind `busy` of section 7 (airspy.h is not
among the sources). -/
def AIRSPY_ERROR_BUSY : Int := -6

/-- Modelled from the spec: error kind `no_mem` of section 7 (airspy.h is not
among the sources). -/
def AIRSPY_ERROR_NO_MEM : Int := -11

/-- Modelled from the spec: error kind `transport` of section 7 (airspy.h is
not among the sources). -/
def AIRSPY_ERROR_LIBUSB : Int := -1000

/-- Modelled from the spec: error kind `streaming_stopped` of section 7
(airspy.h is not among the sources). -/
def AIRSPY_ERROR_STREAMING_STOPPED : Int := -1003

/-- Modelled from the spec: error kind `other` of section 7 (airspy.h is not
among the sources). -/
def AIRSPY_ERROR_OTHER : Int := -9999

/-- Transfer status `LIBUSB_TRANSFER_COMPLETED` of the USB backend. -/
def LIBUSB_TRANSFER_COMPLETED : Int := 0

/-- Return code `LIBUSB_ERROR_INTERRUPTED` of the USB backend. -/
def LIBUSB_ERROR_INTERRUPTED : Int := -10

/-- Modelled from the spec: the vendor requests of the table in section 6 that
the modelled functions issue (airspy_commands.h is not among the sources). -/
inductive airspy_vendor_request
  | AIRSPY_RECEIVER_MODE
  | AIRSPY_SET_LNA_GAIN
  | AIRSPY_SET_MIXER_GAIN
  | AIRSPY_SET_VGA_GAIN
  | AIRSPY_SET_LNA_AGC
  | AIRSPY_SET_MIXER_AGC
  | AIRSPY_SET_SAMPLERATE
  | AIRSPY_SET_PACKING
  deriving DecidableEq

/-- A call into the USB backend issued by a control helper, with the argument
values as written at the call site: `libusb_control_transfer` (vendor,
recipient device; device to host, except for `AIRSPY_RECEIVER_MODE`, which
goes host to device) with its request, `wValue`, `wIndex` and `wLength`,
`libusb_clear_halt` on an endpoint, and `libusb_cancel_transfer` on the ring
entry with the given index. -/
inductive backend_call
  | control_transfer (request : airspy_vendor_request) (wValue wIndex wLength : Nat)
  | clear_halt (endpoint : Nat)
  | cancel_transfer (transfer_index : Nat)
  deriving DecidableEq

/-- The fields of a ring entry (`struct libusb_transfer`) the driver sets on
allocation: `buffer` is the size in bytes of the `malloc`ed buffer (`none` for
a NULL pointer) and `length` the requested transfer length. -/
structure libusb_transfer where
  buffer : Option Nat
  length : Nat
  deriving DecidableEq

/-- Model of `airspy_device_t`: the fields the modelled functions read or
write.  `transfers` is `none` for a NULL ring and otherwise lists the
`transfer_count` entries (`none` for a NULL entry); `output_buffer` and
`unpacked_samples` hold the byte size of the allocation or `none` for NULL;
`supported_samplerates` lists the `supported_samplerate_count` rates.  The
user callback and its context are arguments of the functions that use them;
`received_samples_queue` is never allocated and is left out. -/
structure airspy_device where
  transfers : Option (List (Option libusb_transfer))
  streaming : Bool
  stop_requested : Bool
  supported_samplerates : List Nat
  transfer_count : Nat
  buffer_size : Nat
  output_buffer : Option Nat
  unpacked_samples : Option Nat
  packing_enabled : Bool
  conv : iqconverter_int16_t

/-! ### airspy.c: completion handler and `airspy_do_rx` -/

/-- A transfer handed to the completion handler: the fields of
`struct libusb_transfer` it reads, the buffer as the list of its 16-bit
words, and the value `libusb_submit_transfer` returns if the handler
resubmits it. -/
structure usb_completion where
  status : Int
  actual_length : Int
  length : Int
  buffer : List Nat
  submit_result : Int

/-- Contents of a transfer buffer: raw unsigned 16-bit words as received, or
signed 16-bit I/Q values after the converter ran over it in place. -/
inductive sample_buffer
  | raw (samples : List Nat)
  | iq (samples : List Int)

/-- What the completion handler does that is visible outside the device
state: a run of the converter over `len` 16-bit samples, an invocation of
the user callback with the record `{samples, sample_count}`, a
resubmission of the transfer. -/
inductive rx_event
  | converter_run (len : Nat)
  | user_callback (samples : List Int) (sample_count : Nat)
  | submit_transfer

/-- State threaded through the event pump: the device, the number of
invocations of the user callback so far and the events so far, oldest
first. -/
structure rx_state where
  device : airspy_device
  calls : Nat
  trace : List rx_event

/-- Model of `airspy_libusb_transfer_callback`.  `callback n samples count` is
the value the user callback returns on its invocation number `n` (counted
from 0).  The result is the new state and the buffer afterwards; `none`
stands for undefined behaviour of the converter call, which is given
`buffer_size / sizeof(uint16_t)` samples: the buffer must hold that many. -/
def airspy_libusb_transfer_callback (callback : Nat → List Int → Nat → Int)
    (st : rx_state) (usb_transfer : usb_completion) : Option (rx_state × sample_buffer) :=
  if !st.device.streaming || st.device.stop_requested then
    some (st, sample_buffer.raw usb_transfer.buffer)
  else if usb_transfer.status = LIBUSB_TRANSFER_COMPLETED ∧
      usb_transfer.actual_length = usb_transfer.length then
    if usb_transfer.buffer.length ≠ st.device.buffer_size / 2 then none
    else
      match iqconverter_int16_process st.device.conv usb_transfer.buffer with
      | none => none
      | some r =>
        let sample_count := st.device.buffer_size / (2 * 2)
        let rc := callback st.calls r.2 sample_count
        let d1 : airspy_device := { st.device with conv := r.1 }
        let d2 : airspy_device := if rc ≠ 0 then { d1 with stop_requested := true } else d1
        let d3 : airspy_device :=
          if usb_transfer.submit_result ≠ 0 then { d2 with streaming := false } else d2
        some ({ device := d3, calls := st.calls + 1,
                trace := st.trace ++ [rx_event.converter_run (st.device.buffer_size / 2),
                  rx_event.user_callback r.2 sample_count, rx_event.submit_transfer] },
              sample_buffer.iq r.2)
  else
    some ({ st with device := { st.device with streaming := false } },
      sample_buffer.raw usb_transfer.buffer)

/-- One call of `libusb_handle_events_timeout_completed` as the driver sees
it: the transfers whose completion handler runs during the call, in order,
and the value the call returns. -/
structure pump_step where
  completions : List usb_completion
  error : Int

/-- The completion handler run on the transfers of one pump step. -/
def handle_completions (callback : Nat → List Int → Nat → Int) :
    rx_state → List usb_completion → Option rx_state
  | st, [] => some st
  | st, t :: ts =>
    match airspy_libusb_transfer_callback callback st t with
    | none => none
    | some r => handle_completions callback r.1 ts

/-- The loop `while (device->streaming && !device->stop_requested)` of
`airspy_do_rx` against a finite script of pump steps, with the current
`result`.  `none` means the call has not returned when the script ends (it
would wait for further events) or ran into undefined behaviour. -/
def airspy_do_rx_loop (callback : Nat → List Int → Nat → Int) :
    rx_state → Int → List pump_step → Option (rx_state × Int)
  | st, result, [] =>
    if st.device.streaming && !st.device.stop_requested then none else some (st, result)
  | st, result, p :: script =>
    if st.device.streaming && !st.device.stop_requested then
      match handle_completions callback st p.completions with
      | none => none
      | some st1 =>
        if p.error < 0 then
          if p.error ≠ LIBUSB_ERROR_INTERRUPTED then
            airspy_do_rx_loop callback
              { st1 with device := { st1.device with streaming := false } }
              AIRSPY_ERROR_STREAMING_STOPPED script
          else airspy_do_rx_loop callback st1 result script
        else airspy_do_rx_loop callback st1 result script
    else some (st, result)

/-- Model of `airspy_do_rx(device, callback, ctx)`: the final state and the
returned value. -/
def airspy_do_rx (device : airspy_device) (callback : Nat → List Int → Nat → Int)
    (script : List pump_step) : Option (rx_state × Int) :=
  airspy_do_rx_loop callback { device := device, calls := 0, trace := [] } 0 script

/-- A device that is streaming with a ring of one 8-byte transfer, used as a
concrete input. -/
def streaming_device : airspy_device :=
  { transfers := some [some { buffer := some 8, length := 8 }], streaming := true,
    stop_requested := false, supported_samplerates := [10000000, 2500000],
    transfer_count := 1, buffer_size := 8, output_buffer := some 16, unpacked_samples := none,
    packing_enabled := false, conv := zeroed_converter 3 impulse_taps }

/-- A transfer that completed in full with four mid-scale samples. -/
def good_completion : usb_completion :=
  { status := LIBUSB_TRANSFER_COMPLETED, actual_length := 8, length := 8,
    buffer := [2048, 2048, 2048, 2048], submit_result := 0 }

/-- Recognises an invocation of the user callback in the event history. -/
def is_user_callback : rx_event → Bool
  | rx_event.user_callback _ _ => true
  | _ => false

/-- Recognises a resubmission in the event history. -/
def is_submit : rx_event → Bool
  | rx_event.submit_transfer => true
  | _ => false

/-- A transfer that completed without any backend error: status COMPLETED,
full length, a buffer of `buffer_size / 2` words, and a resubmission that the
backend accepts. -/
def clean_completion (buffer_size : Nat) (t : usb_completion) : Prop :=
  t.status = LIBUSB_TRANSFER_COMPLETED ∧ t.actual_length = t.length ∧ t.submit_result = 0 ∧
    t.buffer.length = buffer_size / 2

/-- The pump is running: streaming, no stop requested, and `c` user-callback
invocations so far, each followed by a resubmission. -/
def rx_running (buffer_size c : Nat) (st : rx_state) : Prop :=
  st.device.streaming = true ∧ st.device.stop_requested = false ∧
    st.device.buffer_size = buffer_size ∧ st.calls = c ∧
    (st.trace.filter is_user_callback).length = c ∧ (st.trace.filter is_submit).length = c

/-- A stop was requested after `k` user-callback invocations and `k`
resubmissions, with `streaming` still true. -/
def rx_stopped (k : Nat) (st : rx_state) : Prop :=
  st.device.streaming = true ∧ st.device.stop_requested = true ∧ st.calls = k ∧
    (st.trace.filter is_user_callback).length = k ∧ (st.trace.filter is_submit).length = k

/-- A user callback that asks to stop on its third invocation. -/
def stop_on_third (n : Nat) (_samples : List Int) (_sample_count : Nat) : Int :=
  if n = 2 then 1 else 0

/-- Two pump steps without errors, each delivering two clean completions. -/
def clean_script : List pump_step :=
  [{ completions := [good_completion, good_completion], error := 0 },
   { completions := [good_completion, good_completion], error := 0 }]

/-- A transfer that completed with an error status (`LIBUSB_TRANSFER_ERROR`). -/
def failed_completion : usb_completion :=
  { status := 1, actual_length := 0, length := 8, buffer := [2048, 2048, 2048, 2048],
    submit_result := 0 }

/-! ### airspy.c: sample rate and gain controls -/

/-- Conversion of an integer to `uint8_t` (wrap-around). -/
def to_uint8 (z : Int) : Nat := (z % 256).toNat

/-- `MIN_SAMPLERATE_BY_VALUE`. -/
def MIN_SAMPLERATE_BY_VALUE : Nat := 1000000

/-- `GAIN_COUNT`. -/
def GAIN_COUNT : Nat := 22

/-- Table `airspy_linearity_vga_gains`. -/
def airspy_linearity_vga_gains : List Nat :=
  [13, 12, 11, 11, 11, 11, 11, 10, 10, 10, 10, 10, 10, 10, 10, 10, 9, 8, 7, 6, 5, 4]

/-- Table `airspy_linearity_mixer_gains`. -/
def airspy_linearity_mixer_gains : List Nat :=
  [12, 12, 11, 9, 8, 7, 6, 6, 5, 0, 0, 1, 0, 0, 2, 2, 1, 1, 1, 1, 0, 0]

/-- Table `airspy_linearity_lna_gains`. -/
def airspy_linearity_lna_gains : List Nat :=
  [14, 14, 14, 13, 12, 10, 9, 9, 8, 9, 8, 6, 5, 3, 1, 0, 0, 0, 0, 0, 0, 0]

/-- Table `airspy_sensitivity_vga_gains`. -/
def airspy_sensitivity_vga_gains : List Nat :=
  [13, 12, 11, 10, 9, 8, 7, 6, 5, 5, 5, 5, 5, 4, 4, 4, 4, 4, 4, 4, 4, 4]

/-- Table `airspy_sensitivity_mixer_gains`. -/
def airspy_sensitivity_mixer_gains : List Nat :=
  [12, 12, 12, 12, 11, 10, 10, 9, 9, 8, 7, 4, 4, 4, 3, 2, 2, 1, 0, 0, 0, 0]

/-- Table `airspy_sensitivity_lna_gains`. -/
def airspy_sensitivity_lna_gains : List Nat :=
  [14, 14, 14, 14, 14, 14, 14, 14, 14, 13, 12, 12, 9, 9, 8, 7, 6, 5, 3, 2, 1, 0]

/-- The `for` loop of `airspy_set_samplerate` from index `i` on, over the
rates not yet compared: the value of `samplerate` when the loop ends. -/
def samplerate_search (samplerate : Nat) : List Nat → Nat → Nat
  | [], _ => samplerate
  | r :: rest, i => if samplerate = r then i else samplerate_search samplerate rest (i + 1)

/-- The value of the variable `samplerate` (a `uint32_t`) of
`airspy_set_samplerate` when it reaches the call of
`libusb_control_transfer`. -/
def samplerate_request (supported_samplerates : List Nat) (samplerate : Nat) : Nat :=
  if samplerate ≥ MIN_SAMPLERATE_BY_VALUE then
    let s := samplerate_search samplerate supported_samplerates 0
    if s ≥ MIN_SAMPLERATE_BY_VALUE then s / 1000 else s
  else samplerate

/-- Model of `airspy_set_samplerate(device, samplerate)`; `result` is the
value `libusb_control_transfer` returns.  The endpoint `LIBUSB_ENDPOINT_IN | 1`
is `0x81`.  The parameter `wIndex` of `libusb_control_transfer` is a
`uint16_t`, so passing the `uint32_t` variable `samplerate` converts it: the
request carries its value modulo 65536. -/
def airspy_set_samplerate (device : airspy_device) (samplerate : Nat) (result : Int) :
    Int × List backend_call :=
  (if result < 1 then AIRSPY_ERROR_LIBUSB else AIRSPY_SUCCESS,
    [backend_call.clear_halt 0x81,
     backend_call.control_transfer airspy_vendor_request.AIRSPY_SET_SAMPLERATE 0
       (to_uint16 (samplerate_request device.supported_samplerates samplerate)) 1])

/-- Model of `airspy_set_lna_gain(device, value)`; `result` is the value
`libusb_control_transfer` returns. -/
def airspy_set_lna_gain (value : Nat) (result : Int) : Int × backend_call :=
  let value := if value > 14 then 14 else value
  (if result < 1 then AIRSPY_ERROR_LIBUSB else AIRSPY_SUCCESS,
    backend_call.control_transfer airspy_vendor_request.AIRSPY_SET_LNA_GAIN 0 value 1)

/-- Model of `airspy_set_mixer_gain(device, value)`. -/
def airspy_set_mixer_gain (value : Nat) (result : Int) : Int × backend_call :=
  let value := if value > 15 then 15 else value
  (if result < 1 then AIRSPY_ERROR_LIBUSB else AIRSPY_SUCCESS,
    backend_call.control_transfer airspy_vendor_request.AIRSPY_SET_MIXER_GAIN 0 value 1)

/-- Model of `airspy_set_vga_gain(device, value)`. -/
def airspy_set_vga_gain (value : Nat) (result : Int) : Int × backend_call :=
  let value := if value > 15 then 15 else value
  (if result < 1 then AIRSPY_ERROR_LIBUSB else AIRSPY_SUCCESS,
    backend_call.control_transfer airspy_vendor_request.AIRSPY_SET_VGA_GAIN 0 value 1)

/-- Model of `airspy_set_lna_agc(device, value)`. -/
def airspy_set_lna_agc (value : Nat) (result : Int) : Int × backend_call :=
  (if result < 1 then AIRSPY_ERROR_LIBUSB else AIRSPY_SUCCESS,
    backend_call.control_transfer airspy_vendor_request.AIRSPY_SET_LNA_AGC 0 value 1)

/-- Model of `airspy_set_mixer_agc(device, value)`. -/
def airspy_set_mixer_agc (value : Nat) (result : Int) : Int × backend_call :=
  (if result < 1 then AIRSPY_ERROR_LIBUSB else AIRSPY_SUCCESS,
    backend_call.control_transfer airspy_vendor_request.AIRSPY_SET_MIXER_AGC 0 value 1)

/-- The table row used by `airspy_set_linearity_gain` and
`airspy_set_sensitivity_gain` for the argument `value` (a `uint8_t`):
`value = GAIN_COUNT - 1 - value` computed in `int` and stored back to the
`uint8_t`, then `if (value >= GAIN_COUNT) value = GAIN_COUNT - 1; else if
(value < 0) value = 0;`. -/
def gain_row (value : Nat) : Nat :=
  let v := to_uint8 ((GAIN_COUNT : Int) - 1 - (value : Int))
  if v ≥ GAIN_COUNT then GAIN_COUNT - 1
  else if (v : Int) < 0 then 0
  else v

/-- The common body of `airspy_set_linearity_gain` and
`airspy_set_sensitivity_gain`, which differ only in their three tables.
`backend n` is the value the `n`-th `libusb_control_transfer` of the call
returns.  The result is the return code and the requests issued, in order. -/
def set_gain_preset (vga_gains mixer_gains lna_gains : List Nat) (value : Nat)
    (backend : Nat → Int) : Int × List backend_call :=
  let value := gain_row value
  let r1 := airspy_set_mixer_agc 0 (backend 0)
  if r1.1 < 0 then (r1.1, [r1.2])
  else
    let r2 := airspy_set_lna_agc 0 (backend 1)
    if r2.1 < 0 then (r2.1, [r1.2, r2.2])
    else
      let r3 := airspy_set_vga_gain (vga_gains.getD value 0) (backend 2)
      if r3.1 < 0 then (r3.1, [r1.2, r2.2, r3.2])
      else
        let r4 := airspy_set_mixer_gain (mixer_gains.getD value 0) (backend 3)
        if r4.1 < 0 then (r4.1, [r1.2, r2.2, r3.2, r4.2])
        else
          let r5 := airspy_set_lna_gain (lna_gains.getD value 0) (backend 4)
          if r5.1 < 0 then (r5.1, [r1.2, r2.2, r3.2, r4.2, r5.2])
          else (AIRSPY_SUCCESS, [r1.2, r2.2, r3.2, r4.2, r5.2])

/-- Model of `airspy_set_linearity_gain(device, value)`. -/
def airspy_set_linearity_gain (value : Nat) (backend : Nat → Int) : Int × List backend_call :=
  set_gain_preset airspy_linearity_vga_gains airspy_linearity_mixer_gains
    airspy_linearity_lna_gains value backend

/-- Model of `airspy_set_sensitivity_gain(device, value)`. -/
def airspy_set_sensitivity_gain (value : Nat) (backend : Nat → Int) :
    Int × List backend_call :=
  set_gain_preset airspy_sensitivity_vga_gains airspy_sensitivity_mixer_gains
    airspy_sensitivity_lna_gains value backend

/-! ### airspy.c: transfer ring and `airspy_set_packing` -/

/-- The allocations `allocate_transfers` requests, each of which may fail. -/
inductive alloc_site
  | output_buffer
  | unpacked_samples
  | transfers
  | transfer (transfer_index : Nat)
  | transfer_buffer (transfer_index : Nat)

/-- Model of `cancel_transfers`: the return code and the cancellations
requested, one per non-NULL ring entry. -/
def cancel_transfers (device : airspy_device) : Int × List backend_call :=
  match device.transfers with
  | some ts =>
    (AIRSPY_SUCCESS,
      (List.range device.transfer_count).filterMap (fun i =>
        match ts.getD i none with
        | some _ => some (backend_call.cancel_transfer i)
        | none => none))
  | none => (AIRSPY_ERROR_OTHER, [])

/-- Model of `free_transfers`: with a ring present, the ring, the output
buffer and the unpacked-sample buffer are released and set to NULL. -/
def free_transfers (device : airspy_device) : airspy_device :=
  match device.transfers with
  | some _ => { device with transfers := none, output_buffer := none, unpacked_samples := none }
  | none => device

/-- The `for` loop of `allocate_transfers` over the zero-initialised array,
with `n` entries left from index `i` on: the return code and those entries
when the loop ends or returns early.  `alloc` tells which allocations
succeed. -/
def allocate_entries (alloc : alloc_site → Bool) (buffer_size : Nat) :
    Nat → Nat → Int × List (Option libusb_transfer)
  | 0, _ => (AIRSPY_SUCCESS, [])
  | n + 1, i =>
    if !alloc (alloc_site.transfer i) then (AIRSPY_ERROR_LIBUSB, List.replicate (n + 1) none)
    else if !alloc (alloc_site.transfer_buffer i) then
      (AIRSPY_ERROR_NO_MEM,
        some { buffer := none, length := buffer_size } :: List.replicate n none)
    else
      let r := allocate_entries alloc buffer_size n (i + 1)
      (r.1, some { buffer := some buffer_size, length := buffer_size } :: r.2)

/-- Model of `allocate_transfers`: the return code and the device afterwards.
The output buffer holds `sample_count * sizeof(float)` bytes and the
unpacked-sample buffer `sample_count * sizeof(uint16_t)`. -/
def allocate_transfers (alloc : alloc_site → Bool) (device : airspy_device) :
    Int × airspy_device :=
  match device.transfers with
  | some _ => (AIRSPY_ERROR_BUSY, device)
  | none =>
    let sample_count :=
      if device.packing_enabled then ((device.buffer_size / 2) * 4) / 3
      else device.buffer_size / 2
    if !alloc alloc_site.output_buffer then
      (AIRSPY_ERROR_NO_MEM, { device with output_buffer := none })
    else
      let d1 : airspy_device := { device with output_buffer := some (sample_count * 4) }
      if device.packing_enabled && !alloc alloc_site.unpacked_samples then
        (AIRSPY_ERROR_NO_MEM, { d1 with unpacked_samples := none })
      else
        let d2 : airspy_device :=
          if device.packing_enabled then { d1 with unpacked_samples := some (sample_count * 2) }
          else d1
        if !alloc alloc_site.transfers then (AIRSPY_ERROR_NO_MEM, { d2 with transfers := none })
        else
          let r := allocate_entries alloc device.buffer_size device.transfer_count 0
          (r.1, { d2 with transfers := some r.2 })

/-- Model of `airspy_set_packing(device, value)`: the return code, the device
afterwards and the backend calls issued.  `result` is the value
`libusb_control_transfer` returns, `alloc` tells which allocations of the
reallocation succeed. -/
def airspy_set_packing (device : airspy_device) (value : Nat) (result : Int)
    (alloc : alloc_site → Bool) : Int × airspy_device × List backend_call :=
  if device.streaming then (AIRSPY_ERROR_BUSY, device, [])
  else
    let request :=
      backend_call.control_transfer airspy_vendor_request.AIRSPY_SET_PACKING 0 value 1
    if result < 1 then (AIRSPY_ERROR_LIBUSB, device, [request])
    else
      let packing_enabled : Bool := decide (value ≠ 0)
      if packing_enabled ≠ device.packing_enabled then
        let c := cancel_transfers device
        let d1 := free_transfers device
        let d2 : airspy_device :=
          { d1 with packing_enabled := packing_enabled,
                    buffer_size := if packing_enabled then 6144 * 24 else 262144 }
        let a := allocate_transfers alloc d2
        if a.1 ≠ 0 then (AIRSPY_ERROR_NO_MEM, a.2, request :: c.2)
        else (AIRSPY_SUCCESS, a.2, request :: c.2)
      else (AIRSPY_SUCCESS, device, [request])

/-- A device as `airspy_open_init` leaves it: not streaming, packing off, a
ring of 16 transfers of 262144 bytes. -/
def opened_device : airspy_device :=
  { transfers := some (List.replicate 16 (some { buffer := some 262144, length := 262144 })),
    streaming := false, stop_requested := false, supported_samplerates := [10000000, 2500000],
    transfer_count := 16, buffer_size := 262144, output_buffer := some 524288,
    unpacked_samples := none, packing_enabled := false,
    conv := zeroed_converter 24 impulse_taps }

/-! ### airspy.c: `upper_string` and `airspy_open_device` -/

/-- `strncmp(a + i, b + i, n) == 0` on byte arrays: the first `n` characters
agree, or the strings agree up to a common NUL before that. -/
def strncmp_zero (a b : Nat → Nat) : Nat → Nat → Bool
  | _, 0 => true
  | i, n + 1 =>
    if a i ≠ b i then false
    else if a i = 0 then true
    else strncmp_zero a b (i + 1) n

/-- Modelled from the spec: the receiver mode `OFF` of section 6 (airspy.h,
which declares `receiver_mode_t`, is not among the sources); the value is the
one of the libairspy header. -/
def RECEIVER_MODE_OFF : Nat := 0

/-- Model of `airspy_set_receiver_mode(device, value)`: the return code and
the control transfer issued (host to device, `wValue = value`, `wIndex = 0`,
no data).  `result` is the value `libusb_control_transfer` returns. -/
def airspy_set_receiver_mode (value : Nat) (result : Int) : Int × backend_call :=
  (if result ≠ 0 then AIRSPY_ERROR_LIBUSB else AIRSPY_SUCCESS,
    backend_call.control_transfer airspy_vendor_request.AIRSPY_RECEIVER_MODE value 0 0)

/-- Model of `airspy_term_rx(device)`: the return code, the device afterwards
and the backend calls issued.  The value of `cancel_transfers` is discarded;
`result` is the value `libusb_control_transfer` returns for the mode
request. -/
def airspy_term_rx (device : airspy_device) (result : Int) :
    Int × airspy_device × List backend_call :=
  let d1 : airspy_device := { device with stop_requested := true }
  let c := cancel_transfers d1
  let m := airspy_set_receiver_mode RECEIVER_MODE_OFF result
  (m.1, d1, c.2 ++ [m.2])

/-- Model of `airspy_close(device)`: the return code and the backend calls
issued; `device` is `none` for a NULL pointer.  After `airspy_term_rx` the
function releases the USB handle, the ring, the converter, the rate list and
the device structure itself, none of which assigns `result`; no device is
left afterwards. -/
def airspy_close (device : Option airspy_device) (result : Int) : Int × List backend_call :=
  match device with
  | some d =>
    let t := airspy_term_rx d result
    (t.1, t.2.2)
  | none => (AIRSPY_SUCCESS, [])

/-! ### iqconverter_int16.c: `iqconverter_int16_init` -/

/-- The three allocations of `iqconverter_int16_init`, each of which may
return NULL. -/
inductive converter_alloc_site
  | fir_kernel
  | fir_queue
  | delay_line
  deriving DecidableEq

/-- Number of `int32_t` entries of the FIR queue that `iqconverter_int16_init`
allocates: `buffer_size * SIZE_FACTOR` bytes with
`buffer_size = cnv->len * sizeof(int32_t)`. -/
def fir_queue_entries (len : Nat) : Nat := len * 4 * SIZE_FACTOR / 4

/-- Model of `iqconverter_int16_init(cnv, hb_kernel, len)` for `len >= 0`: the
value returned and the converter afterwards, `none` when the function left at
a NULL array pointer.  `alloc` tells which allocations succeed; the array
fields of the argument `cnv` stand for the contents of the memory handed out,
which `_aligned_malloc` does not clear.  The variable `ret` is initialised to
0 and never assigned, so the release of the arrays under `0 != ret` at the
label `done` is kept as written. -/
def iqconverter_int16_init (cnv : iqconverter_int16_t) (hb_kernel : Nat → Int) (len : Nat)
    (alloc : converter_alloc_site → Bool) : Int × Option iqconverter_int16_t :=
  let ret : Int := 0
  let c1 : iqconverter_int16_t := { cnv with len := len / 2 + 1 }
  let done : Option iqconverter_int16_t :=
    if !alloc converter_alloc_site.fir_kernel then none
    else if !alloc converter_alloc_site.fir_queue then none
    else if !alloc converter_alloc_site.delay_line then none
    else
      let c2 := iqconverter_int16_reset c1
      some { c2 with
        fir_kernel := fun i => if i < c2.len then hb_kernel (i * 2) else c2.fir_kernel i }
  if ret ≠ 0 then (ret, none) else (ret, done)

/-! ### iqconverter_int16.c: index and queue bounds of `fir_interleaved` -/

/-- Several successive calls of `fir_interleaved`, one per buffer, on the same
converter: the converter after the last call. -/
def fir_calls (cnv : iqconverter_int16_t) : List (List Int) → iqconverter_int16_t
  | [] => cnv
  | v :: vs => fir_calls (fir_interleaved cnv v).1 vs

/-- An access to the entry `cnv->fir_queue[index]`. -/
inductive queue_access
  | read (index : Nat)
  | write (index : Nat)
  deriving DecidableEq

/-- The index of the queue entry an access touches. -/
def queue_access.index : queue_access → Nat
  | queue_access.read k => k
  | queue_access.write k => k

/-- Whether an access is a store. -/
def queue_access.is_write : queue_access → Bool
  | queue_access.read _ => false
  | queue_access.write _ => true

/-- The accesses to the FIR queue in one pass through the body of the outer
loop of `fir_interleaved`, entered with `queue = cnv->fir_queue + fir_index`:
the store `queue[0] = samples[i]`, the reads `queue[j]` for `j < fir_len` of
the inner loop and, when `--fir_index < 0`, the `memcpy` of `cnv->len - 1`
entries from `cnv->fir_queue` to
`cnv->fir_queue + cnv->len * (SIZE_FACTOR - 1) + 1`. -/
def fir_iter_accesses (len fir_index : Nat) : List queue_access :=
  queue_access.write (fir_index + 0) ::
    ((List.range len).map (fun j => queue_access.read (fir_index + j)) ++
      (if fir_index = 0 then
        (List.range (len - 1)).map (fun k => queue_access.read k) ++
        (List.range (len - 1)).map
          (fun k => queue_access.write (len * (SIZE_FACTOR - 1) + 1 + k))
      else []))

/-! ### iqconverter_int16.c: exact arithmetic of the DC blocker -/

/-- The values of `x`, `w`, `u`, `s`, `y` and `*new_e` of `_remove_dc_sample`
over the unbounded integers, that is with every conversion to a fixed width
left out. -/
structure dc_exact where
  x : Int
  w : Int
  u : Int
  s : Int
  y : Int
  e : Int

/-- The statements of `_remove_dc_sample` evaluated over the unbounded
integers. -/
def dc_exact_values (sample old_e old_x old_y : Int) : dc_exact :=
  let x := (sample - 2048) * 2 ^ SAMPLE_SHIFT
  let w := x - old_x
  let u := old_e + old_y * 32100
  let s := u >>> (15 : Nat)
  let y := w + s
  { x := x, w := w, u := u, s := s, y := y, e := u - s * 2 ^ 15 }

/-- The right-hand sides of the four stores of the loop body of `remove_dc`
over the unbounded integers: `-y`, `(-y) >> 1`, `y`, `y >> 1` for the sample
at offset `i`. -/
def dc_exact_out (i : Nat) (y : Int) : Int :=
  match i % 4 with
  | 0 => -y
  | 1 => (-y) >>> (1 : Nat)
  | 2 => y
  | _ => y >>> (1 : Nat)

/-- The running variables `(old_x, old_y, old_e)` of `remove_dc` before the
sample at offset `i` of the buffer: `_remove_dc_sample` applied to the samples
in order, each call fed with what the previous one wrote through `new_e`,
`new_x`, `new_y`. -/
def remove_dc_steps (st : dc_state) (raw : List Nat) : Nat → dc_state
  | 0 => st
  | i + 1 =>
    let p := remove_dc_steps st raw i
    let r := _remove_dc_sample (raw.getD i 0) p.e p.x p.y
    { x := r.new_x, y := r.new_y, e := r.new_e }

/-- A value that fits `int16_t`. -/
def int16_range (z : Int) : Prop := -32768 ≤ z ∧ z ≤ 32767

/-- A value that fits `int32_t`. -/
def int32_range (z : Int) : Prop := -2147483648 ≤ z ∧ z ≤ 2147483647

/-- Invariant of the DC blocker on 12-bit input: `old_x` is a scaled 12-bit
sample, `old_y - old_x` stays between the negated extremes of `old_x` and the
residue is a proper fraction. -/
def dc_headroom (st : dc_state) : Prop :=
  -16384 ≤ st.x ∧ st.x ≤ 16376 ∧ -16376 ≤ st.y - st.x ∧ st.y - st.x ≤ 16384 ∧
    0 ≤ st.e ∧ st.e < 32768

/-- The exact values of the step of `remove_dc` on the sample at offset `i`
of the buffer, the loop having been entered with the running variables
`st`. -/
def remove_dc_exact (st : dc_state) (raw : List Nat) (i : Nat) : dc_exact :=
  dc_exact_values (raw.getD i 0) (remove_dc_steps st raw i).e (remove_dc_steps st raw i).x
    (remove_dc_steps st raw i).y

/-- The running variables of the DC blocker as `iqconverter_int16_reset`
leaves them. -/
def reset_dc_state (cnv : iqconverter_int16_t) : dc_state :=
  { x := (iqconverter_int16_reset cnv).old_x, y := (iqconverter_int16_reset cnv).old_y,
    e := (iqconverter_int16_reset cnv).old_e }

/-! ## Theorems -/

/-! ### Bit-level facts -/

theorem shift_mask_eq (w a b : Nat) : (w >>> a) &&& (2 ^ b - 1) = w / 2 ^ a % 2 ^ b := by
  rw [Nat.shiftRight_eq_div_pow]
  exact Nat.and_pow_two_sub_one_eq_mod _ b

theorem mask_shift_eq (w a b : Nat) :
    (w &&& ((2 ^ b - 1) * 2 ^ a)) >>> a = w / 2 ^ a % 2 ^ b := by
  apply Nat.eq_of_testBit_eq
  intro i
  rw [← Nat.shiftRight_eq_div_pow, Nat.testBit_shiftRight, Nat.testBit_and,
    Nat.testBit_mod_two_pow, Nat.testBit_shiftRight, Nat.mul_comm, Nat.testBit_mul_pow_two,
    Nat.testBit_two_pow_sub_one]
  by_cases h : i < b <;> simp [h, Bool.and_comm]

theorem shift_or_eq (x y a : Nat) (h : y < 2 ^ a) : (x <<< a) ||| y = x * 2 ^ a + y := by
  rw [Nat.shiftLeft_eq, Nat.mul_comm, ← Nat.mul_add_lt_is_or h]

/-- The eight values written by one pass of the loop, in arithmetic form. -/
theorem unpack_field_arith (w0 w1 w2 : Nat) :
    unpack_field w0 w1 w2 0 = w0 / 2 ^ 20 % 2 ^ 12 ∧
    unpack_field w0 w1 w2 1 = w0 / 2 ^ 8 % 2 ^ 12 ∧
    unpack_field w0 w1 w2 2 = (w0 % 2 ^ 8) * 2 ^ 4 + w1 / 2 ^ 28 % 2 ^ 4 ∧
    unpack_field w0 w1 w2 3 = w1 / 2 ^ 16 % 2 ^ 12 ∧
    unpack_field w0 w1 w2 4 = w1 / 2 ^ 4 % 2 ^ 12 ∧
    unpack_field w0 w1 w2 5 = (w1 % 2 ^ 4) * 2 ^ 8 + w2 / 2 ^ 24 % 2 ^ 8 ∧
    unpack_field w0 w1 w2 6 = w2 / 2 ^ 12 % 2 ^ 12 ∧
    unpack_field w0 w1 w2 7 = w2 % 2 ^ 12 := by
  have e0 : (w0 >>> 20) &&& 0xfff = w0 / 2 ^ 20 % 2 ^ 12 := shift_mask_eq w0 20 12
  have e1 : (w0 >>> 8) &&& 0xfff = w0 / 2 ^ 8 % 2 ^ 12 := shift_mask_eq w0 8 12
  have e2a : w0 &&& 0xff = w0 % 2 ^ 8 := Nat.and_pow_two_sub_one_eq_mod w0 8
  have e2b : (w1 >>> 28) &&& 0xf = w1 / 2 ^ 28 % 2 ^ 4 := shift_mask_eq w1 28 4
  have e3 : (w1 &&& 0xfff0000) >>> 16 = w1 / 2 ^ 16 % 2 ^ 12 := mask_shift_eq w1 16 12
  have e4 : (w1 &&& 0xfff0) >>> 4 = w1 / 2 ^ 4 % 2 ^ 12 := mask_shift_eq w1 4 12
  have e5a : w1 &&& 0xf = w1 % 2 ^ 4 := Nat.and_pow_two_sub_one_eq_mod w1 4
  have e5b : (w2 &&& 0xff000000) >>> 24 = w2 / 2 ^ 24 % 2 ^ 8 := mask_shift_eq w2 24 8
  have e6 : (w2 >>> 12) &&& 0xfff = w2 / 2 ^ 12 % 2 ^ 12 := shift_mask_eq w2 12 12
  have e7 : w2 &&& 0xfff = w2 % 2 ^ 12 := Nat.and_pow_two_sub_one_eq_mod w2 12
  have s2 : to_uint32 ((w0 % 2 ^ 8) <<< 4) = (w0 % 2 ^ 8) <<< 4 := by
    unfold to_uint32; rw [Nat.shiftLeft_eq]; omega
  have s5 : to_uint32 ((w1 % 2 ^ 4) <<< 8) = (w1 % 2 ^ 4) <<< 8 := by
    unfold to_uint32; rw [Nat.shiftLeft_eq]; omega
  have o2 : ((w0 % 2 ^ 8) <<< 4) ||| (w1 / 2 ^ 28 % 2 ^ 4) =
      (w0 % 2 ^ 8) * 2 ^ 4 + w1 / 2 ^ 28 % 2 ^ 4 :=
    shift_or_eq _ _ 4 (Nat.mod_lt _ (by norm_num))
  have o5 : ((w1 % 2 ^ 4) <<< 8) ||| (w2 / 2 ^ 24 % 2 ^ 8) =
      (w1 % 2 ^ 4) * 2 ^ 8 + w2 / 2 ^ 24 % 2 ^ 8 :=
    shift_or_eq _ _ 8 (Nat.mod_lt _ (by norm_num))
  simp only [unpack_field, e0, e1, e2a, e2b, e3, e4, e5a, e5b, e6, e7, s2, s5, o2, o5, to_uint16]
  refine ⟨?_, ?_, ?_, ?_, ?_, ?_, ?_, ?_⟩ <;> omega

/-! ### `unpack_samples` -/

theorem unpack_body_inside (input output : Nat → Nat) (i j t : Nat) (ht : t < 8) :
    unpack_body input output i j (j + t) =
      unpack_field (input i) (input (i + 1)) (input (i + 2)) t := by
  have h : t = 0 ∨ t = 1 ∨ t = 2 ∨ t = 3 ∨ t = 4 ∨ t = 5 ∨ t = 6 ∨ t = 7 := by omega
  rcases h with h | h | h | h | h | h | h | h <;> subst h <;> simp [unpack_body, store]

theorem unpack_body_outside (input output : Nat → Nat) (i j n : Nat)
    (hn : n < j ∨ j + 8 ≤ n) : unpack_body input output i j n = output n := by
  simp only [unpack_body, store]
  repeat rw [if_neg (by omega)]

/-- The loop started at `(i, j)` with `r` passes left and at least `r` units
of fuel finishes, writes the `r` groups and touches nothing else. -/
theorem unpack_loop_spec (input : Nat → Nat) (length : Nat) :
    ∀ (r fuel i j : Nat) (output : Nat → Nat), length = j + 8 * r → r ≤ fuel →
      ∃ out, unpack_loop input length fuel i j output = some out ∧
        (∀ g t, g < r → t < 8 → out (j + 8 * g + t) =
          unpack_field (input (i + 3 * g)) (input (i + 3 * g + 1)) (input (i + 3 * g + 2)) t) ∧
        (∀ n, n < j ∨ length ≤ n → out n = output n) := by
  intro r
  induction r with
  | zero =>
    intro fuel i j output hlen _
    refine ⟨output, ?_, ?_, fun _ _ => rfl⟩
    · cases fuel <;> simp [unpack_loop, hlen]
    · intro g t hg; omega
  | succ r ih =>
    intro fuel i j output hlen hfuel
    obtain ⟨fuel, rfl⟩ : ∃ f, fuel = f + 1 := ⟨fuel - 1, by omega⟩
    obtain ⟨out, hout, hin, hframe⟩ :=
      ih fuel (i + 3) (j + 8) (unpack_body input output i j) (by omega) (by omega)
    refine ⟨out, ?_, ?_, ?_⟩
    · rw [unpack_loop, if_pos (by omega)]; exact hout
    · intro g t hg ht
      rcases Nat.eq_zero_or_pos g with h0 | hpos
      · subst h0
        rw [hframe (j + 8 * 0 + t) (Or.inl (by omega))]
        simpa using unpack_body_inside input output i j t ht
      · obtain ⟨g, rfl⟩ : ∃ g1, g = g1 + 1 := ⟨g - 1, by omega⟩
        have h := hin g t (by omega) ht
        have e1 : j + 8 * (g + 1) + t = j + 8 + 8 * g + t := by omega
        have e2 : i + 3 * (g + 1) = i + 3 + 3 * g := by omega
        rw [e1, e2]; exact h
    · intro n hn
      rw [hframe n (by omega)]
      exact unpack_body_outside input output i j n (by omega)

/-- The 12-bit fields of the 96-bit string are the values the loop writes. -/
theorem unpack_field_eq_field96 (w0 w1 w2 t : Nat) (h1 : w1 < 2 ^ 32) (h2 : w2 < 2 ^ 32)
    (ht : t < 8) : unpack_field w0 w1 w2 t = field96 w0 w1 w2 t := by
  obtain ⟨a0, a1, a2, a3, a4, a5, a6, a7⟩ := unpack_field_arith w0 w1 w2
  have h : t = 0 ∨ t = 1 ∨ t = 2 ∨ t = 3 ∨ t = 4 ∨ t = 5 ∨ t = 6 ∨ t = 7 := by omega
  rcases h with h | h | h | h | h | h | h | h <;> subst h
  · rw [a0]; simp only [field96]; norm_num; omega
  · rw [a1]; simp only [field96]; norm_num; omega
  · rw [a2]; simp only [field96]; norm_num; omega
  · rw [a3]; simp only [field96]; norm_num; omega
  · rw [a4]; simp only [field96]; norm_num; omega
  · rw [a5]; simp only [field96]; norm_num; omega
  · rw [a6]; simp only [field96]; norm_num; omega
  · rw [a7]; simp only [field96]; norm_num; omega

/-- C1. For every input of 32-bit words and every output length `8 * k`,
`unpack_samples` returns, and for every group `g < k` the outputs
`8 * g .. 8 * g + 7` are the bit fields `w0[31:20]`, `w0[19:8]`,
`(w0[7:0] << 4) | w1[31:28]`, `w1[27:16]`, `w1[15:4]`,
`(w1[3:0] << 8) | w2[31:24]`, `w2[23:12]`, `w2[11:0]` of the input words
`w0, w1, w2 = input[3 * g .. 3 * g + 2]`, which are the eight 12-bit fields of
the 96-bit string `w0 ‖ w1 ‖ w2` read most significant bit first. -/
theorem unpack_samples_layout (input output : Nat → Nat) (k : Nat)
    (hin : ∀ n, n < 3 * k → input n < 2 ^ 32) :
    ∃ out, unpack_samples input output (8 * k) = some out ∧
      ∀ g, g < k →
        out (8 * g + 0) = bits (input (3 * g)) 31 20 ∧
        out (8 * g + 1) = bits (input (3 * g)) 19 8 ∧
        out (8 * g + 2) =
          ((bits (input (3 * g)) 7 0) <<< 4 ||| bits (input (3 * g + 1)) 31 28) ∧
        out (8 * g + 3) = bits (input (3 * g + 1)) 27 16 ∧
        out (8 * g + 4) = bits (input (3 * g + 1)) 15 4 ∧
        out (8 * g + 5) =
          ((bits (input (3 * g + 1)) 3 0) <<< 8 ||| bits (input (3 * g + 2)) 31 24) ∧
        out (8 * g + 6) = bits (input (3 * g + 2)) 23 12 ∧
        out (8 * g + 7) = bits (input (3 * g + 2)) 11 0 ∧
        ∀ t, t < 8 → out (8 * g + t) =
          field96 (input (3 * g)) (input (3 * g + 1)) (input (3 * g + 2)) t := by
  obtain ⟨out, hout, hgrp, _⟩ :=
    unpack_loop_spec input (8 * k) k (8 * k) 0 0 output (by omega) (by omega)
  refine ⟨out, hout, ?_⟩
  intro g hg
  have hw : ∀ t, t < 8 → out (8 * g + t) =
      unpack_field (input (3 * g)) (input (3 * g + 1)) (input (3 * g + 2)) t := by
    intro t ht
    simpa using hgrp g t hg ht
  obtain ⟨a0, a1, a2, a3, a4, a5, a6, a7⟩ :=
    unpack_field_arith (input (3 * g)) (input (3 * g + 1)) (input (3 * g + 2))
  have o2 := shift_or_eq (bits (input (3 * g)) 7 0) (bits (input (3 * g + 1)) 31 28) 4
    (by unfold bits; exact Nat.mod_lt _ (by norm_num))
  have o5 := shift_or_eq (bits (input (3 * g + 1)) 3 0) (bits (input (3 * g + 2)) 31 24) 8
    (by unfold bits; exact Nat.mod_lt _ (by norm_num))
  refine ⟨?_, ?_, ?_, ?_, ?_, ?_, ?_, ?_, ?_⟩
  · rw [hw 0 (by omega), a0]; simp [bits]
  · rw [hw 1 (by omega), a1]; simp [bits]
  · rw [hw 2 (by omega), a2, o2]; simp [bits]
  · rw [hw 3 (by omega), a3]; simp [bits]
  · rw [hw 4 (by omega), a4]; simp [bits]
  · rw [hw 5 (by omega), a5, o5]; simp [bits]
  · rw [hw 6 (by omega), a6]; simp [bits]
  · rw [hw 7 (by omega), a7]; simp [bits]
  · intro t ht
    rw [hw t ht]
    exact unpack_field_eq_field96 _ _ _ t (hin _ (by omega)) (hin _ (by omega)) ht

/-- Witness for C1: the group `123 456 789 abc def 00f edc ba9` (hex). -/
theorem unpack_samples_layout_witness :
    (∀ n, n < 3 * 1 → unpack_example n < 2 ^ 32) ∧
    ∃ out, unpack_samples unpack_example (fun _ => 0) (8 * 1) = some out ∧
      out 0 = 0x123 ∧ out 2 = 0x789 ∧ out 5 = 0x00f ∧ out 7 = 0xba9 := by
  have hin : ∀ n, n < 3 * 1 → unpack_example n < 2 ^ 32 := by
    intro n hn
    have h : n = 0 ∨ n = 1 ∨ n = 2 := by omega
    rcases h with h | h | h <;> subst h <;> simp [unpack_example]
  obtain ⟨out, h, hg⟩ := unpack_samples_layout unpack_example (fun _ => 0) 1 hin
  obtain ⟨h0, _, _, _, _, _, _, _, hf⟩ := hg 0 (by omega)
  refine ⟨hin, out, h, ?_, ?_, ?_, ?_⟩
  · rw [show (0 : Nat) = 8 * 0 + 0 from rfl, h0]; simp [bits, unpack_example]
  · rw [show (2 : Nat) = 8 * 0 + 2 from rfl, hf 2 (by omega)]; simp [field96, unpack_example]
  · rw [show (5 : Nat) = 8 * 0 + 5 from rfl, hf 5 (by omega)]; simp [field96, unpack_example]
  · rw [show (7 : Nat) = 8 * 0 + 7 from rfl, hf 7 (by omega)]; simp [field96, unpack_example]

theorem pack_getD (samples : List Nat) (m : Nat) (hm : m < 3 * (samples.length / 8)) :
    (pack samples).getD m 0 = pack_word (fun i => samples.getD i 0) m := by
  unfold pack
  rw [List.getD_eq_getElem _ _ (by simpa using hm)]
  simp

/-- Unpacking the three words of a packed group gives back its samples. -/
theorem unpack_field_pack_word (s : Nat → Nat) (g t : Nat) (ht : t < 8)
    (hs : ∀ u, u < 8 → s (8 * g + u) < 4096) :
    unpack_field (pack_word s (3 * g)) (pack_word s (3 * g + 1)) (pack_word s (3 * g + 2)) t =
      s (8 * g + t) := by
  have d0 : (3 * g) / 3 = g := by omega
  have d1 : (3 * g + 1) / 3 = g := by omega
  have d2 : (3 * g + 2) / 3 = g := by omega
  have m0 : (3 * g) % 3 = 0 := by omega
  have m1 : (3 * g + 1) % 3 = 1 := by omega
  have m2 : (3 * g + 2) % 3 = 2 := by omega
  have p0 : pack_word s (3 * g) =
      s (8 * g) * 2 ^ 20 + s (8 * g + 1) * 2 ^ 8 + s (8 * g + 2) / 2 ^ 4 := by
    simp only [pack_word, d0, m0]
  have p1 : pack_word s (3 * g + 1) =
      (s (8 * g + 2) % 2 ^ 4) * 2 ^ 28 + s (8 * g + 3) * 2 ^ 16 + s (8 * g + 4) * 2 ^ 4 +
        s (8 * g + 5) / 2 ^ 8 := by
    simp only [pack_word, d1, m1]
  have p2 : pack_word s (3 * g + 2) =
      (s (8 * g + 5) % 2 ^ 8) * 2 ^ 24 + s (8 * g + 6) * 2 ^ 12 + s (8 * g + 7) := by
    simp only [pack_word, d2, m2]
  have h0 := hs 0 (by omega)
  have h1 := hs 1 (by omega)
  have h2 := hs 2 (by omega)
  have h3 := hs 3 (by omega)
  have h4 := hs 4 (by omega)
  have h5 := hs 5 (by omega)
  have h6 := hs 6 (by omega)
  have h7 := hs 7 (by omega)
  simp only [Nat.add_zero] at h0
  obtain ⟨a0, a1, a2, a3, a4, a5, a6, a7⟩ :=
    unpack_field_arith (pack_word s (3 * g)) (pack_word s (3 * g + 1)) (pack_word s (3 * g + 2))
  rw [p0, p1, p2] at a0 a1 a2 a3 a4 a5 a6 a7 ⊢
  clear p0 p1 p2 d0 d1 d2 m0 m1 m2 hs
  have h : t = 0 ∨ t = 1 ∨ t = 2 ∨ t = 3 ∨ t = 4 ∨ t = 5 ∨ t = 6 ∨ t = 7 := by omega
  rcases h with h | h | h | h | h | h | h | h <;> subst h
  · rw [a0]; clear a0 a1 a2 a3 a4 a5 a6 a7; simp only [Nat.add_zero]; omega
  · rw [a1]; clear a0 a1 a2 a3 a4 a5 a6 a7; omega
  · rw [a2]; clear a0 a1 a2 a3 a4 a5 a6 a7; omega
  · rw [a3]; clear a0 a1 a2 a3 a4 a5 a6 a7; omega
  · rw [a4]; clear a0 a1 a2 a3 a4 a5 a6 a7; omega
  · rw [a5]; clear a0 a1 a2 a3 a4 a5 a6 a7; omega
  · rw [a6]; clear a0 a1 a2 a3 a4 a5 a6 a7; omega
  · rw [a7]; clear a0 a1 a2 a3 a4 a5 a6 a7; omega

/-- C2. Unpack round-trip: for every `k` and every sequence of `8 * k` samples
in `[0, 4095]`, `unpack_samples` applied to the packed stream (the inverse
given by the bit layout of section 4.1) with output length `8 * k` returns,
and the `8 * k` values it wrote are exactly the original sequence. -/
theorem unpack_pack_roundtrip (samples : List Nat) (k : Nat) (output : Nat → Nat)
    (hlen : samples.length = 8 * k) (hrange : ∀ x, x ∈ samples → x ≤ 4095) :
    ∃ out, unpack_samples (fun n => (pack samples).getD n 0) output (8 * k) = some out ∧
      (List.range (8 * k)).map out = samples := by
  obtain ⟨out, hout, hgrp, _⟩ :=
    unpack_loop_spec (fun n => (pack samples).getD n 0) (8 * k) k (8 * k) 0 0 output
      (by omega) (by omega)
  refine ⟨out, hout, ?_⟩
  have hk : samples.length / 8 = k := by omega
  apply List.ext_getElem
  · simp [hlen]
  · intro n h1 h2
    simp only [List.getElem_map, List.getElem_range]
    have hn : n < 8 * k := by simpa using h1
    have e : n = 0 + 8 * (n / 8) + n % 8 := by omega
    have hv := hgrp (n / 8) (n % 8) (by omega) (by omega)
    rw [← e] at hv
    rw [hv]
    simp only [Nat.zero_add]
    rw [pack_getD samples _ (by omega), pack_getD samples _ (by omega),
      pack_getD samples _ (by omega)]
    rw [unpack_field_pack_word _ (n / 8) (n % 8) (by omega)]
    · have e2 : 8 * (n / 8) + n % 8 = n := by omega
      simp only [e2]
      exact List.getD_eq_getElem _ _ h2
    · intro u hu
      have hlt : 8 * (n / 8) + u < samples.length := by omega
      rw [List.getD_eq_getElem _ _ hlt]
      have := hrange _ (List.getElem_mem hlt)
      omega

/-- Witness for C2: one group of eight samples. -/
theorem unpack_pack_roundtrip_witness :
    [1, 4095, 0, 2048, 77, 3000, 513, 4000].length = 8 * 1 ∧
    (∀ x, x ∈ [1, 4095, 0, 2048, 77, 3000, 513, 4000] → x ≤ 4095) ∧
    ∃ out, unpack_samples (fun n => (pack [1, 4095, 0, 2048, 77, 3000, 513, 4000]).getD n 0)
        (fun _ => 0) (8 * 1) = some out ∧
      (List.range (8 * 1)).map out = [1, 4095, 0, 2048, 77, 3000, 513, 4000] :=
  ⟨by decide, by decide,
    unpack_pack_roundtrip [1, 4095, 0, 2048, 77, 3000, 513, 4000] 1 (fun _ => 0)
      (by decide) (by decide)⟩

/-! ### `remove_dc` -/

theorem trunc16_idem (z : Int) : trunc16 (trunc16 z) = trunc16 z := by
  unfold trunc16; omega

theorem trunc16_range (z : Int) : -32768 ≤ trunc16 z ∧ trunc16 z ≤ 32767 := by
  unfold trunc16; omega

theorem trunc16_of_range (z : Int) (h1 : -32768 ≤ z) (h2 : z ≤ 32767) : trunc16 z = z := by
  unfold trunc16; omega

theorem trunc32_of_range (z : Int) (h1 : -2147483648 ≤ z) (h2 : z ≤ 2147483647) :
    trunc32 z = z := by
  unfold trunc32; omega

theorem shiftRight15 (z : Int) : z >>> (15 : Nat) = z / 32768 := by
  rw [Int.shiftRight_eq_div_pow]; norm_num

theorem shiftRight1 (z : Int) : z >>> (1 : Nat) = z / 2 := by
  rw [Int.shiftRight_eq_div_pow]; norm_num

/-- The code of `_remove_dc_sample` computes the reference update. -/
theorem remove_dc_sample_struct (raw : Nat) (st : dc_state) :
    _remove_dc_sample raw st.e st.x st.y =
      { ret := (dc_ref_step st raw).y, new_e := (dc_ref_step st raw).e,
        new_x := (dc_ref_step st raw).x, new_y := (dc_ref_step st raw).y } := by
  have hx : trunc16 (trunc32 (((raw : Int) - 2048) * 2 ^ SAMPLE_SHIFT)) =
      trunc16 (((raw : Int) - 2048) * 8) := by
    simp only [SAMPLE_SHIFT, trunc16, trunc32]; norm_num; omega
  have hu : trunc32 (st.e + trunc32 (st.y * 32100)) = trunc32 (st.e + st.y * 32100) := by
    simp only [trunc32]; omega
  have he : ∀ u s : Int, trunc32 (u - trunc32 (s * 2 ^ 15)) = trunc32 (u - s * 32768) := by
    intro u s; simp only [trunc32]; norm_num; omega
  simp only [_remove_dc_sample, dc_ref_step, hx, hu, he]

theorem dc_ref_step_y_idem (st : dc_state) (raw : Nat) :
    trunc16 (dc_ref_step st raw).y = (dc_ref_step st raw).y := by
  simp only [dc_ref_step, trunc16_idem]

theorem dc_ref_run_cons (st : dc_state) (r : Nat) (rest : List Nat) (i : Nat) :
    dc_ref_run st (r :: rest) (i + 1) = dc_ref_run (dc_ref_step st r) rest i := by
  induction i with
  | zero => simp [dc_ref_run]
  | succ i ih =>
    rw [dc_ref_run, ih]
    simp [dc_ref_run]

theorem dc_ref_pattern_add_four (i : Nat) (y : Int) :
    dc_ref_pattern (i + 4) y = dc_ref_pattern i y := by
  simp [dc_ref_pattern]

/-- The loop of `remove_dc` on a buffer of `4 * n` samples returns, ends in
the reference state and produces the reference outputs. -/
theorem remove_dc_loop_spec : ∀ (n : Nat) (raw : List Nat) (st : dc_state),
    raw.length = 4 * n →
    ∃ out, remove_dc_loop st.e st.x st.y raw =
        some ((dc_ref_run st raw raw.length).e, (dc_ref_run st raw raw.length).x,
          (dc_ref_run st raw raw.length).y, out) ∧
      out.length = raw.length ∧
      ∀ i, i < raw.length → out[i]? = some (dc_ref_out st raw i) := by
  intro n
  induction n with
  | zero =>
    intro raw st hlen
    have : raw = [] := List.eq_nil_of_length_eq_zero (by omega)
    subst this
    exact ⟨[], by simp [remove_dc_loop, dc_ref_run], rfl, by simp⟩
  | succ n ih =>
    intro raw st hlen
    match raw, hlen with
    | r0 :: r1 :: r2 :: r3 :: rest, hlen =>
      have hrest : rest.length = 4 * n := by simp at hlen; omega
      obtain ⟨out, hloop, hlen2, hout⟩ := ih rest
        (dc_ref_step (dc_ref_step (dc_ref_step (dc_ref_step st r0) r1) r2) r3) hrest
      have hrun : ∀ i, dc_ref_run st (r0 :: r1 :: r2 :: r3 :: rest) (i + 4) =
          dc_ref_run (dc_ref_step (dc_ref_step (dc_ref_step (dc_ref_step st r0) r1) r2) r3)
            rest i := by
        intro i
        rw [dc_ref_run_cons, dc_ref_run_cons, dc_ref_run_cons, dc_ref_run_cons]
      refine ⟨trunc16 (-(dc_ref_step st r0).y) ::
        trunc16 ((-(dc_ref_step (dc_ref_step st r0) r1).y) >>> (1 : Nat)) ::
        (dc_ref_step (dc_ref_step (dc_ref_step st r0) r1) r2).y ::
        trunc16 ((dc_ref_step (dc_ref_step (dc_ref_step (dc_ref_step st r0) r1) r2) r3).y
          >>> (1 : Nat)) :: out, ?_, ?_, ?_⟩
      · simp only [remove_dc_loop, remove_dc_sample_struct, hloop, List.length_cons, hrun]
      · simp [hlen2]
      · intro i hi
        simp only [List.length_cons] at hi
        match i with
        | 0 => simp [dc_ref_out, dc_ref_pattern, dc_ref_run]
        | 1 => simp [dc_ref_out, dc_ref_pattern, dc_ref_run]
        | 2 => simp [dc_ref_out, dc_ref_pattern, dc_ref_run, dc_ref_step_y_idem]
        | 3 => simp [dc_ref_out, dc_ref_pattern, dc_ref_run]
        | i + 4 =>
          simp only [List.getElem?_cons_succ]
          rw [hout i (by omega)]
          simp only [dc_ref_out, dc_ref_pattern_add_four]
          rw [show i + 4 + 1 = (i + 1) + 4 by omega, hrun]

/-- C3. `remove_dc` equals the reference DC blocker of the spec: for every
starting state `(old_x, old_y, old_e)` and every buffer whose length is a
multiple of 4 the call returns, the `i`-th output is the pattern `p (i mod 4)`
(`-y`, `(-y) >> 1`, `y`, `y >> 1`, truncated to 16 bits) applied to the
reference `y_i`, and the converter afterwards differs from the one before
only in `(old_x, old_y, old_e)`, which hold `(x, y, new_e)` of the last
sample. -/
theorem remove_dc_eq_reference (cnv : iqconverter_int16_t) (raw : List Nat)
    (hlen : raw.length % 4 = 0) :
    ∃ out, remove_dc cnv raw =
        some ({ cnv with
                old_x := (dc_ref_run ⟨cnv.old_x, cnv.old_y, cnv.old_e⟩ raw raw.length).x
                old_y := (dc_ref_run ⟨cnv.old_x, cnv.old_y, cnv.old_e⟩ raw raw.length).y
                old_e := (dc_ref_run ⟨cnv.old_x, cnv.old_y, cnv.old_e⟩ raw raw.length).e },
              out) ∧
      out.length = raw.length ∧
      ∀ i, i < raw.length →
        out[i]? = some (dc_ref_out ⟨cnv.old_x, cnv.old_y, cnv.old_e⟩ raw i) := by
  obtain ⟨out, h1, h2, h3⟩ :=
    remove_dc_loop_spec (raw.length / 4) raw ⟨cnv.old_x, cnv.old_y, cnv.old_e⟩ (by omega)
  refine ⟨out, ?_, h2, h3⟩
  simp only [remove_dc]
  simp only [] at h1
  rw [h1]

/-- Witness for C3: one group of four samples on a zeroed converter; the
outputs are `-y_0`, `(-y_1) >> 1`, `y_2`, `y_3 >> 1`. -/
theorem remove_dc_eq_reference_witness :
    [2048, 0, 4095, 100].length % 4 = 0 ∧
    ∃ out, (remove_dc (zeroed_converter 3 (fun _ => 1)) [2048, 0, 4095, 100]).map Prod.snd =
        some out ∧
      out[0]? = some 0 ∧ out[1]? = some 8192 := by
  obtain ⟨out, h1, _, h3⟩ :=
    remove_dc_eq_reference (zeroed_converter 3 (fun _ => 1)) [2048, 0, 4095, 100] (by decide)
  refine ⟨by decide, out, by rw [h1]; rfl, ?_, ?_⟩
  · rw [h3 0 (by decide)]; decide
  · rw [h3 1 (by decide)]; decide

/-! ### The DC blocker on a constant input -/

theorem dc_ref_run_replicate (c : Nat) (st : dc_state) (m : Nat) :
    ∀ i, i ≤ m → dc_ref_run st (List.replicate m c) i = dc_const_run c st i := by
  intro i
  induction i with
  | zero => intro _; rfl
  | succ i ih =>
    intro hi
    rw [dc_ref_run, dc_const_run, ih (by omega)]
    congr 1
    rw [List.getD_eq_getElem _ _ (by simpa using hi)]
    simp

theorem dc_const_run_add (c : Nat) (st : dc_state) (a b : Nat) :
    dc_const_run c st (a + b) = dc_const_run c (dc_const_run c st a) b := by
  induction b with
  | zero => rfl
  | succ b ih => rw [← Nat.add_assoc, dc_const_run, dc_const_run, ih]

/-- Under the invariant a further sample `c` divides `old_e + 32100 * old_y`
by `32768` without any wrap-around. -/
theorem dc_settled_step (c : Nat) (hc : c ≤ 4095) (st : dc_state) (h : dc_settled c st) :
    (dc_ref_step st c).x = st.x ∧
    (dc_ref_step st c).y = (st.e + 32100 * st.y) / 32768 ∧
    (dc_ref_step st c).e = (st.e + 32100 * st.y) % 32768 := by
  obtain ⟨hx, he0, he1, hy0, hy1⟩ := h
  have hu : trunc32 (st.e + st.y * 32100) = st.e + 32100 * st.y := by
    rw [trunc32_of_range _ (by omega) (by omega)]; omega
  have hs : trunc16 ((st.e + 32100 * st.y) / 32768) = (st.e + 32100 * st.y) / 32768 :=
    trunc16_of_range _ (by omega) (by omega)
  have hX : trunc16 (((c : Int) - 2048) * 8) = ((c : Int) - 2048) * 8 :=
    trunc16_of_range _ (by omega) (by omega)
  have hw : trunc16 (((c : Int) - 2048) * 8 - ((c : Int) - 2048) * 8) = 0 := by
    rw [sub_self]; rfl
  have hy : trunc16 (0 + (st.e + 32100 * st.y) / 32768) = (st.e + 32100 * st.y) / 32768 := by
    rw [zero_add, hs]
  have he : trunc32 (st.e + 32100 * st.y - (st.e + 32100 * st.y) / 32768 * 32768) =
      (st.e + 32100 * st.y) % 32768 := by
    rw [trunc32_of_range _ (by omega) (by omega)]; omega
  simp only [dc_ref_step, shiftRight15, hx, hu, hs, hX, hw, hy, he, and_self]

/-- One more sample keeps the invariant, never moves `old_y` away from 0 and
removes `668 * old_y` from the potential `32768 * old_y + old_e`. -/
theorem dc_settled_next (c : Nat) (hc : c ≤ 4095) (st : dc_state) (h : dc_settled c st) :
    dc_settled c (dc_ref_step st c) ∧
    (0 ≤ st.y → 0 ≤ (dc_ref_step st c).y ∧ (dc_ref_step st c).y ≤ st.y) ∧
    (st.y ≤ 0 → st.y ≤ (dc_ref_step st c).y ∧ (dc_ref_step st c).y ≤ 0) ∧
    32768 * (dc_ref_step st c).y + (dc_ref_step st c).e = 32768 * st.y + st.e - 668 * st.y := by
  obtain ⟨sx, sy, se⟩ := dc_settled_step c hc st h
  obtain ⟨hx, he0, he1, hy0, hy1⟩ := h
  refine ⟨⟨by rw [sx, hx], ?_, ?_, ?_, ?_⟩, ?_, ?_, ?_⟩
  · rw [se]; omega
  · rw [se]; omega
  · rw [sy]; omega
  · rw [sy]; omega
  · intro hp; rw [sy]; omega
  · intro hn; rw [sy]; omega
  · rw [sy, se]; omega

/-- While `old_y` is positive it only shrinks, and as long as it is at least
`M` every step takes `668 * M` off the potential. -/
theorem dc_decay_pos (c : Nat) (hc : c ≤ 4095) (M : Int) :
    ∀ (m : Nat) (st : dc_state), dc_settled c st → 0 ≤ st.y →
      dc_settled c (dc_const_run c st m) ∧ 0 ≤ (dc_const_run c st m).y ∧
      (dc_const_run c st m).y ≤ st.y ∧
      (M ≤ (dc_const_run c st m).y →
        32768 * (dc_const_run c st m).y + (dc_const_run c st m).e + 668 * M * m ≤
          32768 * st.y + st.e) := by
  intro m
  induction m with
  | zero =>
    intro st h hy
    refine ⟨h, hy, le_refl _, fun _ => ?_⟩
    simp [dc_const_run]
  | succ m ih =>
    intro st h hy
    obtain ⟨i1, i2, i3, i4⟩ := ih st h hy
    obtain ⟨n1, n2, _, n4⟩ := dc_settled_next c hc _ i1
    obtain ⟨n2a, n2b⟩ := n2 i2
    rw [dc_const_run]
    refine ⟨n1, n2a, by omega, ?_⟩
    intro hge
    have h5 := i4 (by omega)
    have e1 : 668 * M * ((m + 1 : Nat) : Int) = 668 * M * (m : Int) + 668 * M := by
      push_cast; ring
    rw [e1]
    nlinarith [i1.2.1]

/-- Mirror image of `dc_decay_pos` for a negative `old_y`. -/
theorem dc_decay_neg (c : Nat) (hc : c ≤ 4095) (M : Int) :
    ∀ (m : Nat) (st : dc_state), dc_settled c st → st.y ≤ 0 →
      dc_settled c (dc_const_run c st m) ∧ (dc_const_run c st m).y ≤ 0 ∧
      st.y ≤ (dc_const_run c st m).y ∧
      ((dc_const_run c st m).y < -M →
        32768 * st.y + st.e + 668 * M * m ≤
          32768 * (dc_const_run c st m).y + (dc_const_run c st m).e) := by
  intro m
  induction m with
  | zero =>
    intro st h hy
    refine ⟨h, hy, le_refl _, fun _ => ?_⟩
    simp [dc_const_run]
  | succ m ih =>
    intro st h hy
    obtain ⟨i1, i2, i3, i4⟩ := ih st h hy
    obtain ⟨n1, _, n3, n4⟩ := dc_settled_next c hc _ i1
    obtain ⟨n3a, n3b⟩ := n3 i2
    rw [dc_const_run]
    refine ⟨n1, n3b, by omega, ?_⟩
    intro hlt
    have h5 := i4 (by omega)
    have e1 : 668 * M * ((m + 1 : Nat) : Int) = 668 * M * (m : Int) + 668 * M := by
      push_cast; ring
    rw [e1]
    nlinarith [i1.2.1]

/-- A stage of the decay: 785 samples bring `|old_y| ≤ 16 * M` down to
`|old_y| ≤ M`. -/
theorem dc_decay_stage (c : Nat) (hc : c ≤ 4095) (M : Int) (hM : 1 ≤ M) (st : dc_state)
    (h : dc_settled c st) (hlo : -(16 * M) ≤ st.y) (hhi : st.y ≤ 16 * M) :
    dc_settled c (dc_const_run c st 785) ∧
    -M ≤ (dc_const_run c st 785).y ∧ (dc_const_run c st 785).y ≤ M := by
  rcases le_total 0 st.y with hpos | hneg
  · obtain ⟨i1, i2, _, i4⟩ := dc_decay_pos c hc (M + 1) 785 st h hpos
    refine ⟨i1, by omega, ?_⟩
    by_contra hcon
    have h5 := i4 (by omega)
    obtain ⟨_, e0, e1, _, _⟩ := i1
    obtain ⟨_, f0, f1, _, _⟩ := h
    push_cast at h5
    omega
  · obtain ⟨i1, i2, _, i4⟩ := dc_decay_neg c hc M 785 st h hneg
    refine ⟨i1, ?_, by omega⟩
    by_contra hcon
    have h5 := i4 (by omega)
    obtain ⟨_, e0, e1, _, _⟩ := i1
    obtain ⟨_, f0, f1, _, _⟩ := h
    push_cast at h5
    omega

/-- Once `|old_y| ≤ B` it stays so. -/
theorem dc_decay_mono (c : Nat) (hc : c ≤ 4095) (B : Int) (m : Nat) (st : dc_state)
    (h : dc_settled c st) (hlo : -B ≤ st.y) (hhi : st.y ≤ B) :
    -B ≤ (dc_const_run c st m).y ∧ (dc_const_run c st m).y ≤ B := by
  rcases le_total 0 st.y with hpos | hneg
  · obtain ⟨_, i2, i3, _⟩ := dc_decay_pos c hc 0 m st h hpos
    omega
  · obtain ⟨_, i2, i3, _⟩ := dc_decay_neg c hc 0 m st h hneg
    omega

/-- The first sample after a reset loads `old_y` with the scaled sample. -/
theorem dc_first_sample (c : Nat) (hc : c ≤ 4095) :
    dc_settled c (dc_const_run c ⟨0, 0, 0⟩ 1) := by
  have hX : trunc16 (((c : Int) - 2048) * 8) = ((c : Int) - 2048) * 8 :=
    trunc16_of_range _ (by omega) (by omega)
  have h0 : trunc32 0 = 0 := rfl
  have h1 : trunc16 0 = 0 := rfl
  simp only [dc_settled, dc_const_run, dc_ref_step, shiftRight15, hX, sub_zero, zero_mul,
    add_zero, h0, h1, Int.zero_ediv, trunc16_idem]
  refine ⟨trivial, ?_, ?_, ?_, ?_⟩ <;> omega

/-- From the reset state and a constant input in `[0, 4095]`, `old_y` is
within `[-4, 4]` after 2356 samples and ever after. -/
theorem dc_const_small (c : Nat) (hc : c ≤ 4095) (i : Nat) (hi : 2356 ≤ i) :
    -4 ≤ (dc_const_run c ⟨0, 0, 0⟩ i).y ∧ (dc_const_run c ⟨0, 0, 0⟩ i).y ≤ 4 := by
  have e : i = 1 + 785 + 785 + 785 + (i - 2356) := by omega
  rw [e, dc_const_run_add, dc_const_run_add, dc_const_run_add, dc_const_run_add]
  have s1 := dc_first_sample c hc
  obtain ⟨s2, a2, b2⟩ := dc_decay_stage c hc 1024 (by norm_num) _ s1
    (by have := s1.2.2.2.1; omega) (by have := s1.2.2.2.2; omega)
  obtain ⟨s3, a3, b3⟩ := dc_decay_stage c hc 64 (by norm_num) _ s2 (by omega) (by omega)
  obtain ⟨s4, a4, b4⟩ := dc_decay_stage c hc 4 (by norm_num) _ s3 (by omega) (by omega)
  exact dc_decay_mono c hc 4 (i - 2356) _ s4 a4 b4

/-- The sign and scaling pattern does not enlarge a value within `[-B, B]`. -/
theorem dc_ref_pattern_bound (i : Nat) (y B : Int) (hB : B ≤ 32767) (hlo : -B ≤ y)
    (hhi : y ≤ B) : |dc_ref_pattern i y| ≤ B := by
  rw [abs_le]
  unfold dc_ref_pattern
  split <;> simp only [trunc16, shiftRight1] <;> constructor <;> omega

/-- After a reset, `remove_dc` on `4 * n` samples all equal to `c` returns and
its `i`-th output is the pattern applied to `old_y` after `i + 1` samples. -/
theorem remove_dc_const (cnv0 : iqconverter_int16_t) (c n : Nat) :
    ∃ r, remove_dc (iqconverter_int16_reset cnv0) (List.replicate (4 * n) c) = some r ∧
      r.2.length = 4 * n ∧
      ∀ i, i < 4 * n →
        r.2[i]? = some (dc_ref_pattern i (dc_const_run c ⟨0, 0, 0⟩ (i + 1)).y) := by
  obtain ⟨out, h1, h2, h3⟩ :=
    remove_dc_loop_spec n (List.replicate (4 * n) c) ⟨0, 0, 0⟩ (by simp)
  simp only [] at h1
  have hr : remove_dc (iqconverter_int16_reset cnv0) (List.replicate (4 * n) c) =
      some ({ iqconverter_int16_reset cnv0 with
              old_x := (dc_ref_run ⟨0, 0, 0⟩ (List.replicate (4 * n) c)
                (List.replicate (4 * n) c).length).x
              old_y := (dc_ref_run ⟨0, 0, 0⟩ (List.replicate (4 * n) c)
                (List.replicate (4 * n) c).length).y
              old_e := (dc_ref_run ⟨0, 0, 0⟩ (List.replicate (4 * n) c)
                (List.replicate (4 * n) c).length).e }, out) := by
    simp only [remove_dc, iqconverter_int16_reset, h1]
  refine ⟨_, hr, by simpa using h2, ?_⟩
  intro i hi
  simp only []
  rw [h3 i (by simpa using hi), dc_ref_out, dc_ref_run_replicate c _ (4 * n) (i + 1) (by omega)]

/-- C7. DC blocker convergence: for every constant `c` in `[0, 4095]`, from
the reset state, `remove_dc` on a buffer of `4 * n` samples all equal to `c`
returns, and every output at an index `i >= 4096` has absolute value at most
4. -/
theorem remove_dc_constant_converges (cnv0 : iqconverter_int16_t) (c n : Nat)
    (hc : c ≤ 4095) :
    ∃ r, remove_dc (iqconverter_int16_reset cnv0) (List.replicate (4 * n) c) = some r ∧
      ∀ i, 4096 ≤ i → i < 4 * n → ∃ v, r.2[i]? = some v ∧ |v| ≤ 4 := by
  obtain ⟨r, h1, _, h3⟩ := remove_dc_const cnv0 c n
  refine ⟨r, h1, ?_⟩
  intro i hi hlt
  refine ⟨_, h3 i hlt, ?_⟩
  obtain ⟨hlo, hhi⟩ := dc_const_small c hc (i + 1) (by omega)
  exact dc_ref_pattern_bound i _ 4 (by norm_num) hlo hhi

/-- Witness for C7: full-scale input `c = 4095`, a buffer of 4100 samples. -/
theorem remove_dc_constant_converges_witness :
    (4095 : Nat) ≤ 4095 ∧
    ∃ r, remove_dc (iqconverter_int16_reset (zeroed_converter 3 (fun _ => 1)))
        (List.replicate (4 * 1025) 4095) = some r ∧
      ∀ i, 4096 ≤ i → i < 4 * 1025 → ∃ v, r.2[i]? = some v ∧ |v| ≤ 4 :=
  ⟨le_refl _, remove_dc_constant_converges (zeroed_converter 3 (fun _ => 1)) 4095 1025
    (le_refl _)⟩

theorem dc_const_run_midscale (i : Nat) : dc_const_run 2048 ⟨0, 0, 0⟩ i = ⟨0, 0, 0⟩ := by
  induction i with
  | zero => rfl
  | succ i ih => rw [dc_const_run, ih]; rfl

/-- C10. DC blocker zero on zero: from the reset state, `remove_dc` on a
buffer of `4 * n` samples all equal to 2048 returns, and every output at an
index `i >= 4` has absolute value at most 1. -/
theorem remove_dc_midscale_zero (cnv0 : iqconverter_int16_t) (n : Nat) :
    ∃ r, remove_dc (iqconverter_int16_reset cnv0) (List.replicate (4 * n) 2048) = some r ∧
      ∀ i, 4 ≤ i → i < 4 * n → ∃ v, r.2[i]? = some v ∧ |v| ≤ 1 := by
  obtain ⟨r, h1, _, h3⟩ := remove_dc_const cnv0 2048 n
  refine ⟨r, h1, ?_⟩
  intro i _ hlt
  refine ⟨_, h3 i hlt, ?_⟩
  rw [dc_const_run_midscale]
  exact dc_ref_pattern_bound i 0 1 (by norm_num) (by norm_num) (by norm_num)

/-! ### `fir_interleaved` -/

/-- Induction over a buffer two elements at a time. -/
theorem list_pairs_induction {α : Type} (P : List α → Prop) (h0 : P [])
    (h1 : ∀ x, P [x]) (h2 : ∀ x s rest, P rest → P (x :: s :: rest)) : ∀ l, P l := by
  have key : ∀ l, P l ∧ ∀ a, P (a :: l) := by
    intro l
    induction l with
    | nil => exact ⟨h0, h1⟩
    | cons b l ih => exact ⟨ih.2 b, fun a => h2 a b l ih.1⟩
  exact fun l => (key l).1

theorem trunc32_add_trunc32 (a b : Int) : trunc32 (trunc32 a + trunc32 b) = trunc32 (a + b) := by
  unfold trunc32; omega

/-- The 32-bit accumulator of the inner loop is the wrapped exact sum. -/
theorem fir_acc_eq_sum (kernel w : Nat → Int) (n : Nat) :
    fir_acc kernel w n = trunc32 (Finset.sum (Finset.range n) (fun j => kernel j * w j)) := by
  induction n with
  | zero => rfl
  | succ n ih => rw [fir_acc, ih, trunc32_add_trunc32, Finset.sum_range_succ]

/-- One pass of the outer loop: output from the window, and the window
again holds the history. -/
theorem fir_iter_spec (len : Nat) (kernel queue : Nat → Int) (idx : Nat) (hist : Nat → Int)
    (x : Int) (hw : fir_window len queue idx hist) :
    (fir_iter len kernel queue idx x).2.2 =
      trunc16 (trunc32 (Finset.sum (Finset.range len)
        (fun j => kernel j * (if j = 0 then x else hist (j - 1)))) >>> (15 : Nat)) ∧
    fir_window len (fir_iter len kernel queue idx x).1 (fir_iter len kernel queue idx x).2.1
      (fun j => if j = 0 then x else hist (j - 1)) := by
  constructor
  · simp only [fir_iter, fir_acc_eq_sum]
    congr 3
    apply Finset.sum_congr rfl
    intro j hj
    have hj : j < len := Finset.mem_range.mp hj
    by_cases h0 : j = 0
    · subst h0; simp [store]
    · rw [if_neg h0]
      have : store queue idx x (idx + j) = queue (idx + j) := by
        simp only [store]; rw [if_neg (by omega)]
      rw [this, hw j (by omega) hj]
  · intro j hj1 hj2
    by_cases hidx : idx = 0
    · subst hidx
      simp only [fir_iter, if_true, memcpy_int32, SIZE_FACTOR]
      rw [if_pos (by omega)]
      by_cases hj : j - 1 = 0
      · rw [if_pos hj]
        have : len * (16 - 1) + j - (len * (16 - 1) + 1) = 0 := by omega
        simp [store, this]
      · rw [if_neg hj]
        have e : 0 + (len * (16 - 1) + j - (len * (16 - 1) + 1)) = 0 + (j - 1) := by omega
        rw [e]
        simp only [store]
        rw [if_neg (by omega), hw (j - 1) (by omega) (by omega)]
    · simp only [fir_iter, if_neg hidx]
      by_cases hj : j - 1 = 0
      · rw [if_pos hj]
        simp only [store]
        rw [if_pos (by omega)]
      · rw [if_neg hj]
        simp only [store]
        rw [if_neg (by omega)]
        have e : idx - 1 + j = idx + (j - 1) := by omega
        rw [e, hw (j - 1) (by omega) (by omega)]

/-- The loop of `fir_interleaved`, entered with a window that holds the
history `hist`, writes the naive reference to every even offset. -/
theorem fir_loop_spec (len : Nat) (kernel : Nat → Int) :
    ∀ (samples : List Int) (queue : Nat → Int) (idx : Nat) (hist : Nat → Int),
      fir_window len queue idx hist → ∀ n, 2 * n < samples.length →
        (fir_loop len kernel queue idx samples).2.2[2 * n]? =
          some (fir_naive_hist kernel len hist (i_stream samples) n) := by
  intro samples
  induction samples using list_pairs_induction with
  | h0 => intro _ _ _ _ n hn; simp at hn
  | h1 x =>
    intro queue idx hist hw n hn
    have hn0 : n = 0 := by simp at hn; omega
    subst hn0
    simp only [fir_loop, (fir_iter_spec len kernel queue idx hist x hw).1, fir_naive_hist,
      i_stream]
    simp
  | h2 x s rest ih =>
    intro queue idx hist hw n hn
    obtain ⟨hout, hw2⟩ := fir_iter_spec len kernel queue idx hist x hw
    cases n with
    | zero =>
      simp only [fir_loop, hout, fir_naive_hist, i_stream]
      simp
    | succ n =>
      have hn2 : 2 * n < rest.length := by simp at hn; omega
      have h := ih _ _ _ hw2 n hn2
      have e : 2 * (n + 1) = 2 * n + 1 + 1 := by omega
      simp only [fir_loop, e, List.getElem?_cons_succ]
      rw [h]
      simp only [fir_naive_hist]
      congr 5
      funext j
      congr 1
      by_cases h1 : j ≤ n
      · rw [if_pos h1, if_pos (by omega)]
        simp only [i_stream]
        have e2 : 2 * (n + 1 - j) = 2 * (n - j) + 1 + 1 := by omega
        rw [e2, List.getD_cons_succ, List.getD_cons_succ]
      · rw [if_neg h1]
        by_cases h2 : j = n + 1
        · subst h2
          simp [i_stream]
        · rw [if_neg (by omega), if_neg (by omega)]
          congr 1

/-- After a reset the window at `fir_index = 0` holds an all-zero history,
whatever the queue held before. -/
theorem fir_window_reset (cnv0 : iqconverter_int16_t) :
    fir_window cnv0.len (iqconverter_int16_reset cnv0).fir_queue
      (iqconverter_int16_reset cnv0).fir_index (fun _ => 0) := by
  intro j _ hj
  simp only [iqconverter_int16_reset, memset_zero_int32, SIZE_FACTOR]
  rw [if_pos (by omega)]

theorem fir_naive_hist_zero (kernel : Nat → Int) (L : Nat) (x : Nat → Int) (n : Nat) :
    fir_naive_hist kernel L (fun _ => 0) x n = fir_naive kernel L x n := rfl

/-- C4. Queue wrap correctness: for every kernel of `L >= 1` stored taps,
every prior converter state and every buffer (of any length), the `n`-th I
output of `fir_interleaved` run from the reset state equals the naive
reference `trunc16 ((32-bit sum over j < L of kernel[j] * x[n - j]) >> 15)`
with `x[m] = 0` for `m < 0`, where `x` is the I-stream of the buffer. -/
theorem fir_interleaved_eq_naive (cnv0 : iqconverter_int16_t) (_hL : 1 ≤ cnv0.len)
    (samples : List Int) (n : Nat) (hn : 2 * n < samples.length) :
    (fir_interleaved (iqconverter_int16_reset cnv0) samples).2[2 * n]? =
      some (fir_naive cnv0.fir_kernel cnv0.len (i_stream samples) n) := by
  have h := fir_loop_spec cnv0.len cnv0.fir_kernel samples _ _ _ (fir_window_reset cnv0) n hn
  rw [fir_naive_hist_zero] at h
  exact h

/-- Witness for C4: two taps, a queue full of stale entries before the reset,
third I output of the buffer. -/
theorem fir_interleaved_eq_naive_witness :
    1 ≤ (stale_converter 2 (fun _ => 16384)).len ∧
    2 * 2 < [100, 1, 200, 2, 300, 3].length ∧
    (fir_interleaved (iqconverter_int16_reset (stale_converter 2 (fun _ => 16384)))
        [100, 1, 200, 2, 300, 3]).2[2 * 2]? =
      some (fir_naive (stale_converter 2 (fun _ => 16384)).fir_kernel
        (stale_converter 2 (fun _ => 16384)).len (i_stream [100, 1, 200, 2, 300, 3]) 2) :=
  ⟨by decide, by decide,
    fir_interleaved_eq_naive (stale_converter 2 (fun _ => 16384)) (by decide)
      [100, 1, 200, 2, 300, 3] 2 (by decide)⟩

theorem int16_mul_range (a b : Int) (ha1 : -32768 ≤ a) (ha2 : a ≤ 32767) (hb1 : -32768 ≤ b)
    (hb2 : b ≤ 32767) : -2147483648 ≤ a * b ∧ a * b ≤ 2147483647 := by
  constructor
  · nlinarith [mul_nonneg (sub_nonneg.mpr ha2) (sub_nonneg.mpr hb1),
      mul_nonneg (sub_nonneg.mpr ha1) (sub_nonneg.mpr hb2)]
  · nlinarith [mul_nonneg (sub_nonneg.mpr ha2) (sub_nonneg.mpr hb2),
      mul_nonneg (sub_nonneg.mpr ha1) (sub_nonneg.mpr hb1)]

/-- C8. Half-band impulse response: after a reset, for every amplitude `A`
(int16) and every kernel of `L >= 1` stored 16-bit taps, a buffer whose
I-stream is `A` at step 0 and 0 afterwards makes the I output at step `n`
equal `trunc16 ((fir_kernel[n] * A) >> 15)` for `n < L` and 0 for `n >= L`. -/
theorem fir_impulse_response (cnv0 : iqconverter_int16_t) (_hL : 1 ≤ cnv0.len) (A : Int)
    (hA1 : -32768 ≤ A) (hA2 : A ≤ 32767)
    (hk : ∀ j, j < cnv0.len → -32768 ≤ cnv0.fir_kernel j ∧ cnv0.fir_kernel j ≤ 32767)
    (samples : List Int) (h0 : samples[0]? = some A)
    (hz : ∀ m, 1 ≤ m → 2 * m < samples.length → samples[2 * m]? = some 0)
    (n : Nat) (hn : 2 * n < samples.length) :
    (fir_interleaved (iqconverter_int16_reset cnv0) samples).2[2 * n]? =
      some (if n < cnv0.len then trunc16 ((cnv0.fir_kernel n * A) >>> (15 : Nat)) else 0) := by
  have h := fir_loop_spec cnv0.len cnv0.fir_kernel samples _ _ _ (fir_window_reset cnv0) n hn
  have hx : ∀ m, 2 * m < samples.length → i_stream samples m = if m = 0 then A else 0 := by
    intro m hm
    by_cases hm0 : m = 0
    · subst hm0
      simp only [i_stream, List.getD_eq_getElem?_getD, h0]; rfl
    · have := hz m (by omega) hm
      simp only [i_stream, List.getD_eq_getElem?_getD, this, if_neg hm0]; rfl
  have hsum : Finset.sum (Finset.range cnv0.len)
      (fun j => cnv0.fir_kernel j * (if j ≤ n then i_stream samples (n - j) else 0)) =
      if n < cnv0.len then cnv0.fir_kernel n * A else 0 := by
    have hterm : ∀ j, (cnv0.fir_kernel j * (if j ≤ n then i_stream samples (n - j) else 0)) =
        if n = j then cnv0.fir_kernel n * A else 0 := by
      intro j
      by_cases hj : j ≤ n
      · rw [if_pos hj, hx (n - j) (by omega)]
        by_cases hjn : n = j
        · subst hjn; simp
        · rw [if_neg (by omega), if_neg hjn, mul_zero]
      · rw [if_neg hj, if_neg (by omega), mul_zero]
    simp only [hterm, Finset.sum_ite_eq, Finset.mem_range]
  refine h.trans ?_
  simp only [fir_naive_hist, hsum]
  congr 1
  by_cases hnl : n < cnv0.len
  · obtain ⟨k1, k2⟩ := hk n hnl
    obtain ⟨p1, p2⟩ := int16_mul_range _ _ k1 k2 hA1 hA2
    rw [if_pos hnl, if_pos hnl, trunc32_of_range _ p1 p2]
  · rw [if_neg hnl, if_neg hnl]; rfl

/-- Witness for C8: taps `[100, -2000, 30000]`, full-scale impulse, the
third output is `trunc16 ((30000 * 32767) >> 15) = 29999`. -/
theorem fir_impulse_response_witness :
    (fir_interleaved (iqconverter_int16_reset (stale_converter 3 impulse_taps))
        [32767, 5, 0, 6, 0, 7, 0, 8]).2[2 * 2]? = some 29999 := by
  have h := fir_impulse_response (stale_converter 3 impulse_taps) (by decide) 32767
    (by decide) (by decide)
    (by
      intro j hj
      have hj3 : j < 3 := hj
      have h : j = 0 ∨ j = 1 ∨ j = 2 := by omega
      rcases h with h | h | h <;> subst h <;> decide)
    [32767, 5, 0, 6, 0, 7, 0, 8] (by decide)
    (by
      intro m hm1 hm2
      have hm3 : 2 * m < 8 := hm2
      have h : m = 1 ∨ m = 2 ∨ m = 3 := by omega
      rcases h with h | h | h <;> subst h <;> decide)
    2 (by decide)
  rw [h]
  decide

/-! ### `delay_interleaved` -/

/-- The loop on a buffer acts on its even offsets as `delay_stream`. -/
theorem delay_loop_evens (H : Nat) : ∀ (v : List Int) (line : Nat → Int) (idx : Nat),
    (delay_loop H line idx v).1 = (delay_stream H line idx (evens v)).1 ∧
    (delay_loop H line idx v).2.1 = (delay_stream H line idx (evens v)).2.1 ∧
    evens (delay_loop H line idx v).2.2 = (delay_stream H line idx (evens v)).2.2 := by
  intro v
  induction v using list_pairs_induction with
  | h0 => intro line idx; simp [delay_loop, delay_stream, evens]
  | h1 x => intro line idx; simp [delay_loop, delay_stream, evens]
  | h2 x s rest ih =>
    intro line idx
    obtain ⟨a, b, c⟩ := ih (store line idx x) (if idx + 1 ≥ H then 0 else idx + 1)
    simp only [delay_loop, delay_stream, evens, a, b, c, and_self]

theorem delay_stream_append (H : Nat) : ∀ (a b : List Int) (line : Nat → Int) (idx : Nat),
    delay_stream H line idx (a ++ b) =
      ((delay_stream H (delay_stream H line idx a).1 (delay_stream H line idx a).2.1 b).1,
       (delay_stream H (delay_stream H line idx a).1 (delay_stream H line idx a).2.1 b).2.1,
       (delay_stream H line idx a).2.2 ++
         (delay_stream H (delay_stream H line idx a).1 (delay_stream H line idx a).2.1 b).2.2) := by
  intro a
  induction a with
  | nil => intro b line idx; simp [delay_stream]
  | cons x a ih =>
    intro b line idx
    show delay_stream H line idx (x :: (a ++ b)) = _
    simp only [delay_stream, ih, List.cons_append]

/-- Several calls act on the concatenated stream as one `delay_stream`. -/
theorem delay_calls_stream : ∀ (views : List (List Int)) (cnv : iqconverter_int16_t),
    ((delay_calls cnv views).2.map evens).flatten =
      (delay_stream (cnv.len >>> 1) cnv.delay_line cnv.delay_index
        ((views.map evens).flatten)).2.2 := by
  intro views
  induction views with
  | nil => intro cnv; simp [delay_calls, delay_stream]
  | cons v vs ih =>
    intro cnv
    obtain ⟨a, b, c⟩ := delay_loop_evens (cnv.len >>> 1) v cnv.delay_line cnv.delay_index
    simp only [delay_calls, List.map_cons, List.flatten_cons, delay_stream_append, ih,
      delay_interleaved, c, a, b]

theorem delay_stream_length (H : Nat) : ∀ (qs : List Int) (line : Nat → Int) (idx : Nat),
    (delay_stream H line idx qs).2.2.length = qs.length := by
  intro qs
  induction qs with
  | nil => intro line idx; rfl
  | cons x qs ih => intro line idx; simp [delay_stream, ih]

/-- The delay line is a queue of `H` entries: output `k` is the entry pending
at position `k` while `k < H`, and the input `k - H` afterwards. -/
theorem delay_stream_fifo (H : Nat) (hH : 1 ≤ H) : ∀ (qs : List Int) (line : Nat → Int)
    (idx : Nat), idx < H → ∀ k, k < qs.length →
      (delay_stream H line idx qs).2.2[k]? =
        if k < H then some (delay_pending H line idx k) else qs[k - H]? := by
  intro qs
  induction qs with
  | nil => intro _ _ _ k hk; simp at hk
  | cons x qs ih =>
    intro line idx hidx k hk
    cases k with
    | zero =>
      simp only [delay_stream, List.getElem?_cons_zero]
      rw [if_pos (by omega)]
      simp [delay_pending, hidx]
    | succ k =>
      have hk2 : k < qs.length := by simpa using hk
      simp only [delay_stream, List.getElem?_cons_succ]
      have hnext : (if idx + 1 ≥ H then 0 else idx + 1) < H := by split <;> omega
      rw [ih _ _ hnext k hk2]
      by_cases h1 : k + 1 < H
      · rw [if_pos (show k < H by omega), if_pos h1]
        congr 1
        simp only [delay_pending, store]
        split_ifs <;> first | rfl | omega | (congr 1; omega)
      · by_cases h2 : k + 1 = H
        · rw [if_pos (show k < H by omega), if_neg (show ¬ (k + 1 < H) by omega)]
          have e : k + 1 - H = 0 := by omega
          rw [e, List.getElem?_cons_zero]
          congr 1
          simp only [delay_pending, store]
          split_ifs <;> first | rfl | omega
        · rw [if_neg (show ¬ (k < H) by omega), if_neg (show ¬ (k + 1 < H) by omega)]
          have e : k + 1 - H = (k - H) + 1 := by omega
          rw [e, List.getElem?_cons_succ]

/-- C6. Delay-line equivalence: with `half_len = cnv->len >> 1 >= 1` and
`delay_index < half_len`, for every Q-stream fed through `delay_interleaved`
over one or several calls, there are as many outputs as inputs, the `k`-th
output equals the input `k - half_len` for every `k >= half_len`, and if the
delay line is all zero beforehand the first `half_len` outputs are 0. -/
theorem delay_interleaved_pure_delay (cnv : iqconverter_int16_t) (views : List (List Int))
    (hH : 1 ≤ cnv.len >>> 1) (hidx : cnv.delay_index < cnv.len >>> 1) :
    (((delay_calls cnv views).2.map evens).flatten).length =
      ((views.map evens).flatten).length ∧
    (∀ k, cnv.len >>> 1 ≤ k → k < ((views.map evens).flatten).length →
      (((delay_calls cnv views).2.map evens).flatten)[k]? =
        ((views.map evens).flatten)[k - (cnv.len >>> 1)]?) ∧
    ((∀ i, i < cnv.len >>> 1 → cnv.delay_line i = 0) →
      ∀ k, k < cnv.len >>> 1 → k < ((views.map evens).flatten).length →
        (((delay_calls cnv views).2.map evens).flatten)[k]? = some 0) := by
  rw [delay_calls_stream]
  refine ⟨delay_stream_length _ _ _ _, ?_, ?_⟩
  · intro k hk hlt
    rw [delay_stream_fifo _ hH _ _ _ hidx k hlt, if_neg (by omega)]
  · intro hzero k hk hlt
    rw [delay_stream_fifo _ hH _ _ _ hidx k hlt, if_pos hk]
    congr 1
    simp only [delay_pending]
    split_ifs <;> exact hzero _ (by omega)

/-- Witness for C6: `len = 4` (two delay entries), two calls. -/
theorem delay_interleaved_pure_delay_witness :
    1 ≤ (stale_converter 4 impulse_taps).len >>> 1 ∧
    (stale_converter 4 impulse_taps).delay_index < (stale_converter 4 impulse_taps).len >>> 1 ∧
    (((delay_calls (stale_converter 4 impulse_taps)
        [[1, 100, 2], [3, 100, 4, 100]]).2.map evens).flatten)[3]? = some 2 := by
  obtain ⟨_, h, _⟩ := delay_interleaved_pure_delay (stale_converter 4 impulse_taps)
    [[1, 100, 2], [3, 100, 4, 100]] (by decide) (by decide)
  refine ⟨by decide, by decide, ?_⟩
  rw [h 3 (by decide) (by decide)]
  decide

/-! ### State carry across calls -/

theorem fir_loop_length (len : Nat) (kernel : Nat → Int) :
    ∀ (samples : List Int) (q : Nat → Int) (idx : Nat),
      (fir_loop len kernel q idx samples).2.2.length = samples.length := by
  intro samples
  induction samples using list_pairs_induction with
  | h0 => intro q idx; rfl
  | h1 x => intro q idx; rfl
  | h2 x s rest ih => intro q idx; simp [fir_loop, ih]

theorem delay_loop_length (H : Nat) :
    ∀ (samples : List Int) (line : Nat → Int) (idx : Nat),
      (delay_loop H line idx samples).2.2.length = samples.length := by
  intro samples
  induction samples using list_pairs_induction with
  | h0 => intro q idx; rfl
  | h1 x => intro q idx; rfl
  | h2 x s rest ih => intro q idx; simp [delay_loop, ih]

/-- The FIR loop over `a ++ b`, `a` of even length, is the loop over `a`
followed by the loop over `b` from the state `a` left. -/
theorem fir_loop_append (len : Nat) (kernel : Nat → Int) (b : List Int) :
    ∀ (a : List Int) (q : Nat → Int) (idx : Nat), a.length % 2 = 0 →
      fir_loop len kernel q idx (a ++ b) =
        ((fir_loop len kernel (fir_loop len kernel q idx a).1
            (fir_loop len kernel q idx a).2.1 b).1,
         (fir_loop len kernel (fir_loop len kernel q idx a).1
            (fir_loop len kernel q idx a).2.1 b).2.1,
         (fir_loop len kernel q idx a).2.2 ++
           (fir_loop len kernel (fir_loop len kernel q idx a).1
            (fir_loop len kernel q idx a).2.1 b).2.2) := by
  intro a
  induction a using list_pairs_induction with
  | h0 => intro q idx _; simp [fir_loop]
  | h1 x => intro q idx h; simp at h
  | h2 x s rest ih =>
    intro q idx h
    have h2 : rest.length % 2 = 0 := by simp at h; omega
    show fir_loop len kernel q idx (x :: s :: (rest ++ b)) = _
    simp only [fir_loop, ih _ _ h2, List.cons_append]

/-- The delay loop over `a ++ y :: b`, `a` of odd length: `y` sits at an odd
offset and is skipped, the loop resumes on `b`. -/
theorem delay_loop_append_odd (H : Nat) (y : Int) (b : List Int) :
    ∀ (a : List Int) (line : Nat → Int) (idx : Nat), a.length % 2 = 1 →
      delay_loop H line idx (a ++ y :: b) =
        ((delay_loop H (delay_loop H line idx a).1 (delay_loop H line idx a).2.1 b).1,
         (delay_loop H (delay_loop H line idx a).1 (delay_loop H line idx a).2.1 b).2.1,
         (delay_loop H line idx a).2.2 ++ y ::
           (delay_loop H (delay_loop H line idx a).1 (delay_loop H line idx a).2.1 b).2.2) := by
  intro a
  induction a using list_pairs_induction with
  | h0 => intro line idx h; simp at h
  | h1 x => intro line idx _; simp [delay_loop]
  | h2 x s rest ih =>
    intro line idx h
    have h2 : rest.length % 2 = 1 := by simp at h; omega
    show delay_loop H line idx (x :: s :: (rest ++ y :: b)) = _
    simp only [delay_loop, ih _ _ h2, List.cons_append]

theorem translate_fs_4_even (cnv : iqconverter_int16_t) (samples : List Int)
    (h : samples.length % 2 = 0) :
    translate_fs_4 cnv samples = some (translate_total cnv samples) := by
  unfold translate_fs_4 translate_total
  rw [if_neg (by omega)]
  simp only []
  split <;> rfl

/-- `translate_fs_4` neither reads nor writes the DC-blocker variables. -/
theorem translate_total_frame (c : iqconverter_int16_t) (x y e : Int) (l : List Int) :
    translate_total { c with old_x := x, old_y := y, old_e := e } l =
      ({ (translate_total c l).1 with old_x := x, old_y := y, old_e := e },
        (translate_total c l).2) := by
  unfold translate_total
  simp only [fir_interleaved]
  split <;> rfl

theorem translate_total_nil (cnv : iqconverter_int16_t) : translate_total cnv [] = (cnv, []) :=
  rfl

/-- `translate_fs_4` over `a ++ b`, both of even length, is the call on `a`
followed by the call on `b`. -/
theorem translate_total_append (cnv : iqconverter_int16_t) (a b : List Int)
    (ha : a.length % 2 = 0) (hb : b.length % 2 = 0) :
    translate_total cnv (a ++ b) =
      ((translate_total (translate_total cnv a).1 b).1,
        (translate_total cnv a).2 ++ (translate_total (translate_total cnv a).1 b).2) := by
  cases a with
  | nil => simp [translate_total_nil]
  | cons x a =>
    cases b with
    | nil => simp [translate_total_nil]
    | cons y b =>
      have hla : a.length % 2 = 1 := by simp at ha; omega
      have hfa := fir_loop_length cnv.len cnv.fir_kernel (x :: a) cnv.fir_queue cnv.fir_index
      have hfb := fir_loop_length cnv.len cnv.fir_kernel (y :: b)
        (fir_loop cnv.len cnv.fir_kernel cnv.fir_queue cnv.fir_index (x :: a)).1
        (fir_loop cnv.len cnv.fir_kernel cnv.fir_queue cnv.fir_index (x :: a)).2.1
      have hsplit := fir_loop_append cnv.len cnv.fir_kernel (y :: b) (x :: a) cnv.fir_queue
        cnv.fir_index ha
      generalize hA : fir_loop cnv.len cnv.fir_kernel cnv.fir_queue cnv.fir_index (x :: a) = A
        at hfa hfb hsplit
      obtain ⟨qa, ia, oa⟩ := A
      generalize hB : fir_loop cnv.len cnv.fir_kernel qa ia (y :: b) = B at hfb hsplit
      obtain ⟨qb, ib, ob⟩ := B
      simp only [] at hfa hfb hsplit
      cases oa with
      | nil => simp at hfa
      | cons i0 ta =>
        cases ob with
        | nil => simp at hfb
        | cons j0 tb =>
          have hta : ta.length % 2 = 1 := by simp at hfa; omega
          have hd := delay_loop_append_odd (cnv.len >>> 1) j0 tb ta cnv.delay_line
            cnv.delay_index hta
          simp only [List.cons_append] at hsplit
          simp only [translate_total, fir_interleaved, delay_interleaved, hsplit, hA, hB,
            List.cons_append, hd]

/-- The DC-blocker loop over `a ++ b`, `a` of length `4 * n`, is the loop over
`a` followed by the loop over `b` from the state `a` left. -/
theorem remove_dc_loop_append (b : List Nat) (e2 x2 y2 : Int) (o2 : List Int) :
    ∀ (n : Nat) (a : List Nat) (e x y e1 x1 y1 : Int) (o1 : List Int), a.length = 4 * n →
      remove_dc_loop e x y a = some (e1, x1, y1, o1) →
      remove_dc_loop e1 x1 y1 b = some (e2, x2, y2, o2) →
      remove_dc_loop e x y (a ++ b) = some (e2, x2, y2, o1 ++ o2) := by
  intro n
  induction n with
  | zero =>
    intro a e x y e1 x1 y1 o1 hlen ha hb
    have : a = [] := List.eq_nil_of_length_eq_zero (by omega)
    subst this
    simp only [remove_dc_loop, Option.some.injEq, Prod.mk.injEq] at ha
    obtain ⟨h1, h2, h3, h4⟩ := ha
    subst h1 h2 h3 h4
    simpa using hb
  | succ n ih =>
    intro a e x y e1 x1 y1 o1 hlen ha hb
    match a, hlen with
    | r0 :: r1 :: r2 :: r3 :: rest, hlen =>
      have hrest : rest.length = 4 * n := by simp at hlen; omega
      simp only [remove_dc_loop] at ha
      show remove_dc_loop e x y (r0 :: r1 :: r2 :: r3 :: (rest ++ b)) = _
      simp only [remove_dc_loop]
      generalize (_remove_dc_sample r3 _ _ _) = d at ha ⊢
      cases hr : remove_dc_loop d.new_e d.new_x d.new_y rest with
      | none => rw [hr] at ha; simp at ha
      | some r =>
        obtain ⟨e', x', y', o'⟩ := r
        rw [hr] at ha
        simp only [Option.some.injEq, Prod.mk.injEq] at ha
        obtain ⟨h1, h2, h3, h4⟩ := ha
        subst h1 h2 h3 h4
        rw [ih rest _ _ _ _ _ _ _ hrest hr hb]
        simp

/-- C5. State carry: for every converter state, every buffer whose length is
a multiple of 4 and every split point `m` (a multiple of 4, at most the
length), `iqconverter_int16_process` on the first `m` samples and then on
the remaining ones returns both times, and one call on the whole buffer
returns the concatenation of the two outputs and the same final converter
state. -/
theorem process_state_carry (cnv : iqconverter_int16_t) (buf : List Nat) (m : Nat)
    (hlen : buf.length % 4 = 0) (hm : m % 4 = 0) (hle : m ≤ buf.length) :
    ∃ c1 o1 c2 o2,
      iqconverter_int16_process cnv (buf.take m) = some (c1, o1) ∧
      iqconverter_int16_process c1 (buf.drop m) = some (c2, o2) ∧
      iqconverter_int16_process cnv buf = some (c2, o1 ++ o2) := by
  have hta : (buf.take m).length = 4 * (m / 4) := by
    rw [List.length_take]; omega
  have htb : (buf.drop m).length = 4 * ((buf.length - m) / 4) := by
    rw [List.length_drop]; omega
  obtain ⟨da, ha, hla, _⟩ :=
    remove_dc_loop_spec (m / 4) (buf.take m) ⟨cnv.old_x, cnv.old_y, cnv.old_e⟩ hta
  obtain ⟨db, hb, hlb, _⟩ :=
    remove_dc_loop_spec ((buf.length - m) / 4) (buf.drop m)
      (dc_ref_run ⟨cnv.old_x, cnv.old_y, cnv.old_e⟩ (buf.take m) (buf.take m).length) htb
  have hab := remove_dc_loop_append _ _ _ _ _ (m / 4) _ _ _ _ _ _ _ _ hta ha hb
  rw [List.take_append_drop] at hab
  simp only [] at ha hab
  have hda : da.length % 2 = 0 := by omega
  have hdb : db.length % 2 = 0 := by omega
  have hdab : (da ++ db).length % 2 = 0 := by rw [List.length_append]; omega
  generalize dc_ref_run ⟨cnv.old_x, cnv.old_y, cnv.old_e⟩ (buf.take m) (buf.take m).length = st1
    at ha hb hab
  generalize dc_ref_run st1 (buf.drop m) (buf.drop m).length = st2 at hb hab
  refine ⟨{ (translate_total cnv da).1 with old_x := st1.x, old_y := st1.y, old_e := st1.e },
    (translate_total cnv da).2,
    { (translate_total (translate_total cnv da).1 db).1 with
      old_x := st2.x, old_y := st2.y, old_e := st2.e },
    (translate_total (translate_total cnv da).1 db).2, ?_, ?_, ?_⟩
  · simp only [iqconverter_int16_process, remove_dc, ha]
    rw [translate_fs_4_even _ _ hda, translate_total_frame]
  · simp only [iqconverter_int16_process, remove_dc, hb]
    rw [translate_fs_4_even _ _ hdb, translate_total_frame, translate_total_frame]
  · simp only [iqconverter_int16_process, remove_dc, hab]
    rw [translate_fs_4_even _ _ hdab, translate_total_frame,
      translate_total_append _ _ _ hda hdb]

/-- Witness for C5: eight samples split after the first four. -/
theorem process_state_carry_witness :
    [2048, 0, 4095, 100, 7, 2000, 3000, 1].length % 4 = 0 ∧ 4 % 4 = 0 ∧
    4 ≤ [2048, 0, 4095, 100, 7, 2000, 3000, 1].length ∧
    ∃ c1 o1 c2 o2,
      iqconverter_int16_process (stale_converter 3 impulse_taps)
        ([2048, 0, 4095, 100, 7, 2000, 3000, 1].take 4) = some (c1, o1) ∧
      iqconverter_int16_process c1 ([2048, 0, 4095, 100, 7, 2000, 3000, 1].drop 4) =
        some (c2, o2) ∧
      iqconverter_int16_process (stale_converter 3 impulse_taps)
        [2048, 0, 4095, 100, 7, 2000, 3000, 1] = some (c2, o1 ++ o2) :=
  ⟨by decide, by decide, by decide,
    process_state_carry (stale_converter 3 impulse_taps)
      [2048, 0, 4095, 100, 7, 2000, 3000, 1] 4 (by decide) (by decide) (by decide)⟩

/-! ### `iqconverter_int16_reset` -/

/-- C9, evaluated at a failing input.  With `len = 4` the delay line has
`len >> 1 = 2` entries and the FIR queue `len * 16 = 64`; the reset of a
converter whose arrays are full of the value 9 clears `len * 2 / 4 = 2` bytes
of the delay line and `len * 2 * 16 = 128` bytes of the queue, so delay entry
1 and queue entry 32 keep the value 9, and the next `process` call on four
mid-scale samples outputs 9 on the Q path where a zeroed converter outputs
0. -/
theorem reset_leaves_stale_history :
    (iqconverter_int16_reset (stale_converter 4 impulse_taps)).delay_line 0 = 0 ∧
    (iqconverter_int16_reset (stale_converter 4 impulse_taps)).delay_line 1 = 9 ∧
    (iqconverter_int16_reset (stale_converter 4 impulse_taps)).fir_queue 31 = 0 ∧
    (iqconverter_int16_reset (stale_converter 4 impulse_taps)).fir_queue 32 = 9 ∧
    (iqconverter_int16_process (iqconverter_int16_reset (stale_converter 4 impulse_taps))
      [2048, 2048, 2048, 2048]).map Prod.snd = some [0, 0, 0, 9] ∧
    (iqconverter_int16_process (zeroed_converter 4 impulse_taps)
      [2048, 2048, 2048, 2048]).map Prod.snd = some [0, 0, 0, 0] := by
  refine ⟨by decide, by decide, by decide, by decide, by decide, by decide⟩

/-! ### The completion handler -/

/-- C11. Completion-handler guard: for every state in which `streaming` is
false or `stop_requested` is true, and every transfer (any status and
lengths), `airspy_libusb_transfer_callback` returns with the state unchanged
(device with its converter and both flags, number of user-callback
invocations, event history: no converter run, no user callback, no
resubmission) and the buffer unchanged. -/
theorem transfer_callback_guard (callback : Nat → List Int → Nat → Int) (st : rx_state)
    (usb_transfer : usb_completion)
    (h : st.device.streaming = false ∨ st.device.stop_requested = true) :
    airspy_libusb_transfer_callback callback st usb_transfer =
      some (st, sample_buffer.raw usb_transfer.buffer) := by
  unfold airspy_libusb_transfer_callback
  rw [if_pos]
  rcases h with h | h <;> simp [h]

/-- Witness for C11: a device on which a stop was requested, a completed
transfer. -/
theorem transfer_callback_guard_witness :
    (({ streaming_device with stop_requested := true } : airspy_device).streaming = false ∨
      ({ streaming_device with stop_requested := true } : airspy_device).stop_requested = true) ∧
    airspy_libusb_transfer_callback (fun _ _ _ => 0)
        { device := { streaming_device with stop_requested := true }, calls := 0, trace := [] }
        good_completion =
      some ({ device := { streaming_device with stop_requested := true }, calls := 0,
              trace := [] }, sample_buffer.raw good_completion.buffer) :=
  ⟨Or.inr rfl, transfer_callback_guard (fun _ _ _ => 0)
    { device := { streaming_device with stop_requested := true }, calls := 0, trace := [] }
    good_completion (Or.inr rfl)⟩

/-- `iqconverter_int16_process` returns on every buffer whose length is a
multiple of 4. -/
theorem process_defined (cnv : iqconverter_int16_t) (raw : List Nat)
    (h : raw.length % 4 = 0) : ∃ r, iqconverter_int16_process cnv raw = some r := by
  obtain ⟨out, h1, h2, _⟩ :=
    remove_dc_loop_spec (raw.length / 4) raw ⟨cnv.old_x, cnv.old_y, cnv.old_e⟩ (by omega)
  simp only [] at h1
  simp only [iqconverter_int16_process, remove_dc, h1]
  rw [translate_fs_4_even _ _ (by omega)]
  exact ⟨_, rfl⟩

/-- C12. Sample-count contract: when the handler runs with `streaming` true,
`stop_requested` false, status COMPLETED and `actual_length` equal to the
requested length, on a buffer of `buffer_size / 2` 16-bit words (a multiple
of 4, as for 262144 and 147456 bytes), it runs the converter over
`buffer_size / 2` samples, invokes the user callback exactly once, with the
converted transfer buffer as `samples` and `sample_count = buffer_size / 4`,
and then resubmits. -/
theorem transfer_callback_sample_count (callback : Nat → List Int → Nat → Int) (st : rx_state)
    (usb_transfer : usb_completion)
    (hs : st.device.streaming = true) (hr : st.device.stop_requested = false)
    (hst : usb_transfer.status = LIBUSB_TRANSFER_COMPLETED)
    (hl : usb_transfer.actual_length = usb_transfer.length)
    (hbuf : usb_transfer.buffer.length = st.device.buffer_size / 2)
    (h4 : (st.device.buffer_size / 2) % 4 = 0) :
    ∃ conv1 out st1,
      iqconverter_int16_process st.device.conv usb_transfer.buffer = some (conv1, out) ∧
      airspy_libusb_transfer_callback callback st usb_transfer =
        some (st1, sample_buffer.iq out) ∧
      st1.device.conv = conv1 ∧
      st1.calls = st.calls + 1 ∧
      st1.trace = st.trace ++ [rx_event.converter_run (st.device.buffer_size / 2),
        rx_event.user_callback out (st.device.buffer_size / 4), rx_event.submit_transfer] ∧
      (262144 / 2) % 4 = 0 ∧ (147456 / 2) % 4 = 0 := by
  obtain ⟨r, hp⟩ := process_defined st.device.conv usb_transfer.buffer (by omega)
  unfold airspy_libusb_transfer_callback
  rw [if_neg (by simp [hs, hr]), if_pos ⟨hst, hl⟩, if_neg (by simp [hbuf]), hp]
  refine ⟨r.1, r.2, _, rfl, rfl, ?_, rfl, rfl, by decide, by decide⟩
  simp only []
  split_ifs <;> rfl

/-- Witness for C12: an 8-byte buffer of four mid-scale samples; the callback
sees the four converted values and `sample_count = 2`. -/
theorem transfer_callback_sample_count_witness :
    ∃ st1, airspy_libusb_transfer_callback (fun _ _ _ => 0)
        { device := streaming_device, calls := 0, trace := [] } good_completion =
        some (st1, sample_buffer.iq [0, 0, 0, 0]) ∧
      st1.trace = [rx_event.converter_run 4, rx_event.user_callback [0, 0, 0, 0] 2,
        rx_event.submit_transfer] := by
  obtain ⟨conv1, out, st1, hp, hc, _, _, ht, _⟩ :=
    transfer_callback_sample_count (fun _ _ _ => 0)
      { device := streaming_device, calls := 0, trace := [] } good_completion
      rfl rfl rfl rfl (by decide) (by decide)
  have ho : out = [0, 0, 0, 0] := by
    have hd : (iqconverter_int16_process streaming_device.conv good_completion.buffer).map
        Prod.snd = some [0, 0, 0, 0] := by decide
    simp only [] at hp
    rw [hp] at hd
    simpa using hd
  subst ho
  exact ⟨st1, hc, ht⟩

/-! ### `airspy_do_rx` -/

/-- A clean completion while running: the callback is invoked once more and
the transfer resubmitted; the run goes on if the callback returned 0 and is
stopped otherwise. -/
theorem callback_step_running (callback : Nat → List Int → Nat → Int) (bs c : Nat)
    (st : rx_state) (t : usb_completion) (h4 : (bs / 2) % 4 = 0)
    (hrun : rx_running bs c st) (ht : clean_completion bs t) :
    ∃ r, airspy_libusb_transfer_callback callback st t = some r ∧
      ((∀ s n, callback c s n = 0) → rx_running bs (c + 1) r.1) ∧
      ((∀ s n, callback c s n ≠ 0) → rx_stopped (c + 1) r.1) := by
  obtain ⟨hs, hr, hb, hc, hcb, hsub⟩ := hrun
  obtain ⟨t1, t2, t3, t4⟩ := ht
  obtain ⟨r, hp⟩ := process_defined st.device.conv t.buffer (by rw [t4]; exact h4)
  unfold airspy_libusb_transfer_callback
  rw [if_neg (by simp [hs, hr]), if_pos ⟨t1, t2⟩, if_neg (by simp [t4, hb]), hp]
  refine ⟨_, rfl, ?_, ?_⟩
  · intro hz
    simp only [hc, hz, t3, ne_eq, not_true_eq_false, if_false]
    refine ⟨hs, hr, hb, hc ▸ rfl, ?_, ?_⟩
    · simp [List.filter_append, is_user_callback, hcb]
    · simp [List.filter_append, is_submit, hsub]
  · intro hnz
    simp only [hc, hnz, t3, ne_eq, not_true_eq_false, not_false_eq_true, if_true, if_false]
    refine ⟨hs, rfl, hc ▸ rfl, ?_, ?_⟩
    · simp [List.filter_append, is_user_callback, hcb]
    · simp [List.filter_append, is_submit, hsub]

/-- Once stopped, further completions change nothing. -/
theorem handle_completions_stopped (callback : Nat → List Int → Nat → Int) (k : Nat) :
    ∀ (ts : List usb_completion) (st : rx_state), rx_stopped k st →
      handle_completions callback st ts = some st := by
  intro ts
  induction ts with
  | nil => intro st _; rfl
  | cons t ts ih =>
    intro st h
    have hg : airspy_libusb_transfer_callback callback st t =
        some (st, sample_buffer.raw t.buffer) := by
      unfold airspy_libusb_transfer_callback
      rw [if_pos (by simp [h.2.1])]
    simp only [handle_completions, hg]
    exact ih st h

/-- The transfers of one pump step, all clean, while running with `c < k`
invocations done: the run goes on with `c + |ts|` invocations if that is
below `k`, and is stopped after exactly `k` otherwise. -/
theorem handle_completions_running (callback : Nat → List Int → Nat → Int) (bs k : Nat)
    (h4 : (bs / 2) % 4 = 0)
    (hzero : ∀ i, i + 1 < k → ∀ s n, callback i s n = 0)
    (hstop : ∀ s n, callback (k - 1) s n ≠ 0) :
    ∀ (ts : List usb_completion) (st : rx_state) (c : Nat), rx_running bs c st → c < k →
      (∀ t, t ∈ ts → clean_completion bs t) →
      ∃ st1, handle_completions callback st ts = some st1 ∧
        (c + ts.length < k → rx_running bs (c + ts.length) st1) ∧
        (k ≤ c + ts.length → rx_stopped k st1) := by
  intro ts
  induction ts with
  | nil =>
    intro st c hrun hc _
    exact ⟨st, rfl, fun _ => hrun, fun h => by simp at h; omega⟩
  | cons t ts ih =>
    intro st c hrun hc hclean
    obtain ⟨r, hr, hgo, hend⟩ := callback_step_running callback bs c st t h4 hrun
      (hclean t (List.mem_cons_self _ _))
    simp only [handle_completions, hr, List.length_cons]
    by_cases hlt : c + 1 < k
    · obtain ⟨st1, h1, h2, h3⟩ := ih r.1 (c + 1) (hgo (hzero c hlt)) hlt
        (fun u hu => hclean u (List.mem_cons_of_mem _ hu))
      refine ⟨st1, h1, ?_, ?_⟩
      · intro h; have := h2 (by omega); rwa [show c + (ts.length + 1) = c + 1 + ts.length by omega]
      · intro h; exact h3 (by omega)
    · have hk : c + 1 = k := by omega
      have hst : rx_stopped k r.1 := by
        rw [← hk]
        exact hend (by intro s n; have := hstop s n; rwa [show k - 1 = c by omega] at this)
      exact ⟨r.1, handle_completions_stopped callback k ts r.1 hst, fun h => by omega,
        fun _ => hst⟩

theorem do_rx_loop_stopped (callback : Nat → List Int → Nat → Int) (k : Nat) (st : rx_state)
    (result : Int) (script : List pump_step) (h : rx_stopped k st) :
    airspy_do_rx_loop callback st result script = some (st, result) := by
  cases script <;> simp [airspy_do_rx_loop, h.2.1]

/-- The pump loop against a clean script that still holds enough completions
returns `result` unchanged with the run stopped after `k` invocations. -/
theorem do_rx_loop_running (callback : Nat → List Int → Nat → Int) (bs k : Nat)
    (h4 : (bs / 2) % 4 = 0)
    (hzero : ∀ i, i + 1 < k → ∀ s n, callback i s n = 0)
    (hstop : ∀ s n, callback (k - 1) s n ≠ 0) (result : Int) :
    ∀ (script : List pump_step) (st : rx_state) (c : Nat), rx_running bs c st → c < k →
      (∀ p, p ∈ script → 0 ≤ p.error ∧ ∀ t, t ∈ p.completions → clean_completion bs t) →
      k ≤ c + ((script.map (fun p => p.completions)).flatten).length →
      ∃ st1, airspy_do_rx_loop callback st result script = some (st1, result) ∧
        rx_stopped k st1 := by
  intro script
  induction script with
  | nil => intro st c _ hc _ hlen; simp at hlen; omega
  | cons p script ih =>
    intro st c hrun hc hclean hlen
    obtain ⟨he, hts⟩ := hclean p (List.mem_cons_self _ _)
    obtain ⟨st1, h1, h2, h3⟩ :=
      handle_completions_running callback bs k h4 hzero hstop p.completions st c hrun hc hts
    simp only [airspy_do_rx_loop, hrun.1, hrun.2.1, Bool.not_false, Bool.and_self, if_true, h1,
      if_neg (not_lt.mpr he)]
    by_cases hlt : c + p.completions.length < k
    · refine ih st1 _ (h2 hlt) hlt (fun q hq => hclean q (List.mem_cons_of_mem _ hq)) ?_
      simp only [List.map_cons, List.flatten_cons, List.length_append] at hlen
      omega
    · have hst := h3 (by omega)
      exact ⟨st1, do_rx_loop_stopped callback k st1 result script hst, hst⟩

/-- C13. Stop by callback: for every `k >= 1`, if the user callback returns 0
on its first `k - 1` invocations and non-zero on the `k`-th, the device is
streaming with no stop requested, and the backend reports no errors (every
pump step returns a non-negative value, every transfer completes in full and
is accepted on resubmission) and delivers at least `k` completions, then
`airspy_do_rx` returns 0 with `stop_requested` true, the callback invoked
exactly `k` times and exactly `k` transfers resubmitted, so no completion
after the `k`-th reaches the callback or is resubmitted. -/
theorem do_rx_stop_by_callback (device : airspy_device)
    (callback : Nat → List Int → Nat → Int) (script : List pump_step) (k : Nat)
    (hk : 1 ≤ k) (hs : device.streaming = true) (hr : device.stop_requested = false)
    (h4 : (device.buffer_size / 2) % 4 = 0)
    (hzero : ∀ i, i + 1 < k → ∀ s n, callback i s n = 0)
    (hstop : ∀ s n, callback (k - 1) s n ≠ 0)
    (hclean : ∀ p, p ∈ script →
      0 ≤ p.error ∧ ∀ t, t ∈ p.completions → clean_completion device.buffer_size t)
    (hcount : k ≤ ((script.map (fun p => p.completions)).flatten).length) :
    ∃ st, airspy_do_rx device callback script = some (st, 0) ∧
      st.device.stop_requested = true ∧ st.calls = k ∧
      (st.trace.filter is_user_callback).length = k ∧
      (st.trace.filter is_submit).length = k := by
  obtain ⟨st, h1, h2⟩ := do_rx_loop_running callback device.buffer_size k h4 hzero hstop 0
    script { device := device, calls := 0, trace := [] } 0
    ⟨hs, hr, rfl, rfl, rfl, rfl⟩ (by omega) hclean (by omega)
  exact ⟨st, h1, h2.2.1, h2.2.2.1, h2.2.2.2.1, h2.2.2.2.2⟩

/-- Witness for C13 with `k = 3`: four clean completions in two pump steps,
a callback that returns non-zero on its third invocation. -/
theorem do_rx_stop_by_callback_witness :
    ∃ st, airspy_do_rx streaming_device stop_on_third clean_script = some (st, 0) ∧
      st.device.stop_requested = true ∧ st.calls = 3 ∧
      (st.trace.filter is_user_callback).length = 3 ∧
      (st.trace.filter is_submit).length = 3 := by
  refine do_rx_stop_by_callback streaming_device stop_on_third clean_script 3 (by decide)
    rfl rfl (by decide) ?_ ?_ ?_ (by decide)
  · intro i hi s n
    simp only [stop_on_third]
    rw [if_neg (by omega)]
  · intro s n
    simp [stop_on_third]
  · intro p hp
    have hgood : clean_completion streaming_device.buffer_size good_completion :=
      ⟨rfl, rfl, rfl, rfl⟩
    simp only [clean_script, List.mem_cons, List.mem_singleton, List.not_mem_nil, or_false]
      at hp
    rcases hp with hp | hp <;> subst hp <;> refine ⟨by decide, ?_⟩ <;> intro t ht <;>
      simp only [List.mem_cons, List.mem_singleton, List.not_mem_nil, or_false, or_self]
        at ht <;> subst ht <;> exact hgood

/-- C14, evaluated at a failing input.  A streaming device receives one
transfer that completes with an error status while the pump step itself
returns 0: the handler clears `streaming` without invoking the callback or
resubmitting, and `airspy_do_rx` returns 0, not
`AIRSPY_ERROR_STREAMING_STOPPED`. -/
theorem do_rx_completion_error_returns_zero :
    (airspy_do_rx streaming_device stop_on_third
        [{ completions := [failed_completion], error := 0 }]).map
      (fun r => (r.2, r.1.device.streaming, r.1.calls, r.1.trace.length)) =
      some (0, false, 0, 0) ∧
    (0 : Int) ≠ AIRSPY_ERROR_STREAMING_STOPPED := by
  constructor
  · decide
  · decide

/-! ### Sample rate and gain controls -/

/-- The search loop returns the offset of the first match, and leaves the
rate alone when there is none. -/
theorem samplerate_search_spec (r : Nat) : ∀ (l : List Nat) (i0 : Nat),
    (∀ i, l[i]? = some r → (∀ j, j < i → l[j]? ≠ some r) →
      samplerate_search r l i0 = i0 + i) ∧
    (r ∉ l → samplerate_search r l i0 = r) := by
  intro l
  induction l with
  | nil =>
    intro i0
    exact ⟨fun i h _ => by simp at h, fun _ => rfl⟩
  | cons a l ih =>
    intro i0
    constructor
    · intro i hi hmin
      cases i with
      | zero =>
        simp only [List.getElem?_cons_zero, Option.some.injEq] at hi
        simp [samplerate_search, hi]
      | succ i =>
        have ha : r ≠ a := by
          intro h
          exact hmin 0 (by omega) (by simp [h])
        simp only [samplerate_search, if_neg ha]
        rw [(ih (i0 + 1)).1 i (by simpa using hi)
          (fun j hj => by have := hmin (j + 1) (by omega); simpa using this)]
        omega
    · intro hmem
      have ha : r ≠ a := fun h => hmem (by simp [h])
      simp only [samplerate_search, if_neg ha]
      exact (ih (i0 + 1)).2 (fun h => hmem (List.mem_cons_of_mem _ h))

/-- C16, counterexample.  With the rate list `[10000000, 2500000]`, the rate
999,999 (below 1,000,000, so the claim has the request carry 999999) is sent
as `999999 mod 65536 = 16959`, and the rate 100,000,000 (not in the list, so
the claim has it carry `100000000 / 1000 = 100000`) is sent as
`100000 mod 65536 = 34464`: `wIndex` has 16 bits. -/
theorem set_samplerate_wIndex_wraps :
    (airspy_set_samplerate streaming_device 999999 1).2 =
      [backend_call.clear_halt 0x81,
       backend_call.control_transfer airspy_vendor_request.AIRSPY_SET_SAMPLERATE 0 16959 1] ∧
    (airspy_set_samplerate streaming_device 999999 1).2 ≠
      [backend_call.clear_halt 0x81,
       backend_call.control_transfer airspy_vendor_request.AIRSPY_SET_SAMPLERATE 0 999999 1] ∧
    100000000 ∉ streaming_device.supported_samplerates ∧
    (airspy_set_samplerate streaming_device 100000000 1).2 =
      [backend_call.clear_halt 0x81,
       backend_call.control_transfer airspy_vendor_request.AIRSPY_SET_SAMPLERATE 0 34464 1] ∧
    (airspy_set_samplerate streaming_device 100000000 1).2 ≠
      [backend_call.clear_halt 0x81,
       backend_call.control_transfer airspy_vendor_request.AIRSPY_SET_SAMPLERATE 0
         (100000000 / 1000) 1] := by
  refine ⟨by decide, by decide, by decide, by decide, by decide⟩

/-- C16 (amended). Sample-rate selection: for every supported-rate list of
fewer than 1,000,000 entries and every requested rate `r`,
`airspy_set_samplerate` clears the halt and issues one
`AIRSPY_SET_SAMPLERATE` request whose 16-bit `wIndex` is, modulo 65536, the
smallest index `i` with `supported_samplerates[i] = r` when `r >= 1,000,000`
and `r` is in the list, `r / 1000` when `r >= 1,000,000` and `r` is not in
the list, and `r` when `r < 1,000,000`; so it is that very number whenever
the number is below 65536 (`i < 65536`, `r < 65,536,000`, `r < 65536`
respectively). -/
theorem set_samplerate_request (device : airspy_device) (r : Nat) (result : Int)
    (hlen : device.supported_samplerates.length < 1000000) :
    ∃ idx, (airspy_set_samplerate device r result).2 =
        [backend_call.clear_halt 0x81,
         backend_call.control_transfer airspy_vendor_request.AIRSPY_SET_SAMPLERATE 0 idx 1] ∧
      idx < 65536 ∧
      (1000000 ≤ r → ∀ i, device.supported_samplerates[i]? = some r →
        (∀ j, j < i → device.supported_samplerates[j]? ≠ some r) →
          idx = i % 65536 ∧ (i < 65536 → idx = i)) ∧
      (1000000 ≤ r → r ∉ device.supported_samplerates →
        idx = r / 1000 % 65536 ∧ (r < 65536000 → idx = r / 1000)) ∧
      (r < 1000000 → idx = r % 65536 ∧ (r < 65536 → idx = r)) := by
  refine ⟨_, rfl, ?_, ?_, ?_, ?_⟩
  · simp only [to_uint16]; omega
  · intro hr i hi hmin
    have hs := (samplerate_search_spec r device.supported_samplerates 0).1 i hi hmin
    have hi2 : i < device.supported_samplerates.length := by
      rcases Nat.lt_or_ge i device.supported_samplerates.length with h | h
      · exact h
      · rw [List.getElem?_eq_none h] at hi; cases hi
    simp only [samplerate_request, MIN_SAMPLERATE_BY_VALUE, ge_iff_le, if_pos hr, hs, to_uint16]
    rw [if_neg (by omega)]
    refine ⟨by omega, fun h => by omega⟩
  · intro hr hmem
    have hs := (samplerate_search_spec r device.supported_samplerates 0).2 hmem
    simp only [samplerate_request, MIN_SAMPLERATE_BY_VALUE, ge_iff_le, if_pos hr, hs, to_uint16]
    refine ⟨trivial, fun h => by omega⟩
  · intro hr
    simp only [samplerate_request, MIN_SAMPLERATE_BY_VALUE, ge_iff_le, to_uint16]
    rw [if_neg (by omega)]
    refine ⟨rfl, fun h => by omega⟩

/-- Witness for C16 (amended): 10,000,000 with the list
`[10000000, 2500000]` sends index 0, and with an empty list sends 10000. -/
theorem set_samplerate_request_witness :
    [10000000, 2500000].length < 1000000 ∧ ([] : List Nat).length < 1000000 ∧
    (airspy_set_samplerate streaming_device 10000000 1).2 =
      [backend_call.clear_halt 0x81,
       backend_call.control_transfer airspy_vendor_request.AIRSPY_SET_SAMPLERATE 0 0 1] ∧
    (airspy_set_samplerate { streaming_device with supported_samplerates := [] } 10000000 1).2 =
      [backend_call.clear_halt 0x81,
       backend_call.control_transfer airspy_vendor_request.AIRSPY_SET_SAMPLERATE 0 10000 1] := by
  obtain ⟨i1, h1, _, a1, _, _⟩ := set_samplerate_request streaming_device 10000000 1 (by decide)
  obtain ⟨i2, h2, _, _, b2, _⟩ :=
    set_samplerate_request { streaming_device with supported_samplerates := [] } 10000000 1
      (by decide)
  have e1 : i1 = 0 := (a1 (by decide) 0 (by decide) (by intro j hj; omega)).2 (by decide)
  have e2 : i2 = 10000000 / 1000 := (b2 (by decide) (by simp)).2 (by decide)
  subst e1; subst e2
  exact ⟨by decide, by decide, h1, h2⟩

theorem gain_row_in_range (value : Nat) (hv : value ≤ 21) : gain_row value = 21 - value := by
  simp only [gain_row, to_uint8, GAIN_COUNT]
  have h : (((22 : Nat) : Int) - 1 - (value : Int)) % 256 = ((21 - value : Nat) : Int) := by
    omega
  rw [h, Int.toNat_ofNat]
  rw [if_neg (by omega), if_neg (by omega)]

theorem gain_row_out_of_range (value : Nat) (h1 : 22 ≤ value) (h2 : value ≤ 255) :
    to_uint8 ((GAIN_COUNT : Int) - 1 - (value : Int)) = 277 - value ∧ gain_row value = 21 := by
  have h : (((22 : Nat) : Int) - 1 - (value : Int)) % 256 = ((277 - value : Nat) : Int) := by
    omega
  constructor
  · simp only [to_uint8, GAIN_COUNT]
    rw [h, Int.toNat_ofNat]
  · simp only [gain_row, to_uint8, GAIN_COUNT]
    rw [h, Int.toNat_ofNat]
    rw [if_pos (by omega)]

/-- When every control transfer delivers its byte, the preset issues its five
requests in order and succeeds; the three gains pass through the clipping of
the single-gain helpers. -/
theorem set_gain_preset_success (vga mixer lna : List Nat) (value : Nat) (backend : Nat → Int)
    (hb : ∀ n, 1 ≤ backend n) :
    set_gain_preset vga mixer lna value backend =
      (AIRSPY_SUCCESS,
        [backend_call.control_transfer airspy_vendor_request.AIRSPY_SET_MIXER_AGC 0 0 1,
         backend_call.control_transfer airspy_vendor_request.AIRSPY_SET_LNA_AGC 0 0 1,
         backend_call.control_transfer airspy_vendor_request.AIRSPY_SET_VGA_GAIN 0
           (if vga.getD (gain_row value) 0 > 15 then 15 else vga.getD (gain_row value) 0) 1,
         backend_call.control_transfer airspy_vendor_request.AIRSPY_SET_MIXER_GAIN 0
           (if mixer.getD (gain_row value) 0 > 15 then 15 else mixer.getD (gain_row value) 0) 1,
         backend_call.control_transfer airspy_vendor_request.AIRSPY_SET_LNA_GAIN 0
           (if lna.getD (gain_row value) 0 > 14 then 14 else lna.getD (gain_row value) 0) 1]) := by
  have h0 := not_lt.mpr (hb 0)
  have h1 := not_lt.mpr (hb 1)
  have h2 := not_lt.mpr (hb 2)
  have h3 := not_lt.mpr (hb 3)
  have h4 := not_lt.mpr (hb 4)
  have hs : ¬ (AIRSPY_SUCCESS < 0) := by decide
  simp only [set_gain_preset, airspy_set_mixer_agc, airspy_set_lna_agc, airspy_set_vga_gain,
    airspy_set_mixer_gain, airspy_set_lna_gain, h0, h1, h2, h3, h4, hs, if_false]

/-- C17. Composite gain presets: for every `value` in `0..21`, when all
control transfers succeed, `airspy_set_linearity_gain(value)` returns success
after issuing exactly, in order, mixer AGC 0, LNA AGC 0, VGA, mixer and LNA
gains equal to row `21 - value` of the linearity tables (unchanged by the
clipping), and `airspy_set_sensitivity_gain(value)` does the same with the
sensitivity tables. -/
theorem gain_presets_issue_table_row (value : Nat) (backend : Nat → Int) (hv : value ≤ 21)
    (hb : ∀ n, 1 ≤ backend n) :
    airspy_set_linearity_gain value backend =
      (AIRSPY_SUCCESS,
        [backend_call.control_transfer airspy_vendor_request.AIRSPY_SET_MIXER_AGC 0 0 1,
         backend_call.control_transfer airspy_vendor_request.AIRSPY_SET_LNA_AGC 0 0 1,
         backend_call.control_transfer airspy_vendor_request.AIRSPY_SET_VGA_GAIN 0
           (airspy_linearity_vga_gains.getD (21 - value) 0) 1,
         backend_call.control_transfer airspy_vendor_request.AIRSPY_SET_MIXER_GAIN 0
           (airspy_linearity_mixer_gains.getD (21 - value) 0) 1,
         backend_call.control_transfer airspy_vendor_request.AIRSPY_SET_LNA_GAIN 0
           (airspy_linearity_lna_gains.getD (21 - value) 0) 1]) ∧
    airspy_set_sensitivity_gain value backend =
      (AIRSPY_SUCCESS,
        [backend_call.control_transfer airspy_vendor_request.AIRSPY_SET_MIXER_AGC 0 0 1,
         backend_call.control_transfer airspy_vendor_request.AIRSPY_SET_LNA_AGC 0 0 1,
         backend_call.control_transfer airspy_vendor_request.AIRSPY_SET_VGA_GAIN 0
           (airspy_sensitivity_vga_gains.getD (21 - value) 0) 1,
         backend_call.control_transfer airspy_vendor_request.AIRSPY_SET_MIXER_GAIN 0
           (airspy_sensitivity_mixer_gains.getD (21 - value) 0) 1,
         backend_call.control_transfer airspy_vendor_request.AIRSPY_SET_LNA_GAIN 0
           (airspy_sensitivity_lna_gains.getD (21 - value) 0) 1]) := by
  simp only [airspy_set_linearity_gain, airspy_set_sensitivity_gain,
    set_gain_preset_success _ _ _ value backend hb, gain_row_in_range value hv]
  interval_cases value <;> exact ⟨rfl, rfl⟩

/-- Witness for C17: 21 gives VGA 13, mixer 12, LNA 14 (row 0) and 0 gives
VGA 4, mixer 0, LNA 0 (row 21). -/
theorem gain_presets_issue_table_row_witness :
    (airspy_set_linearity_gain 21 (fun _ => 1)).2 =
      [backend_call.control_transfer airspy_vendor_request.AIRSPY_SET_MIXER_AGC 0 0 1,
       backend_call.control_transfer airspy_vendor_request.AIRSPY_SET_LNA_AGC 0 0 1,
       backend_call.control_transfer airspy_vendor_request.AIRSPY_SET_VGA_GAIN 0 13 1,
       backend_call.control_transfer airspy_vendor_request.AIRSPY_SET_MIXER_GAIN 0 12 1,
       backend_call.control_transfer airspy_vendor_request.AIRSPY_SET_LNA_GAIN 0 14 1] ∧
    (airspy_set_linearity_gain 0 (fun _ => 1)).2 =
      [backend_call.control_transfer airspy_vendor_request.AIRSPY_SET_MIXER_AGC 0 0 1,
       backend_call.control_transfer airspy_vendor_request.AIRSPY_SET_LNA_AGC 0 0 1,
       backend_call.control_transfer airspy_vendor_request.AIRSPY_SET_VGA_GAIN 0 4 1,
       backend_call.control_transfer airspy_vendor_request.AIRSPY_SET_MIXER_GAIN 0 0 1,
       backend_call.control_transfer airspy_vendor_request.AIRSPY_SET_LNA_GAIN 0 0 1] := by
  have a := (gain_presets_issue_table_row 21 (fun _ => 1) (by decide) (fun _ => le_refl _)).1
  have b := (gain_presets_issue_table_row 0 (fun _ => 1) (by decide) (fun _ => le_refl _)).1
  rw [a, b]
  exact ⟨rfl, rfl⟩

/-- C18. Out-of-range composite gain: for every 8-bit `value` in `22..255`,
`GAIN_COUNT - 1 - value` stored to the `uint8_t` wraps to `277 - value`, which
is at least `GAIN_COUNT`, and is clamped to 21; so both preset functions use
table row 21 and do exactly what they do for `value = 0`: whatever the
backend returns, the first request, mixer AGC 0, is issued, and when all
control transfers succeed they return success after issuing exactly, in
order, mixer AGC 0, LNA AGC 0 and the VGA, mixer and LNA gains of row 21 of
their tables (4, 0, 0 in both). -/
theorem gain_presets_out_of_range (value : Nat) (backend : Nat → Int) (h1 : 22 ≤ value)
    (h2 : value ≤ 255) :
    GAIN_COUNT ≤ to_uint8 ((GAIN_COUNT : Int) - 1 - (value : Int)) ∧
    gain_row value = GAIN_COUNT - 1 ∧ gain_row value ≤ 21 ∧ gain_row 0 = 21 ∧
    airspy_set_linearity_gain value backend = airspy_set_linearity_gain 0 backend ∧
    airspy_set_sensitivity_gain value backend = airspy_set_sensitivity_gain 0 backend ∧
    (airspy_set_linearity_gain value backend).2.head? =
      some (backend_call.control_transfer airspy_vendor_request.AIRSPY_SET_MIXER_AGC 0 0 1) ∧
    (airspy_set_sensitivity_gain value backend).2.head? =
      some (backend_call.control_transfer airspy_vendor_request.AIRSPY_SET_MIXER_AGC 0 0 1) ∧
    ((∀ n, 1 ≤ backend n) →
      airspy_set_linearity_gain value backend =
        (AIRSPY_SUCCESS,
          [backend_call.control_transfer airspy_vendor_request.AIRSPY_SET_MIXER_AGC 0 0 1,
           backend_call.control_transfer airspy_vendor_request.AIRSPY_SET_LNA_AGC 0 0 1,
           backend_call.control_transfer airspy_vendor_request.AIRSPY_SET_VGA_GAIN 0
             (airspy_linearity_vga_gains.getD 21 0) 1,
           backend_call.control_transfer airspy_vendor_request.AIRSPY_SET_MIXER_GAIN 0
             (airspy_linearity_mixer_gains.getD 21 0) 1,
           backend_call.control_transfer airspy_vendor_request.AIRSPY_SET_LNA_GAIN 0
             (airspy_linearity_lna_gains.getD 21 0) 1]) ∧
      airspy_set_sensitivity_gain value backend =
        (AIRSPY_SUCCESS,
          [backend_call.control_transfer airspy_vendor_request.AIRSPY_SET_MIXER_AGC 0 0 1,
           backend_call.control_transfer airspy_vendor_request.AIRSPY_SET_LNA_AGC 0 0 1,
           backend_call.control_transfer airspy_vendor_request.AIRSPY_SET_VGA_GAIN 0
             (airspy_sensitivity_vga_gains.getD 21 0) 1,
           backend_call.control_transfer airspy_vendor_request.AIRSPY_SET_MIXER_GAIN 0
             (airspy_sensitivity_mixer_gains.getD 21 0) 1,
           backend_call.control_transfer airspy_vendor_request.AIRSPY_SET_LNA_GAIN 0
             (airspy_sensitivity_lna_gains.getD 21 0) 1]) ∧
      airspy_linearity_vga_gains.getD 21 0 = 4 ∧ airspy_linearity_mixer_gains.getD 21 0 = 0 ∧
      airspy_linearity_lna_gains.getD 21 0 = 0 ∧ airspy_sensitivity_vga_gains.getD 21 0 = 4 ∧
      airspy_sensitivity_mixer_gains.getD 21 0 = 0 ∧
      airspy_sensitivity_lna_gains.getD 21 0 = 0) := by
  obtain ⟨hw, hrow⟩ := gain_row_out_of_range value h1 h2
  have h0 : gain_row 0 = 21 := gain_row_in_range 0 (by decide)
  have hhead : ∀ vga mixer lna : List Nat,
      (set_gain_preset vga mixer lna value backend).2.head? =
        some (backend_call.control_transfer airspy_vendor_request.AIRSPY_SET_MIXER_AGC 0 0 1) := by
    intro vga mixer lna
    simp only [set_gain_preset, airspy_set_mixer_agc]
    split_ifs <;> rfl
  refine ⟨?_, hrow, by omega, h0, ?_, ?_, hhead _ _ _, hhead _ _ _, ?_⟩
  · rw [hw]; simp only [GAIN_COUNT]; omega
  · simp only [airspy_set_linearity_gain, set_gain_preset, hrow, h0]
  · simp only [airspy_set_sensitivity_gain, set_gain_preset, hrow, h0]
  · intro hb
    simp only [airspy_set_linearity_gain, airspy_set_sensitivity_gain,
      set_gain_preset_success _ _ _ value backend hb, hrow]
    exact ⟨rfl, rfl, rfl, rfl, rfl, rfl, rfl, rfl⟩

/-- Witness for C18: `value = 255` wraps to 22 and is clamped to row 21; with
every transfer delivering its byte the linearity preset sends VGA 4, mixer 0,
LNA 0. -/
theorem gain_presets_out_of_range_witness :
    (22 ≤ 255 ∧ 255 ≤ 255) ∧ gain_row 255 = GAIN_COUNT - 1 ∧
    airspy_set_linearity_gain 255 (fun _ => 1) = airspy_set_linearity_gain 0 (fun _ => 1) ∧
    (∀ n : Nat, (1 : Int) ≤ (fun _ => 1) n) ∧
    airspy_set_linearity_gain 255 (fun _ => 1) =
      (AIRSPY_SUCCESS,
        [backend_call.control_transfer airspy_vendor_request.AIRSPY_SET_MIXER_AGC 0 0 1,
         backend_call.control_transfer airspy_vendor_request.AIRSPY_SET_LNA_AGC 0 0 1,
         backend_call.control_transfer airspy_vendor_request.AIRSPY_SET_VGA_GAIN 0 4 1,
         backend_call.control_transfer airspy_vendor_request.AIRSPY_SET_MIXER_GAIN 0 0 1,
         backend_call.control_transfer airspy_vendor_request.AIRSPY_SET_LNA_GAIN 0 0 1]) :=
  ⟨⟨by decide, by decide⟩,
    (gain_presets_out_of_range 255 (fun _ => 1) (by decide) (by decide)).2.1,
    (gain_presets_out_of_range 255 (fun _ => 1) (by decide) (by decide)).2.2.2.2.1,
    fun _ => le_refl _,
    ((gain_presets_out_of_range 255 (fun _ => 1) (by decide) (by decide)).2.2.2.2.2.2.2.2
      (fun _ => le_refl _)).1⟩

/-- C19. Gain clipping: for every `value`, `airspy_set_lna_gain` sends
`min value 14`, and `airspy_set_mixer_gain` and `airspy_set_vga_gain` each
send `min value 15`, as `wIndex` of their request; each returns
`AIRSPY_SUCCESS` if and only if the backend reports at least the expected 1
byte, and `AIRSPY_ERROR_LIBUSB` otherwise. -/
theorem gain_clipping (value : Nat) (result : Int) :
    airspy_set_lna_gain value result =
      (if 1 ≤ result then AIRSPY_SUCCESS else AIRSPY_ERROR_LIBUSB,
        backend_call.control_transfer airspy_vendor_request.AIRSPY_SET_LNA_GAIN 0
          (min value 14) 1) ∧
    airspy_set_mixer_gain value result =
      (if 1 ≤ result then AIRSPY_SUCCESS else AIRSPY_ERROR_LIBUSB,
        backend_call.control_transfer airspy_vendor_request.AIRSPY_SET_MIXER_GAIN 0
          (min value 15) 1) ∧
    airspy_set_vga_gain value result =
      (if 1 ≤ result then AIRSPY_SUCCESS else AIRSPY_ERROR_LIBUSB,
        backend_call.control_transfer airspy_vendor_request.AIRSPY_SET_VGA_GAIN 0
          (min value 15) 1) ∧
    ((airspy_set_lna_gain value result).1 = AIRSPY_SUCCESS ↔ 1 ≤ result) ∧
    ((airspy_set_mixer_gain value result).1 = AIRSPY_SUCCESS ↔ 1 ≤ result) ∧
    ((airspy_set_vga_gain value result).1 = AIRSPY_SUCCESS ↔ 1 ≤ result) := by
  have hne : AIRSPY_ERROR_LIBUSB ≠ AIRSPY_SUCCESS := by decide
  have m14 : (if value > 14 then 14 else value) = min value 14 := by
    split_ifs <;> omega
  have m15 : (if value > 15 then 15 else value) = min value 15 := by
    split_ifs <;> omega
  simp only [airspy_set_lna_gain, airspy_set_mixer_gain, airspy_set_vga_gain, m14, m15]
  by_cases h : 1 ≤ result
  · simp [h, not_lt.mpr h]
  · simp [h, not_le.mp h, hne]

/-! ### `airspy_set_packing` -/

/-- If the allocation loop reports success, every entry it covered has a
buffer of the requested size. -/
theorem allocate_entries_success (alloc : alloc_site → Bool) (bs : Nat) :
    ∀ (n i : Nat), (allocate_entries alloc bs n i).1 = AIRSPY_SUCCESS →
      (allocate_entries alloc bs n i).2 =
        List.replicate n (some { buffer := some bs, length := bs }) := by
  intro n
  induction n with
  | zero => intro i _; rfl
  | succ n ih =>
    intro i h
    simp only [allocate_entries] at h ⊢
    by_cases h1 : alloc (alloc_site.transfer i) = true
    · by_cases h2 : alloc (alloc_site.transfer_buffer i) = true
      · simp only [h1, h2, Bool.not_true, Bool.false_eq_true, if_false] at h ⊢
        rw [ih (i + 1) h, List.replicate_succ]
      · simp only [h1, h2, Bool.not_true, Bool.not_false, Bool.false_eq_true, if_false,
          if_true] at h
        exact absurd h (by decide)
    · simp only [h1, Bool.not_false, if_true] at h
      exact absurd h (by decide)

/-- If `allocate_transfers` reports success on a device without a ring, the
device has a full ring of `transfer_count` buffers of `buffer_size` bytes and
its configuration is unchanged. -/
theorem allocate_transfers_success (alloc : alloc_site → Bool) (device : airspy_device)
    (hnone : device.transfers = none) (h : (allocate_transfers alloc device).1 = 0) :
    (allocate_transfers alloc device).2.transfers =
      some (List.replicate device.transfer_count
        (some { buffer := some device.buffer_size, length := device.buffer_size })) ∧
    (allocate_transfers alloc device).2.packing_enabled = device.packing_enabled ∧
    (allocate_transfers alloc device).2.buffer_size = device.buffer_size ∧
    (allocate_transfers alloc device).2.streaming = device.streaming ∧
    (allocate_transfers alloc device).2.transfer_count = device.transfer_count := by
  have e1 : AIRSPY_ERROR_NO_MEM ≠ 0 := by decide
  unfold allocate_transfers at h ⊢
  rw [hnone] at h ⊢
  simp only [] at h ⊢
  split_ifs at h ⊢ with c1 c2 c3 c4
  all_goals first
    | exact absurd h e1
    | (refine ⟨?_, ?_, ?_, ?_, ?_⟩ <;> first
         | rfl
         | (simp only [] at h ⊢; rw [allocate_entries_success alloc _ _ 0 h]))

theorem free_transfers_fields (device : airspy_device) :
    (free_transfers device).transfers = none ∧
    (free_transfers device).streaming = device.streaming ∧
    (free_transfers device).transfer_count = device.transfer_count := by
  unfold free_transfers
  cases h : device.transfers <;> simp [h]

/-- A successful `airspy_set_packing` that changes the packing mode leaves
the new mode, its buffer size and a freshly allocated ring of that size. -/
theorem set_packing_change (device : airspy_device) (value : Nat) (result : Int)
    (alloc : alloc_site → Bool) (hs : device.streaming = false)
    (hchange : decide (value ≠ 0) ≠ device.packing_enabled)
    (hok : (airspy_set_packing device value result alloc).1 = AIRSPY_SUCCESS) :
    (airspy_set_packing device value result alloc).2.1.packing_enabled = decide (value ≠ 0) ∧
    (airspy_set_packing device value result alloc).2.1.buffer_size =
      (if decide (value ≠ 0) then 147456 else 262144) ∧
    (airspy_set_packing device value result alloc).2.1.transfers =
      some (List.replicate device.transfer_count
        (some { buffer := some (if decide (value ≠ 0) then 147456 else 262144),
                length := (if decide (value ≠ 0) then 147456 else 262144) })) ∧
    (airspy_set_packing device value result alloc).2.1.streaming = false ∧
    (airspy_set_packing device value result alloc).2.1.transfer_count =
      device.transfer_count := by
  obtain ⟨f1, f2, f3⟩ := free_transfers_fields device
  unfold airspy_set_packing at hok ⊢
  rw [if_neg (by simp [hs])] at hok ⊢
  simp only [] at hok ⊢
  by_cases hres : result < 1
  · rw [if_pos hres] at hok
    have hbad : AIRSPY_ERROR_LIBUSB = AIRSPY_SUCCESS := hok
    exact absurd hbad (by decide)
  · rw [if_neg hres, if_pos hchange] at hok ⊢
    generalize decide (value ≠ 0) = p at hok hchange ⊢
    obtain ⟨D, hD⟩ : ∃ D : airspy_device, D =
        { free_transfers device with
          packing_enabled := p, buffer_size := if p = true then 6144 * 24 else 262144 } :=
      ⟨_, rfl⟩
    rw [← hD] at hok ⊢
    have g1 : D.transfers = none := by rw [hD]; exact f1
    have g2 : D.streaming = false := by rw [hD]; exact f2.trans hs
    have g3 : D.transfer_count = device.transfer_count := by rw [hD]; exact f3
    have g4 : D.packing_enabled = p := by rw [hD]
    have g5 : D.buffer_size = if p = true then 147456 else 262144 := by rw [hD]
    by_cases ha : (allocate_transfers alloc D).1 = 0
    · obtain ⟨a1, a2, a3, a4, a5⟩ := allocate_transfers_success alloc D g1 ha
      rw [if_neg (not_not.mpr ha)]
      simp only []
      rw [a1, a2, a3, a4, a5, g2, g3, g4, g5]
      exact ⟨rfl, rfl, rfl, rfl, rfl⟩
    · rw [if_pos ha] at hok
      have hbad : AIRSPY_ERROR_NO_MEM = AIRSPY_SUCCESS := hok
      exact absurd hbad (by decide)

/-- C15. Packing toggle: `airspy_set_packing` returns `AIRSPY_ERROR_BUSY`
whenever `streaming` is true, issuing no backend call and leaving the device
(packing flag, buffer size, ring) unchanged; and on a device that is not
streaming, with packing off and `buffer_size` 262144, a successful
`set_packing(1)` leaves `packing_enabled` true and the ring reallocated with
buffers of 147456 = 6144 * 24 bytes, and a successful `set_packing(0)` after
it leaves `packing_enabled` false and the ring at 262144 bytes. -/
theorem set_packing_toggle (device : airspy_device) (value : Nat) (r0 r1 r2 : Int)
    (a0 a1 a2 : alloc_site → Bool) :
    (device.streaming = true →
      airspy_set_packing device value r0 a0 = (AIRSPY_ERROR_BUSY, device, [])) ∧
    (device.streaming = false → device.packing_enabled = false →
      device.buffer_size = 262144 →
      (airspy_set_packing device 1 r1 a1).1 = AIRSPY_SUCCESS →
      (airspy_set_packing device 1 r1 a1).2.1.packing_enabled = true ∧
      (airspy_set_packing device 1 r1 a1).2.1.buffer_size = 147456 ∧
      (147456 : Nat) = 6144 * 24 ∧
      (airspy_set_packing device 1 r1 a1).2.1.transfers =
        some (List.replicate device.transfer_count
          (some { buffer := some 147456, length := 147456 })) ∧
      ((airspy_set_packing (airspy_set_packing device 1 r1 a1).2.1 0 r2 a2).1 =
          AIRSPY_SUCCESS →
        (airspy_set_packing (airspy_set_packing device 1 r1 a1).2.1 0 r2 a2).2.1.packing_enabled
          = false ∧
        (airspy_set_packing (airspy_set_packing device 1 r1 a1).2.1 0 r2 a2).2.1.buffer_size
          = 262144 ∧
        (airspy_set_packing (airspy_set_packing device 1 r1 a1).2.1 0 r2 a2).2.1.transfers =
          some (List.replicate device.transfer_count
            (some { buffer := some 262144, length := 262144 })))) := by
  constructor
  · intro hs
    unfold airspy_set_packing
    rw [if_pos hs]
  · intro hs hp _ hok
    obtain ⟨b1, b2, b3, b4, b5⟩ :=
      set_packing_change device 1 r1 a1 hs (by rw [hp]; decide) hok
    refine ⟨b1, b2, by decide, b3, ?_⟩
    intro hok2
    obtain ⟨c1, c2, c3, _, _⟩ :=
      set_packing_change (airspy_set_packing device 1 r1 a1).2.1 0 r2 a2 b4
        (by rw [b1]; decide) hok2
    rw [b5] at c3
    exact ⟨c1, c2, c3⟩

/-- Witness for C15: the device as opened, all transfers and allocations
succeeding; and the same device while streaming. -/
theorem set_packing_toggle_witness :
    airspy_set_packing { opened_device with streaming := true } 1 1 (fun _ => true) =
      (AIRSPY_ERROR_BUSY, { opened_device with streaming := true }, []) ∧
    (airspy_set_packing opened_device 1 1 (fun _ => true)).2.1.buffer_size = 147456 ∧
    (airspy_set_packing (airspy_set_packing opened_device 1 1 (fun _ => true)).2.1 0 1
      (fun _ => true)).2.1.buffer_size = 262144 := by
  have h1 := (set_packing_toggle { opened_device with streaming := true } 1 1 1 1
    (fun _ => true) (fun _ => true) (fun _ => true)).1 rfl
  have h2 := (set_packing_toggle opened_device 1 1 1 1
    (fun _ => true) (fun _ => true) (fun _ => true)).2 rfl rfl rfl (by decide)
  exact ⟨h1, h2.2.1, (h2.2.2.2.2 (by decide)).2.1⟩

/-! ### `airspy_open_device` -/

/-- A successful `strncmp` against a string without NUL among the compared
characters means all of them agree. -/
theorem strncmp_zero_eq (a b : Nat → Nat) : ∀ (n i : Nat), strncmp_zero a b i n = true →
    (∀ j, i ≤ j → j < i + n → b j ≠ 0) → ∀ j, i ≤ j → j < i + n → a j = b j := by
  intro n
  induction n with
  | zero => intro i _ _ j h1 h2; omega
  | succ n ih =>
    intro i h hb j h1 h2
    simp only [strncmp_zero] at h
    by_cases hab : a i = b i
    · rw [if_neg (not_not.mpr hab)] at h
      have ha0 : a i ≠ 0 := by rw [hab]; exact hb i (le_refl _) (by omega)
      rw [if_neg ha0] at h
      by_cases hj : j = i
      · subst hj; exact hab
      · exact ih (i + 1) h (fun k hk1 hk2 => hb k (by omega) (by omega)) j (by omega) (by omega)
    · rw [if_pos hab] at h
      cases h

/-- C21, counterexample.  On the opened device, with the control transfer of
the mode request failing (`libusb_control_transfer` returns -1),
`airspy_term_rx` returns `AIRSPY_ERROR_LIBUSB` and `airspy_close` returns that
same value, not `AIRSPY_SUCCESS`; the sixteen cancellations and the
mode-OFF request are issued all the same. -/
theorem close_returns_term_rx_error :
    (airspy_term_rx opened_device (-1)).1 = AIRSPY_ERROR_LIBUSB ∧
    (airspy_close (some opened_device) (-1)).1 = AIRSPY_ERROR_LIBUSB ∧
    (airspy_close (some opened_device) (-1)).1 ≠ AIRSPY_SUCCESS ∧
    (airspy_close (some opened_device) (-1)).2 =
      (List.range 16).map backend_call.cancel_transfer ++
        [backend_call.control_transfer airspy_vendor_request.AIRSPY_RECEIVER_MODE
          RECEIVER_MODE_OFF 0 0] := by
  refine ⟨by decide, by decide, by decide, by decide⟩

/-- The cancellations of `cancel_transfers`, one per non-NULL entry, written
as the list of the indices of those entries. -/
theorem cancel_requests_eq (n : Nat) (g : Nat → Option libusb_transfer) :
    (List.range n).filterMap (fun i =>
        match g i with
        | some _ => some (backend_call.cancel_transfer i)
        | none => none) =
      ((List.range n).filter (fun i => (g i).isSome)).map backend_call.cancel_transfer := by
  induction (List.range n) with
  | nil => rfl
  | cons a l ih =>
    cases h : g a with
    | none => simp only [List.filterMap_cons, List.filter_cons, h, ih, Option.isSome_none,
        Bool.false_eq_true, if_false]
    | some v => simp only [List.filterMap_cons, List.filter_cons, h, ih, Option.isSome_some,
        if_true, List.map_cons]

/-- C21 (amended).  `airspy_close` passes on the result of `airspy_term_rx`:
for every non-NULL device it returns what `airspy_term_rx` returns, which is
`AIRSPY_SUCCESS` when the control transfer of the mode-OFF request returns 0
and `AIRSPY_ERROR_LIBUSB` otherwise; in both cases the backend calls are one
`libusb_cancel_transfer` for every non-NULL entry of the ring, in ring order
(none when the ring itself is NULL), followed by the mode-OFF request; and
`airspy_close(NULL)` returns `AIRSPY_SUCCESS` without any backend call. -/
theorem close_returns_term_rx_result (device : airspy_device) (result : Int) :
    (airspy_close (some device) result).1 = (airspy_term_rx device result).1 ∧
    (airspy_close (some device) 0).1 = AIRSPY_SUCCESS ∧
    ((airspy_close (some device) result).1 = AIRSPY_SUCCESS ↔ result = 0) ∧
    ((airspy_close (some device) result).1 = AIRSPY_ERROR_LIBUSB ↔ result ≠ 0) ∧
    (airspy_close (some device) result).2 =
      (match device.transfers with
        | some ts =>
          ((List.range device.transfer_count).filter
            (fun i => (ts.getD i none).isSome)).map backend_call.cancel_transfer
        | none => []) ++
      [backend_call.control_transfer airspy_vendor_request.AIRSPY_RECEIVER_MODE 0 0 0] ∧
    (airspy_close (some device) result).2.getLast? =
      some (backend_call.control_transfer airspy_vendor_request.AIRSPY_RECEIVER_MODE
        RECEIVER_MODE_OFF 0 0) ∧
    (airspy_term_rx device result).2.1 = { device with stop_requested := true } ∧
    airspy_close none result = (AIRSPY_SUCCESS, []) := by
  have hc := cancel_requests_eq device.transfer_count
  refine ⟨rfl, by simp [airspy_close, airspy_term_rx, airspy_set_receiver_mode], ?_, ?_, ?_,
    by simp [airspy_close, airspy_term_rx, airspy_set_receiver_mode], rfl, rfl⟩
  · by_cases h : result = 0
    · simp [airspy_close, airspy_term_rx, airspy_set_receiver_mode, h]
    · simp only [airspy_close, airspy_term_rx, airspy_set_receiver_mode, ne_eq, h,
        not_false_eq_true, if_true, iff_false]
      decide
  · by_cases h : result = 0
    · simp only [airspy_close, airspy_term_rx, airspy_set_receiver_mode, ne_eq, h,
        not_true_eq_false, if_false, iff_false]
      decide
    · simp [airspy_close, airspy_term_rx, airspy_set_receiver_mode, h]
  · simp only [airspy_close, airspy_term_rx, airspy_set_receiver_mode, cancel_transfers,
      RECEIVER_MODE_OFF]
    cases hT : device.transfers with
    | none => rfl
    | some ts => exact congrArg (fun l => l ++ _) (hc (fun i => ts.getD i none))

/-! ### `iqconverter_int16_init` -/

/-- C22, evaluated at failing inputs.  `iqconverter_int16_init` returns 0
whichever allocations fail, since `ret` is never assigned: with the first
allocation failing, and with only the third failing, the value returned is 0
and no usable converter is left.  When all three allocations succeed the
function returns 0 as well, with `len / 2 + 1` even taps stored and the state
reset. -/
theorem init_allocation_failure_returns_zero (cnv : iqconverter_int16_t)
    (hb_kernel : Nat → Int) (len : Nat) (alloc : converter_alloc_site → Bool) :
    (iqconverter_int16_init cnv hb_kernel len alloc).1 = 0 ∧
    iqconverter_int16_init cnv hb_kernel len (fun _ => false) = (0, none) ∧
    iqconverter_int16_init cnv hb_kernel len
      (fun a => decide (a ≠ converter_alloc_site.delay_line)) = (0, none) ∧
    ∃ c, iqconverter_int16_init cnv hb_kernel len (fun _ => true) = (0, some c) ∧
      c.len = len / 2 + 1 ∧ (∀ i, i < c.len → c.fir_kernel i = hb_kernel (i * 2)) ∧
      c.fir_index = 0 ∧ c.delay_index = 0 ∧ c.old_x = 0 ∧ c.old_y = 0 ∧ c.old_e = 0 := by
  refine ⟨?_, ?_, ?_, ?_⟩
  · simp [iqconverter_int16_init]
  · simp [iqconverter_int16_init]
  · simp [iqconverter_int16_init]
  · refine ⟨_, by simp only [iqconverter_int16_init]; rfl, rfl, ?_, rfl, rfl, rfl, rfl, rfl⟩
    intro i hi
    simp only [iqconverter_int16_reset] at hi ⊢
    rw [if_pos hi]

/-! ### Index and queue bounds of `fir_interleaved` -/

/-- One pass of the outer loop keeps `fir_index` at or below
`len * (SIZE_FACTOR - 1)`. -/
theorem fir_iter_index_le (len : Nat) (kernel queue : Nat → Int) (idx : Nat) (x : Int)
    (h : idx ≤ len * (SIZE_FACTOR - 1)) :
    (fir_iter len kernel queue idx x).2.1 ≤ len * (SIZE_FACTOR - 1) := by
  by_cases h0 : idx = 0
  · simp [fir_iter, h0]
  · simp only [fir_iter, if_neg h0]
    omega

theorem fir_loop_index_le (len : Nat) (kernel : Nat → Int) :
    ∀ (samples : List Int) (queue : Nat → Int) (idx : Nat),
      idx ≤ len * (SIZE_FACTOR - 1) →
        (fir_loop len kernel queue idx samples).2.1 ≤ len * (SIZE_FACTOR - 1) := by
  intro samples
  induction samples using list_pairs_induction with
  | h0 => intro _ idx h; exact h
  | h1 x => intro queue idx h; exact fir_iter_index_le len kernel queue idx x h
  | h2 x s rest ih =>
    intro queue idx h
    exact ih _ _ (fir_iter_index_le len kernel queue idx x h)

theorem fir_calls_index_le : ∀ (bufs : List (List Int)) (cnv : iqconverter_int16_t),
    cnv.fir_index ≤ cnv.len * (SIZE_FACTOR - 1) →
      (fir_calls cnv bufs).fir_index ≤ cnv.len * (SIZE_FACTOR - 1) ∧
      (fir_calls cnv bufs).len = cnv.len := by
  intro bufs
  induction bufs with
  | nil => intro cnv h; exact ⟨h, rfl⟩
  | cons v vs ih =>
    intro cnv h
    exact ih (fir_interleaved cnv v).1
      (fir_loop_index_le cnv.len cnv.fir_kernel v cnv.fir_queue cnv.fir_index h)

/-- C23, counterexample.  With three stored taps, one call of
`fir_interleaved` from the reset state on the buffer `[5, 7]` leaves
`fir_index = 3 * 15 = 45`, which is not below the number of stored taps
`cnv->len = 3`. -/
theorem fir_index_exceeds_kernel_len :
    (iqconverter_int16_reset (stale_converter 3 impulse_taps)).fir_index = 0 ∧
    (fir_interleaved (iqconverter_int16_reset (stale_converter 3 impulse_taps))
      [5, 7]).1.fir_index = 45 ∧
    (fir_interleaved (iqconverter_int16_reset (stale_converter 3 impulse_taps))
      [5, 7]).1.len = 3 ∧
    ¬ ((fir_interleaved (iqconverter_int16_reset (stale_converter 3 impulse_taps))
        [5, 7]).1.fir_index <
      (fir_interleaved (iqconverter_int16_reset (stale_converter 3 impulse_taps))
        [5, 7]).1.len) := by
  refine ⟨by decide, by decide, by decide, by decide⟩

/-- C23 (amended).  FIR index invariant: starting from the reset state, after
every call of `fir_interleaved` (a sequence of calls on buffers of any
lengths) the stored `fir_index` satisfies
`0 <= fir_index <= cnv->len * (SIZE_FACTOR - 1)`, with `cnv->len >= 1` the
number of stored taps, which the calls leave unchanged; so the window
`[fir_index, fir_index + cnv->len)` lies inside the queue of
`cnv->len * SIZE_FACTOR` entries. -/
theorem fir_index_bound (cnv0 : iqconverter_int16_t) (_hL : 1 ≤ cnv0.len)
    (bufs : List (List Int)) :
    (fir_calls (iqconverter_int16_reset cnv0) bufs).len = cnv0.len ∧
    (fir_calls (iqconverter_int16_reset cnv0) bufs).fir_index ≤
      cnv0.len * (SIZE_FACTOR - 1) ∧
    (fir_calls (iqconverter_int16_reset cnv0) bufs).fir_index + cnv0.len ≤
      fir_queue_entries cnv0.len := by
  have h := fir_calls_index_le bufs (iqconverter_int16_reset cnv0) (Nat.zero_le _)
  have hl : (iqconverter_int16_reset cnv0).len = cnv0.len := rfl
  rw [hl] at h
  refine ⟨h.2, h.1, ?_⟩
  have h1 := h.1
  simp only [SIZE_FACTOR, fir_queue_entries] at h1 ⊢
  omega

/-- Witness for C23 (amended): three stored taps, two calls; the index ends
at 44. -/
theorem fir_index_bound_witness :
    1 ≤ (stale_converter 3 impulse_taps).len ∧
    (fir_calls (iqconverter_int16_reset (stale_converter 3 impulse_taps))
      [[5, 7], [1, 2]]).fir_index = 44 ∧
    (fir_calls (iqconverter_int16_reset (stale_converter 3 impulse_taps))
      [[5, 7], [1, 2]]).len = (stale_converter 3 impulse_taps).len ∧
    (fir_calls (iqconverter_int16_reset (stale_converter 3 impulse_taps))
      [[5, 7], [1, 2]]).fir_index ≤ (stale_converter 3 impulse_taps).len * (SIZE_FACTOR - 1) ∧
    (fir_calls (iqconverter_int16_reset (stale_converter 3 impulse_taps))
      [[5, 7], [1, 2]]).fir_index + (stale_converter 3 impulse_taps).len ≤
      fir_queue_entries (stale_converter 3 impulse_taps).len :=
  ⟨by decide, by decide,
    fir_index_bound (stale_converter 3 impulse_taps) (by decide) [[5, 7], [1, 2]]⟩

/-- The queue after one pass of the outer loop differs from the one before
only at `fir_index` and, on wrap, in the mirror region. -/
theorem fir_iter_frame (len : Nat) (kernel queue : Nat → Int) (idx : Nat) (x : Int) (n : Nat)
    (hn : (fir_iter len kernel queue idx x).1 n ≠ queue n) :
    n = idx ∨ (idx = 0 ∧ len * (SIZE_FACTOR - 1) + 1 ≤ n ∧ n < len * SIZE_FACTOR) := by
  by_cases hidx : n = idx
  · exact Or.inl hidx
  · right
    by_cases h0 : idx = 0
    · refine ⟨h0, ?_⟩
      by_contra hc
      apply hn
      simp only [fir_iter, if_pos h0, memcpy_int32, SIZE_FACTOR] at hc ⊢
      rw [if_neg (by omega)]
      simp only [store]
      rw [if_neg hidx]
    · exfalso
      apply hn
      simp only [fir_iter, if_neg h0, store]
      rw [if_neg hidx]

/-- One pass of the outer loop depends on the queue only through the window
`[fir_index, fir_index + len)`: two queues that agree there give the same
output sample, the same new index and the same values at the entries the
pass stores to. -/
theorem fir_iter_reads_window (len : Nat) (kernel queue queue2 : Nat → Int) (idx : Nat)
    (x : Int) (hq : ∀ n, idx ≤ n → n < idx + len → queue2 n = queue n) :
    (fir_iter len kernel queue2 idx x).2.2 = (fir_iter len kernel queue idx x).2.2 ∧
    (fir_iter len kernel queue2 idx x).2.1 = (fir_iter len kernel queue idx x).2.1 ∧
    ∀ n, (n = idx ∨ (idx = 0 ∧ len * (SIZE_FACTOR - 1) + 1 ≤ n ∧ n < len * SIZE_FACTOR)) →
      (fir_iter len kernel queue2 idx x).1 n = (fir_iter len kernel queue idx x).1 n := by
  have hs : ∀ n, idx ≤ n → n < idx + len → store queue2 idx x n = store queue idx x n := by
    intro n h1 h2
    simp only [store]
    by_cases e : n = idx
    · rw [if_pos e, if_pos e]
    · rw [if_neg e, if_neg e, hq n h1 h2]
  refine ⟨?_, ?_, ?_⟩
  · simp only [fir_iter, fir_acc_eq_sum]
    congr 3
    apply Finset.sum_congr rfl
    intro j hj
    have hj : j < len := Finset.mem_range.mp hj
    rw [hs (idx + j) (by omega) (by omega)]
  · by_cases h0 : idx = 0
    · simp only [fir_iter, if_pos h0]
    · simp only [fir_iter, if_neg h0]
  · intro n hn
    by_cases h0 : idx = 0
    · subst h0
      simp only [fir_iter, if_true, memcpy_int32, SIZE_FACTOR] at hn ⊢
      by_cases hm : len * (16 - 1) + 1 ≤ n ∧ n < len * (16 - 1) + 1 + (len - 1)
      · rw [if_pos hm, if_pos hm]
        exact hs _ (by omega) (by omega)
      · rw [if_neg hm, if_neg hm]
        have hn0 : n = 0 := by omega
        subst hn0
        simp [store]
    · simp only [fir_iter, if_neg h0]
      have hn0 : n = idx := by
        rcases hn with h | ⟨h, _⟩
        · exact h
        · exact absurd h h0
      subst hn0
      simp [store]

/-- C24.  FIR queue accesses stay in bounds: for `L = cnv->len >= 1` and
`0 <= fir_index <= L * 15`, every queue access of one pass of the outer loop
of `fir_interleaved` has an index inside the `L * 16` entries allocated by
`iqconverter_int16_init`; every read, and the store of the sample, is in
`[fir_index, fir_index + L)`; the other stores are those of the mirror copy,
happen only on wrap (`fir_index = 0`) and go to `L * 15 + 1 .. L * 16 - 1`;
the queue is changed nowhere else, and the output sample, the new index and
the stored values do not depend on queue entries outside
`[fir_index, fir_index + L)`; and afterwards again
`0 <= fir_index <= L * 15`. -/
theorem fir_queue_in_bounds (L fir_index : Nat) (hL : 1 ≤ L) (hidx : fir_index ≤ L * 15)
    (kernel queue : Nat → Int) (x : Int) :
    (∀ a ∈ fir_iter_accesses L fir_index,
      a.index < fir_queue_entries L ∧
      ((fir_index ≤ a.index ∧ a.index < fir_index + L) ∨
        (a.is_write = true ∧ fir_index = 0 ∧ L * 15 + 1 ≤ a.index ∧ a.index ≤ L * 16 - 1))) ∧
    (∀ n, (fir_iter L kernel queue fir_index x).1 n ≠ queue n →
      n = fir_index ∨ (fir_index = 0 ∧ L * 15 + 1 ≤ n ∧ n ≤ L * 16 - 1)) ∧
    (∀ queue2 : Nat → Int,
      (∀ n, fir_index ≤ n → n < fir_index + L → queue2 n = queue n) →
        (fir_iter L kernel queue2 fir_index x).2.2 = (fir_iter L kernel queue fir_index x).2.2 ∧
        (fir_iter L kernel queue2 fir_index x).2.1 = (fir_iter L kernel queue fir_index x).2.1 ∧
        ∀ n, (n = fir_index ∨ (fir_index = 0 ∧ L * 15 + 1 ≤ n ∧ n ≤ L * 16 - 1)) →
          (fir_iter L kernel queue2 fir_index x).1 n =
            (fir_iter L kernel queue fir_index x).1 n) ∧
    (fir_iter L kernel queue fir_index x).2.1 ≤ L * 15 := by
  refine ⟨?_, ?_, ?_, ?_⟩
  · intro a ha
    have hq : fir_queue_entries L = L * 16 := by
      simp only [fir_queue_entries, SIZE_FACTOR]; omega
    rw [hq]
    simp only [fir_iter_accesses, List.mem_cons, List.mem_append, List.mem_map,
      List.mem_range] at ha
    rcases ha with rfl | ⟨j, hj, rfl⟩ | ha
    · simp only [queue_access.index]; omega
    · simp only [queue_access.index]; omega
    · by_cases h0 : fir_index = 0
      · rw [if_pos h0] at ha
        simp only [List.mem_append, List.mem_map, List.mem_range] at ha
        rcases ha with ⟨k, hk, rfl⟩ | ⟨k, hk, rfl⟩
        · simp only [queue_access.index]; omega
        · simp only [queue_access.index, queue_access.is_write, SIZE_FACTOR]
          refine ⟨by omega, Or.inr ⟨trivial, h0, by omega, by omega⟩⟩
      · rw [if_neg h0] at ha
        simp at ha
  · intro n hn
    rcases fir_iter_frame L kernel queue fir_index x n hn with h | ⟨h0, h1, h2⟩
    · exact Or.inl h
    · simp only [SIZE_FACTOR] at h1 h2
      exact Or.inr ⟨h0, by omega, by omega⟩
  · intro queue2 hq
    obtain ⟨r1, r2, r3⟩ := fir_iter_reads_window L kernel queue queue2 fir_index x hq
    refine ⟨r1, r2, ?_⟩
    intro n hn
    apply r3 n
    rcases hn with h | ⟨h0, h1, h2⟩
    · exact Or.inl h
    · simp only [SIZE_FACTOR]
      exact Or.inr ⟨h0, by omega, by omega⟩
  · have h := fir_iter_index_le L kernel queue fir_index x (by simpa [SIZE_FACTOR] using hidx)
    simpa [SIZE_FACTOR] using h

/-- Witness for C24: two stored taps at the wrap, `fir_index = 0`; the pass
stores to the entries 0 and 31, reads 0 and 1, and leaves `fir_index = 30`. -/
theorem fir_queue_in_bounds_witness :
    1 ≤ 2 ∧ 0 ≤ 2 * 15 ∧
    fir_iter_accesses 2 0 =
      [queue_access.write 0, queue_access.read 0, queue_access.read 1, queue_access.read 0,
        queue_access.write 31] ∧
    (fir_iter 2 impulse_taps (fun _ => 9) 0 7).2.1 = 30 ∧
    ((∀ a ∈ fir_iter_accesses 2 0,
      a.index < fir_queue_entries 2 ∧
      ((0 ≤ a.index ∧ a.index < 0 + 2) ∨
        (a.is_write = true ∧ 0 = 0 ∧ 2 * 15 + 1 ≤ a.index ∧ a.index ≤ 2 * 16 - 1))) ∧
    (∀ n, (fir_iter 2 impulse_taps (fun _ => 9) 0 7).1 n ≠ (fun _ => 9) n →
      n = 0 ∨ (0 = 0 ∧ 2 * 15 + 1 ≤ n ∧ n ≤ 2 * 16 - 1)) ∧
    (∀ queue2 : Nat → Int,
      (∀ n, 0 ≤ n → n < 0 + 2 → queue2 n = (fun _ => 9) n) →
        (fir_iter 2 impulse_taps queue2 0 7).2.2 =
          (fir_iter 2 impulse_taps (fun _ => 9) 0 7).2.2 ∧
        (fir_iter 2 impulse_taps queue2 0 7).2.1 =
          (fir_iter 2 impulse_taps (fun _ => 9) 0 7).2.1 ∧
        ∀ n, (n = 0 ∨ (0 = 0 ∧ 2 * 15 + 1 ≤ n ∧ n ≤ 2 * 16 - 1)) →
          (fir_iter 2 impulse_taps queue2 0 7).1 n =
            (fir_iter 2 impulse_taps (fun _ => 9) 0 7).1 n) ∧
    (fir_iter 2 impulse_taps (fun _ => 9) 0 7).2.1 ≤ 2 * 15) :=
  ⟨by decide, by decide, by decide, by decide,
    fir_queue_in_bounds 2 0 (by decide) (by decide) impulse_taps (fun _ => 9) 7⟩

/-! ### Headroom of the DC blocker -/

/-- One call of `_remove_dc_sample` on a 12-bit sample from a state within
the invariant: every exact value fits its C type, the function returns the
exact values, and the invariant holds again. -/
theorem dc_headroom_step (st : dc_state) (r : Nat) (hr : r ≤ 4095) (h : dc_headroom st) :
    int16_range (dc_exact_values r st.e st.x st.y).x ∧
    int16_range (dc_exact_values r st.e st.x st.y).w ∧
    int32_range (st.y * 32100) ∧
    int32_range (dc_exact_values r st.e st.x st.y).u ∧
    int16_range (dc_exact_values r st.e st.x st.y).s ∧
    int32_range ((dc_exact_values r st.e st.x st.y).s * 2 ^ 15) ∧
    -32760 ≤ (dc_exact_values r st.e st.x st.y).y ∧
    (dc_exact_values r st.e st.x st.y).y ≤ 32760 ∧
    0 ≤ (dc_exact_values r st.e st.x st.y).e ∧
    (dc_exact_values r st.e st.x st.y).e < 32768 ∧
    _remove_dc_sample r st.e st.x st.y =
      { ret := (dc_exact_values r st.e st.x st.y).y,
        new_e := (dc_exact_values r st.e st.x st.y).e,
        new_x := (dc_exact_values r st.e st.x st.y).x,
        new_y := (dc_exact_values r st.e st.x st.y).y } ∧
    dc_headroom ⟨(dc_exact_values r st.e st.x st.y).x, (dc_exact_values r st.e st.x st.y).y,
      (dc_exact_values r st.e st.x st.y).e⟩ := by
  obtain ⟨hx0, hx1, hv0, hv1, he0, he1⟩ := h
  have hX : ((r : Int) - 2048) * 2 ^ SAMPLE_SHIFT = ((r : Int) - 2048) * 8 := by
    simp only [SAMPLE_SHIFT]; norm_num
  have hP : ∀ s : Int, s * 2 ^ 15 = s * 32768 := by intro s; norm_num
  obtain ⟨X, hXd⟩ : ∃ X : Int, X = ((r : Int) - 2048) * 8 := ⟨_, rfl⟩
  have hX0 : -16384 ≤ X := by omega
  have hX1 : X ≤ 16376 := by omega
  obtain ⟨s, hsd⟩ : ∃ s : Int, s = (st.e + st.y * 32100) / 32768 := ⟨_, rfl⟩
  have hs0 : -16376 ≤ s - st.x := by omega
  have hs1 : s - st.x ≤ 16384 := by omega
  have t1 : trunc32 (X) = X := trunc32_of_range _ (by omega) (by omega)
  have t2 : trunc16 X = X := trunc16_of_range _ (by omega) (by omega)
  have t3 : trunc16 (X - st.x) = X - st.x := trunc16_of_range _ (by omega) (by omega)
  have t4 : trunc32 (st.y * 32100) = st.y * 32100 := trunc32_of_range _ (by omega) (by omega)
  have t5 : trunc32 (st.e + st.y * 32100) = st.e + st.y * 32100 :=
    trunc32_of_range _ (by omega) (by omega)
  have t6 : trunc16 s = s := trunc16_of_range _ (by omega) (by omega)
  have t7 : trunc16 (X - st.x + s) = X - st.x + s := trunc16_of_range _ (by omega) (by omega)
  have t8 : trunc32 (s * 32768) = s * 32768 := trunc32_of_range _ (by omega) (by omega)
  have t9 : trunc32 (st.e + st.y * 32100 - s * 32768) = st.e + st.y * 32100 - s * 32768 :=
    trunc32_of_range _ (by omega) (by omega)
  simp only [dc_exact_values, _remove_dc_sample, shiftRight15, hX, hP, ← hXd, ← hsd, t1, t2, t3,
    t4, t5, t6, t7, t8, t9, int16_range, int32_range, dc_headroom]
  refine ⟨⟨by omega, by omega⟩, ⟨by omega, by omega⟩, ⟨by omega, by omega⟩,
    ⟨by omega, by omega⟩, ⟨by omega, by omega⟩, ⟨by omega, by omega⟩, by omega, by omega,
    by omega, by omega, trivial, by omega, by omega, by omega, by omega, by omega, by omega⟩

/-- The iterated `_remove_dc_sample` follows the reference run. -/
theorem remove_dc_steps_eq_ref (st : dc_state) (raw : List Nat) (i : Nat) :
    remove_dc_steps st raw i = dc_ref_run st raw i := by
  induction i with
  | zero => rfl
  | succ i ih =>
    simp only [remove_dc_steps, dc_ref_run, ih, remove_dc_sample_struct]

/-- From the reset state and on 12-bit input the invariant holds before every
sample. -/
theorem dc_headroom_steps (cnv0 : iqconverter_int16_t) (raw : List Nat)
    (hraw : ∀ r ∈ raw, r ≤ 4095) (i : Nat) (hi : i ≤ raw.length) :
    dc_headroom (remove_dc_steps (reset_dc_state cnv0) raw i) := by
  induction i with
  | zero =>
    simp only [remove_dc_steps, reset_dc_state, iqconverter_int16_reset, dc_headroom]
    omega
  | succ i ih =>
    have hlt : i < raw.length := by omega
    have hr : raw.getD i 0 ≤ 4095 := by
      rw [List.getD_eq_getElem raw 0 hlt]
      exact hraw _ (List.getElem_mem hlt)
    have h := dc_headroom_step _ (raw.getD i 0) hr (ih (by omega))
    simp only [remove_dc_steps]
    rw [h.2.2.2.2.2.2.2.2.2.2.1]
    exact h.2.2.2.2.2.2.2.2.2.2.2

/-- On a value with `|y| <= 32760` the four output patterns need no
truncation. -/
theorem dc_exact_out_pattern (i : Nat) (y : Int) (h0 : -32760 ≤ y) (h1 : y ≤ 32760) :
    dc_ref_pattern i y = dc_exact_out i y ∧ int16_range (dc_exact_out i y) := by
  have h4 : i % 4 < 4 := Nat.mod_lt _ (by decide)
  simp only [dc_ref_pattern, dc_exact_out, int16_range]
  generalize i % 4 = m at h4
  interval_cases m
  · show trunc16 (-y) = -y ∧ -32768 ≤ -y ∧ -y ≤ 32767
    exact ⟨trunc16_of_range _ (by omega) (by omega), by omega, by omega⟩
  · show trunc16 ((-y) >>> (1 : Nat)) = (-y) >>> (1 : Nat) ∧
      -32768 ≤ (-y) >>> (1 : Nat) ∧ (-y) >>> (1 : Nat) ≤ 32767
    simp only [shiftRight1]
    exact ⟨trunc16_of_range _ (by omega) (by omega), by omega, by omega⟩
  · show trunc16 y = y ∧ -32768 ≤ y ∧ y ≤ 32767
    exact ⟨trunc16_of_range _ (by omega) (by omega), by omega, by omega⟩
  · show trunc16 (y >>> (1 : Nat)) = y >>> (1 : Nat) ∧
      -32768 ≤ y >>> (1 : Nat) ∧ y >>> (1 : Nat) ≤ 32767
    simp only [shiftRight1]
    exact ⟨trunc16_of_range _ (by omega) (by omega), by omega, by omega⟩

/-- C25.  DC blocker headroom: starting from the reset state, for every
buffer of raw samples in `[0, 4095]` and every offset `i` in it, the residue
`old_e` before and after the step is in `[0, 32768)`, the exact
(unbounded-integer) values of `x`, `w`, `s`, `y`, of `-y` and of the value
stored to the buffer fit `int16_t`, with `|y| <= 32760`, and `u` fits
`int32_t`; `_remove_dc_sample` returns exactly these values, and (for a
buffer length that is a multiple of 4) `remove_dc` stores the exact pattern
value at offset `i`: no conversion to a fixed width changes a value. -/
theorem remove_dc_headroom (cnv0 : iqconverter_int16_t) (raw : List Nat)
    (hraw : ∀ r ∈ raw, r ≤ 4095) (i : Nat) (hi : i < raw.length) :
    0 ≤ (remove_dc_steps (reset_dc_state cnv0) raw i).e ∧
    (remove_dc_steps (reset_dc_state cnv0) raw i).e < 32768 ∧
    int16_range (remove_dc_exact (reset_dc_state cnv0) raw i).x ∧
    int16_range (remove_dc_exact (reset_dc_state cnv0) raw i).w ∧
    int32_range (remove_dc_exact (reset_dc_state cnv0) raw i).u ∧
    int16_range (remove_dc_exact (reset_dc_state cnv0) raw i).s ∧
    int16_range (remove_dc_exact (reset_dc_state cnv0) raw i).y ∧
    -32760 ≤ (remove_dc_exact (reset_dc_state cnv0) raw i).y ∧
    (remove_dc_exact (reset_dc_state cnv0) raw i).y ≤ 32760 ∧
    int16_range (-(remove_dc_exact (reset_dc_state cnv0) raw i).y) ∧
    int16_range (dc_exact_out i (remove_dc_exact (reset_dc_state cnv0) raw i).y) ∧
    0 ≤ (remove_dc_exact (reset_dc_state cnv0) raw i).e ∧
    (remove_dc_exact (reset_dc_state cnv0) raw i).e < 32768 ∧
    _remove_dc_sample (raw.getD i 0) (remove_dc_steps (reset_dc_state cnv0) raw i).e
        (remove_dc_steps (reset_dc_state cnv0) raw i).x
        (remove_dc_steps (reset_dc_state cnv0) raw i).y =
      { ret := (remove_dc_exact (reset_dc_state cnv0) raw i).y,
        new_e := (remove_dc_exact (reset_dc_state cnv0) raw i).e,
        new_x := (remove_dc_exact (reset_dc_state cnv0) raw i).x,
        new_y := (remove_dc_exact (reset_dc_state cnv0) raw i).y } ∧
    (raw.length % 4 = 0 →
      ∃ cnv1 out, remove_dc (iqconverter_int16_reset cnv0) raw = some (cnv1, out) ∧
        out[i]? = some (dc_exact_out i (remove_dc_exact (reset_dc_state cnv0) raw i).y)) := by
  have hinv := dc_headroom_steps cnv0 raw hraw i (by omega)
  have hr : raw.getD i 0 ≤ 4095 := by
    rw [List.getD_eq_getElem raw 0 hi]
    exact hraw _ (List.getElem_mem hi)
  obtain ⟨sx, sw, _, su, ss, _, sy0, sy1, se0, se1, seq, _⟩ :=
    dc_headroom_step _ (raw.getD i 0) hr hinv
  have hpat := dc_exact_out_pattern i _ sy0 sy1
  simp only [remove_dc_exact]
  refine ⟨hinv.2.2.2.2.1, hinv.2.2.2.2.2, sx, sw, su, ss, ⟨by omega, by omega⟩, sy0, sy1,
    ⟨by omega, by omega⟩, hpat.2, se0, se1, seq, ?_⟩
  intro hlen
  obtain ⟨out, h1, _, h3⟩ :=
    remove_dc_loop_spec (raw.length / 4) raw (reset_dc_state cnv0) (by omega)
  have h1b := h1
  simp only [reset_dc_state] at h1b
  simp only [remove_dc]
  rw [h1b]
  refine ⟨_, out, rfl, ?_⟩
  · rw [h3 i hi]
    simp only [dc_ref_out]
    rw [← remove_dc_steps_eq_ref]
    have e : (remove_dc_steps (reset_dc_state cnv0) raw (i + 1)).y =
        (dc_exact_values (raw.getD i 0) (remove_dc_steps (reset_dc_state cnv0) raw i).e
          (remove_dc_steps (reset_dc_state cnv0) raw i).x
          (remove_dc_steps (reset_dc_state cnv0) raw i).y).y := by
      simp only [remove_dc_steps]
      rw [seq]
    rw [e, ← hpat.1]

/-- Witness for C25: the extreme swing `0, 4095, 0, 4095` after the reset of
a stale converter.  At offset 1 the exact values are `x = 16376`,
`w = 32760`, `s = -16050`, `y = 16710`, and `remove_dc` stores
`(-16710) >> 1 = -8355`. -/
theorem remove_dc_headroom_witness :
    (∀ r ∈ [0, 4095, 0, 4095], r ≤ 4095) ∧ 1 < [0, 4095, 0, 4095].length ∧
    (remove_dc (iqconverter_int16_reset (stale_converter 3 impulse_taps))
      [0, 4095, 0, 4095]).map Prod.snd = some [16384, -8355, -16391, 8351] ∧
    (remove_dc_exact (reset_dc_state (stale_converter 3 impulse_taps)) [0, 4095, 0, 4095] 1).w
      = 32760 ∧
    (remove_dc_exact (reset_dc_state (stale_converter 3 impulse_taps)) [0, 4095, 0, 4095] 1).y
      = 16710 ∧
    int16_range
      (remove_dc_exact (reset_dc_state (stale_converter 3 impulse_taps)) [0, 4095, 0, 4095] 1).y ∧
    [0, 4095, 0, 4095].length % 4 = 0 ∧
    ∃ cnv1 out, remove_dc (iqconverter_int16_reset (stale_converter 3 impulse_taps))
        [0, 4095, 0, 4095] = some (cnv1, out) ∧
      out[1]? = some (dc_exact_out 1 (remove_dc_exact
        (reset_dc_state (stale_converter 3 impulse_taps)) [0, 4095, 0, 4095] 1).y) :=
  have h := remove_dc_headroom (stale_converter 3 impulse_taps) [0, 4095, 0, 4095]
    (by decide) 1 (by decide)
  ⟨by decide, by decide, by decide, by decide, by decide, h.2.2.2.2.2.2.1, by decide,
    h.2.2.2.2.2.2.2.2.2.2.2.2.2.2 (by decide)⟩

/-! ### FIR history after a reset -/

/-- Two runs of the loop of `fir_interleaved` whose windows hold the same
history, with kernels that agree on the stored taps, produce the same
buffer, wherever the windows lie and whatever the queues hold elsewhere. -/
theorem fir_loop_same_window (len : Nat) (k1 k2 : Nat → Int)
    (hk : ∀ j, j < len → k1 j = k2 j) :
    ∀ (samples : List Int) (q1 q2 : Nat → Int) (i1 i2 : Nat) (hist : Nat → Int),
      fir_window len q1 i1 hist → fir_window len q2 i2 hist →
        (fir_loop len k1 q1 i1 samples).2.2 = (fir_loop len k2 q2 i2 samples).2.2 := by
  have hsum : ∀ f : Nat → Int, Finset.sum (Finset.range len) (fun j => k1 j * f j) =
      Finset.sum (Finset.range len) (fun j => k2 j * f j) := by
    intro f
    apply Finset.sum_congr rfl
    intro j hj
    rw [hk j (Finset.mem_range.mp hj)]
  intro samples
  induction samples using list_pairs_induction with
  | h0 => intro _ _ _ _ _ _ _; rfl
  | h1 x =>
    intro q1 q2 i1 i2 hist h1 h2
    simp only [fir_loop, (fir_iter_spec len k1 q1 i1 hist x h1).1,
      (fir_iter_spec len k2 q2 i2 hist x h2).1, hsum]
  | h2 x s rest ih =>
    intro q1 q2 i1 i2 hist h1 h2
    obtain ⟨o1, w1⟩ := fir_iter_spec len k1 q1 i1 hist x h1
    obtain ⟨o2, w2⟩ := fir_iter_spec len k2 q2 i2 hist x h2
    simp only [fir_loop, o1, o2, hsum, ih _ _ _ _ _ w1 w2]

/-- C26.  Reset erases the FIR history observably: for two converters with
the same number of stored taps and the same taps, whatever their FIR queues
and indices (and other fields) hold, `fir_interleaved` after
`iqconverter_int16_reset` returns the same buffer for the same input of any
length; the I outputs after a reset do not depend on queue entries written
before it, although the reset clears only the first `8 * len` of the
`16 * len` queue entries. -/
theorem reset_erases_fir_history (c1 c2 : iqconverter_int16_t) (hlen : c1.len = c2.len)
    (hk : ∀ j, j < c1.len → c1.fir_kernel j = c2.fir_kernel j) (samples : List Int) :
    (fir_interleaved (iqconverter_int16_reset c1) samples).2 =
      (fir_interleaved (iqconverter_int16_reset c2) samples).2 := by
  have w1 := fir_window_reset c1
  have w2 := fir_window_reset c2
  rw [← hlen] at w2
  have h := fir_loop_same_window c1.len c1.fir_kernel c2.fir_kernel hk samples _ _ _ _ _ w1 w2
  simp only [fir_interleaved]
  have e1 : (iqconverter_int16_reset c1).len = c1.len := rfl
  have e2 : (iqconverter_int16_reset c2).len = c1.len := hlen.symm
  have e3 : (iqconverter_int16_reset c1).fir_kernel = c1.fir_kernel := rfl
  have e4 : (iqconverter_int16_reset c2).fir_kernel = c2.fir_kernel := rfl
  rw [e1, e2, e3, e4]
  exact h

/-- Witness for C26: two stored taps, one converter full of stale entries and
one all zero before the reset.  After the reset the queues still differ at
entry 16, yet both calls return the same buffer. -/
theorem reset_erases_fir_history_witness :
    (stale_converter 2 impulse_taps).len = (zeroed_converter 2 impulse_taps).len ∧
    (iqconverter_int16_reset (stale_converter 2 impulse_taps)).fir_queue 16 = 9 ∧
    (iqconverter_int16_reset (zeroed_converter 2 impulse_taps)).fir_queue 16 = 0 ∧
    (fir_interleaved (iqconverter_int16_reset (stale_converter 2 impulse_taps))
      [16384, 1, 0, 2, 0, 3]).2 = [50, 1, -1000, 2, 0, 3] ∧
    (fir_interleaved (iqconverter_int16_reset (stale_converter 2 impulse_taps))
        [16384, 1, 0, 2, 0, 3]).2 =
      (fir_interleaved (iqconverter_int16_reset (zeroed_converter 2 impulse_taps))
        [16384, 1, 0, 2, 0, 3]).2 :=
  ⟨by decide, by decide, by decide, by decide,
    reset_erases_fir_history (stale_converter 2 impulse_taps) (zeroed_converter 2 impulse_taps)
      (by decide) (fun _ _ => rfl) [16384, 1, 0, 2, 0, 3]⟩

end Despairspy
